import Mathlib

/-!
Verification of the incremental ingestion and validation engine of the
ca-token-usage-monitors repository.  The definitions below are shallow
embeddings of the Python sources:

* `CodexUsage`   — src/codex_token_usage/ingestion (dedupe.py, parser.py,
                   repository.py, service.py); the cumulative-counter family.
* `GeminiUsage`  — src/gemini_token_usage/ingestion (parser.py, service.py,
                   repository.py); the composite-key family.
* `OpenCodeUsage`— src/opencode_token_usage/ingestion (service.py,
                   source_reader.py, repository.py); the ordered-cursor family.
* `PyJson`       — the fragment of Python/JSON value semantics the three
                   parsers' numeric-field validation depends on (notably that
                   `bool` is a subclass of `int` for `isinstance`).

Python arbitrary-precision integers are modelled as `Int`; timestamps are
modelled by their (totally ordered) values as `Int`; UUIDs as `Nat`; all
definitions are executable and all equality/order tests are decidable.
-/

/-- Decidable equality on Except results, used to evaluate the engine on
concrete inputs. -/
instance {E A : Type} [DecidableEq E] [DecidableEq A] : DecidableEq (Except E A) := fun x y =>
  match x, y with
  | .error a, .error b =>
    match decEq a b with
    | isTrue h => isTrue (h ▸ rfl)
    | isFalse h => isFalse (fun hc => h (by cases hc; rfl))
  | .ok a, .ok b =>
    match decEq a b with
    | isTrue h => isTrue (h ▸ rfl)
    | isFalse h => isFalse (fun hc => h (by cases hc; rfl))
  | .error _, .ok _ => isFalse (fun hc => Except.noConfusion hc)
  | .ok _, .error _ => isFalse (fun hc => Except.noConfusion hc)

/-- Kernel-reducible decidability for anchored adjacent-pair chains. -/
instance (priority := 1100) decChainAnchored {α : Type} {R : α → α → Prop} [DecidableRel R] :
    ∀ (a : α) (l : List α), Decidable (List.Chain R a l)
  | _, [] => isTrue List.Chain.nil
  | a, b :: l =>
    haveI ih : Decidable (List.Chain R b l) := decChainAnchored b l
    decidable_of_iff (R a b ∧ List.Chain R b l) List.chain_cons.symm

/-- Kernel-reducible decidability for adjacent-pair chains. -/
instance (priority := 1100) decChainAdjacent {α : Type} {R : α → α → Prop} [DecidableRel R] :
    ∀ l : List α, Decidable (List.Chain' R l)
  | [] => isTrue List.chain'_nil
  | a :: l => inferInstanceAs (Decidable (List.Chain R a l))

namespace CodexUsage

/-- Token usage counters for one snapshot (schemas.TokenUsageValues). -/
structure TokenUsageValues where
  input_tokens : Int
  cached_input_tokens : Int
  output_tokens : Int
  reasoning_output_tokens : Int
  total_tokens : Int
deriving DecidableEq, Repr

/-- One token event row built from one token_count event (schemas.TokenEventRow).
`event_timestamp` models the parsed aware datetime by its order type. -/
structure TokenEventRow where
  session_id : Nat
  event_timestamp : Int
  event_line_number : Nat
  model_code : String
  total_usage : TokenUsageValues
  last_usage : TokenUsageValues
deriving DecidableEq, Repr

/-- `TokenEventRow.total_tokens_cumulative` property: total_tokens of the
cumulative snapshot. -/
def TokenEventRow.total_tokens_cumulative (r : TokenEventRow) : Int :=
  r.total_usage.total_tokens

/-- The three integrity errors raised by dedupe.py (errors.py); the message
strings are not modelled, only the exception class. -/
inductive DedupeError where
  | duplicateConflict
  | monotonicity
  | deltaConsistency
deriving DecidableEq, Repr

/-- dedupe._rows_have_matching_payload: duplicate rows must agree on both
usage snapshots. -/
def rowsHaveMatchingPayload (left right : TokenEventRow) : Prop :=
  left.total_usage = right.total_usage ∧ left.last_usage = right.last_usage

instance (left right : TokenEventRow) : Decidable (rowsHaveMatchingPayload left right) :=
  inferInstanceAs (Decidable (left.total_usage = right.total_usage ∧
    left.last_usage = right.last_usage))

/-- Lookup in the `first_by_cumulative` dict, modelled as an association list. -/
def lookupFirst (dict : List (Int × TokenEventRow)) (cumulative : Int) : Option TokenEventRow :=
  (dict.find? (fun p => decide (p.1 = cumulative))).map (·.2)

/-- The first loop of dedupe_and_validate_token_rows: walk the rows keeping the
first occurrence of each cumulative total, counting skipped duplicates and
raising DuplicateConflictError on a duplicate with a differing payload. -/
def dedupeScan (dict : List (Int × TokenEventRow)) (skipped : Nat) :
    List TokenEventRow → Except DedupeError (List TokenEventRow × Nat)
  | [] => .ok ([], skipped)
  | row :: rest =>
    let cumulative := row.total_tokens_cumulative
    match lookupFirst dict cumulative with
    | none =>
      match dedupeScan (dict ++ [(cumulative, row)]) skipped rest with
      | .error e => .error e
      | .ok (deduped, s) => .ok (row :: deduped, s)
    | some existing_row =>
      if rowsHaveMatchingPayload existing_row row then
        dedupeScan dict (skipped + 1) rest
      else
        .error .duplicateConflict

/-- dedupe._validate_uniqueness: fail if duplicate cumulative totals remain. -/
def validateUniquenessGo (observed : List Int) :
    List TokenEventRow → Except DedupeError Unit
  | [] => .ok ()
  | row :: rest =>
    if row.total_tokens_cumulative ∈ observed then .error .duplicateConflict
    else validateUniquenessGo (row.total_tokens_cumulative :: observed) rest

/-- dedupe._validate_uniqueness entry point. -/
def validateUniqueness (token_rows : List TokenEventRow) : Except DedupeError Unit :=
  validateUniquenessGo [] token_rows

/-- The field order of dedupe._validate_row_delta's loop (schemas.TOKEN_FIELDS). -/
def tokenFieldAccessors : List (TokenUsageValues → Int) :=
  [TokenUsageValues.input_tokens,
   TokenUsageValues.cached_input_tokens,
   TokenUsageValues.output_tokens,
   TokenUsageValues.reasoning_output_tokens,
   TokenUsageValues.total_tokens]

/-- dedupe._validate_row_delta's loop over the five token fields: the first
field whose cumulative difference disagrees with the incremental value raises
DeltaConsistencyError. -/
def validateRowDeltaFields (previous current : TokenEventRow) :
    List (TokenUsageValues → Int) → Except DedupeError Unit
  | [] => .ok ()
  | f :: rest =>
    let expected_delta := f current.total_usage - f previous.total_usage
    let actual_delta := f current.last_usage
    if expected_delta = actual_delta then
      validateRowDeltaFields previous current rest
    else
      .error .deltaConsistency

/-- dedupe._validate_row_delta. -/
def validateRowDelta (previous current : TokenEventRow) : Except DedupeError Unit :=
  validateRowDeltaFields previous current tokenFieldAccessors

/-- dedupe._validate_monotonicity_and_deltas: walk adjacent pairs; a
non-increase in the cumulative total raises MonotonicityError, then the delta
check runs for the same pair. -/
def validateMonotonicityAndDeltas : List TokenEventRow → Except DedupeError Unit
  | [] => .ok ()
  | [_] => .ok ()
  | previous :: current :: rest =>
    if current.total_tokens_cumulative ≤ previous.total_tokens_cumulative then
      .error .monotonicity
    else
      match validateRowDelta previous current with
      | .error e => .error e
      | .ok _ => validateMonotonicityAndDeltas (current :: rest)

/-- Deduplication output and counters (schemas.DedupeResult). -/
structure DedupeResult where
  token_rows : List TokenEventRow
  duplicate_rows_skipped : Nat
deriving DecidableEq, Repr

/-- dedupe.dedupe_and_validate_token_rows (the session file path argument only
feeds error messages and is omitted). -/
def dedupe_and_validate_token_rows (token_rows : List TokenEventRow) :
    Except DedupeError DedupeResult :=
  match dedupeScan [] 0 token_rows with
  | .error e => .error e
  | .ok (deduped_rows, duplicate_rows_skipped) =>
    match validateUniqueness deduped_rows with
    | .error e => .error e
    | .ok _ =>
      match validateMonotonicityAndDeltas deduped_rows with
      | .error e => .error e
      | .ok _ => .ok ⟨deduped_rows, duplicate_rows_skipped⟩

/-- The pure first-occurrence-wins deduplicated sequence keyed by cumulative
total (the sequence dedupe's first loop appends to `deduped_rows`), defined
independently of the payload-conflict check so that claims can quantify over
"the deduped sequence". -/
def dedupeKeepFirstGo (seen : List Int) : List TokenEventRow → List TokenEventRow
  | [] => []
  | row :: rest =>
    if row.total_tokens_cumulative ∈ seen then dedupeKeepFirstGo seen rest
    else row :: dedupeKeepFirstGo (row.total_tokens_cumulative :: seen) rest

/-- First-occurrence-wins dedup by cumulative total. -/
def dedupeKeepFirst (rows : List TokenEventRow) : List TokenEventRow :=
  dedupeKeepFirstGo [] rows

/-- Strict increase of the cumulative total between two adjacent rows. -/
def cumLt (a b : TokenEventRow) : Prop :=
  a.total_tokens_cumulative < b.total_tokens_cumulative

instance (a b : TokenEventRow) : Decidable (cumLt a b) :=
  inferInstanceAs (Decidable (a.total_tokens_cumulative < b.total_tokens_cumulative))

/-- All five per-field cumulative differences between two adjacent rows equal
the incremental values carried on the current row. -/
def rowDeltaMatches (previous current : TokenEventRow) : Prop :=
  ∀ f ∈ tokenFieldAccessors,
    f current.total_usage - f previous.total_usage = f current.last_usage

instance (previous current : TokenEventRow) : Decidable (rowDeltaMatches previous current) :=
  List.decidableBAll _ _

/-- One stored row of the codex_session_details table (repository.ensure_schema;
insert_session_details stores the incremental last_usage values plus the
cumulative total). -/
structure StoredDetailRow where
  session_id : Nat
  event_timestamp : Int
  event_line_number : Nat
  model_code : String
  total_tokens_cumulative : Int
  input_tokens : Int
  cached_input_tokens : Int
  output_tokens : Int
  reasoning_output_tokens : Int
  total_tokens : Int
deriving DecidableEq, Repr

/-- The column values insert_session_details binds for one TokenEventRow. -/
def toDetailRow (r : TokenEventRow) : StoredDetailRow :=
  { session_id := r.session_id
    event_timestamp := r.event_timestamp
    event_line_number := r.event_line_number
    model_code := r.model_code
    total_tokens_cumulative := r.total_tokens_cumulative
    input_tokens := r.last_usage.input_tokens
    cached_input_tokens := r.last_usage.cached_input_tokens
    output_tokens := r.last_usage.output_tokens
    reasoning_output_tokens := r.last_usage.reasoning_output_tokens
    total_tokens := r.last_usage.total_tokens }

/-- One row of codex_session_metadata (schemas.SessionMetadataRow). -/
structure SessionMetadataRow where
  session_id : Nat
  session_timestamp : Option Int
  cwd : Option String
  session_file_path : String
deriving DecidableEq, Repr

/-- File bookkeeping state persisted in codex_ingestion_files
(schemas.IngestionFileState); mtime modelled by its order type. -/
structure IngestionFileState where
  session_file_path : String
  file_size_bytes : Int
  file_mtime : Int
deriving DecidableEq, Repr

/-- Tail-ingestion checkpoint loaded from codex_session_details
(schemas.SessionCheckpoint). -/
structure SessionCheckpoint where
  last_ts : Int
  last_total_tokens_cumulative : Int
deriving DecidableEq, Repr

/-- The DuckDB tables the codex ingestion pass reads and writes. -/
structure CodexStore where
  session_metadata : List SessionMetadataRow
  session_details : List StoredDetailRow
  ingestion_files : List IngestionFileState
deriving DecidableEq, Repr

/-- The empty database. -/
def emptyStore : CodexStore := ⟨[], [], []⟩

/-- repository.get_file_state: fetch the bookkeeping row keyed by file path. -/
def getFileState (store : CodexStore) (session_file_path : String) :
    Option IngestionFileState :=
  store.ingestion_files.find? (fun f => decide (f.session_file_path = session_file_path))

/-- Strict lexicographic order on (event_timestamp, total_tokens_cumulative)
keys, the `ORDER BY event_timestamp DESC, total_tokens_cumulative DESC` order. -/
def keyLt (a b : Int × Int) : Bool :=
  decide (a.1 < b.1) || (decide (a.1 = b.1) && decide (a.2 < b.2))

/-- The ordering key of one stored detail row. -/
def detailKey (r : StoredDetailRow) : Int × Int :=
  (r.event_timestamp, r.total_tokens_cumulative)

/-- The ordering key of one checkpoint. -/
def ckptKey (c : SessionCheckpoint) : Int × Int :=
  (c.last_ts, c.last_total_tokens_cumulative)

/-- Accumulator step computing the max-key row of codex_session_details. -/
def ckptCombine (acc : Option SessionCheckpoint) (r : StoredDetailRow) :
    Option SessionCheckpoint :=
  match acc with
  | none => some ⟨r.event_timestamp, r.total_tokens_cumulative⟩
  | some c =>
    if keyLt (ckptKey c) (detailKey r) then
      some ⟨r.event_timestamp, r.total_tokens_cumulative⟩
    else
      some c

/-- repository.get_session_checkpoint: the (timestamp, cumulative) key of the
stored detail row that orders last for the session, or none. -/
def getSessionCheckpoint (store : CodexStore) (session_id : Nat) :
    Option SessionCheckpoint :=
  (store.session_details.filter (fun r => decide (r.session_id = session_id))).foldl
    ckptCombine none

/-- repository.upsert_session_metadata: insert, or update the row with the
same session_id in place. -/
def upsertSessionMetadata (rows : List SessionMetadataRow) (m : SessionMetadataRow) :
    List SessionMetadataRow :=
  if rows.any (fun e => decide (e.session_id = m.session_id)) then
    rows.map (fun e => if e.session_id = m.session_id then m else e)
  else
    rows ++ [m]

/-- One insert of repository.insert_session_details: `ON CONFLICT (session_id,
total_tokens_cumulative) DO NOTHING`. -/
def insertDetailRow (details : List StoredDetailRow) (r : StoredDetailRow) :
    List StoredDetailRow :=
  if details.any (fun e =>
      decide (e.session_id = r.session_id ∧
              e.total_tokens_cumulative = r.total_tokens_cumulative)) then
    details
  else
    details ++ [r]

/-- repository.insert_session_details over a list of deduped token rows. -/
def insertSessionDetails (details : List StoredDetailRow) (token_rows : List TokenEventRow) :
    List StoredDetailRow :=
  token_rows.foldl (fun acc r => insertDetailRow acc (toDetailRow r)) details

/-- repository.upsert_file_state: insert, or update the row keyed by path. -/
def upsertFileState (rows : List IngestionFileState) (fs : IngestionFileState) :
    List IngestionFileState :=
  if rows.any (fun e => decide (e.session_file_path = fs.session_file_path)) then
    rows.map (fun e => if e.session_file_path = fs.session_file_path then fs else e)
  else
    rows ++ [fs]

/-- service._file_state_matches: prior state exists and size and mtime agree. -/
def fileStateMatches (existing : Option IngestionFileState)
    (current : IngestionFileState) : Bool :=
  match existing with
  | none => false
  | some e =>
    decide (e.file_size_bytes = current.file_size_bytes) &&
    decide (e.file_mtime = current.file_mtime)

/-- parser._passes_checkpoint: a token row is in the ingestion tail window. -/
def passesCheckpoint (event_timestamp : Int) (total_tokens_cumulative : Int)
    (checkpoint : SessionCheckpoint) : Bool :=
  if event_timestamp > checkpoint.last_ts then
    true
  else
    decide (event_timestamp = checkpoint.last_ts) &&
    decide (total_tokens_cumulative ≥ checkpoint.last_total_tokens_cumulative)

/-- Whether a candidate row survives the optional checkpoint filter of
parse_session_file. -/
def rowKept (checkpoint : Option SessionCheckpoint) (r : TokenEventRow) : Bool :=
  match checkpoint with
  | none => true
  | some c => passesCheckpoint r.event_timestamp r.total_tokens_cumulative c

/-- Parser output for one session file (schemas.ParsedSessionFile restricted to
the token-row level; the JSON/typing stage is modelled separately in PyJson). -/
structure ParsedSessionFile where
  token_rows : List TokenEventRow
  token_rows_raw : Nat
  token_rows_skipped_before_checkpoint : Nat
deriving DecidableEq, Repr

/-- The token-row loop of parser.parse_session_file: every candidate row counts
as raw; rows at keys before the checkpoint are skipped and counted, the rest
are collected in order. -/
def parseSessionRows (checkpoint : Option SessionCheckpoint) :
    List TokenEventRow → ParsedSessionFile
  | [] => ⟨[], 0, 0⟩
  | r :: rest =>
    let parsed := parseSessionRows checkpoint rest
    if rowKept checkpoint r then
      ⟨r :: parsed.token_rows, parsed.token_rows_raw + 1,
       parsed.token_rows_skipped_before_checkpoint⟩
    else
      ⟨parsed.token_rows, parsed.token_rows_raw + 1,
       parsed.token_rows_skipped_before_checkpoint + 1⟩

/-- Ingestion counters emitted by service.ingest (schemas.IngestionCounters;
the info-null counter lives in the JSON stage and is not modelled here). -/
structure IngestionCounters where
  files_scanned : Nat := 0
  files_ingested : Nat := 0
  files_skipped_unchanged : Nat := 0
  sessions_ingested : Nat := 0
  token_rows_raw : Nat := 0
  token_rows_deduped : Nat := 0
  token_rows_skipped_before_checkpoint : Nat := 0
  duplicate_rows_skipped : Nat := 0
  monotonicity_errors : Nat := 0
  delta_consistency_errors : Nat := 0
  parse_errors : Nat := 0
  failed_files : List String := []
deriving DecidableEq, Repr

/-- One discovered session file as the service sees it after the JSON layer:
its current filesystem state (whose session_file_path is the file's path, as
_build_file_state derives both from the same path), resolved session identity,
and the candidate token rows extracted from its events in file order. -/
structure SessionFileInput where
  file_state : IngestionFileState
  session_id : Nat
  session_timestamp : Option Int
  cwd : Option String
  candidate_rows : List TokenEventRow
deriving DecidableEq, Repr

/-- The session file's path. -/
def SessionFileInput.path (file : SessionFileInput) : String :=
  file.file_state.session_file_path

/-- The body of service.ingest's per-file loop: skip unchanged files, else
parse with the stored checkpoint, dedupe-validate, and either commit all
writes of the pass in one transaction or catch the error, record the file as
failed and bump the matching error counter (DuplicateConflictError falls in
the same except-clause as parse errors). -/
def processSessionFile (store : CodexStore) (counters : IngestionCounters)
    (file : SessionFileInput) : CodexStore × IngestionCounters :=
  let counters := { counters with files_scanned := counters.files_scanned + 1 }
  let current_file_state := file.file_state
  let prior_file_state := getFileState store file.path
  if fileStateMatches prior_file_state current_file_state then
    (store, { counters with
        files_skipped_unchanged := counters.files_skipped_unchanged + 1 })
  else
    let checkpoint := getSessionCheckpoint store file.session_id
    let parsed := parseSessionRows checkpoint file.candidate_rows
    match dedupe_and_validate_token_rows parsed.token_rows with
    | .ok dedupe_result =>
      let metadata : SessionMetadataRow :=
        ⟨file.session_id, file.session_timestamp, file.cwd, file.path⟩
      let store' : CodexStore :=
        { session_metadata := upsertSessionMetadata store.session_metadata metadata
          session_details := insertSessionDetails store.session_details dedupe_result.token_rows
          ingestion_files := upsertFileState store.ingestion_files current_file_state }
      (store', { counters with
          files_ingested := counters.files_ingested + 1
          sessions_ingested := counters.sessions_ingested + 1
          token_rows_raw := counters.token_rows_raw + parsed.token_rows_raw
          token_rows_deduped := counters.token_rows_deduped + dedupe_result.token_rows.length
          token_rows_skipped_before_checkpoint :=
            counters.token_rows_skipped_before_checkpoint +
              parsed.token_rows_skipped_before_checkpoint
          duplicate_rows_skipped :=
            counters.duplicate_rows_skipped + dedupe_result.duplicate_rows_skipped })
    | .error .monotonicity =>
      (store, { counters with
          monotonicity_errors := counters.monotonicity_errors + 1
          failed_files := counters.failed_files ++ [file.path] })
    | .error .deltaConsistency =>
      (store, { counters with
          delta_consistency_errors := counters.delta_consistency_errors + 1
          failed_files := counters.failed_files ++ [file.path] })
    | .error .duplicateConflict =>
      (store, { counters with
          parse_errors := counters.parse_errors + 1
          failed_files := counters.failed_files ++ [file.path] })

/-- service.ingest: fold the per-file step over the discovered files; every
failure is caught inside the loop, so the fold is total. -/
def codexIngest (store : CodexStore) (counters : IngestionCounters) :
    List SessionFileInput → CodexStore × IngestionCounters
  | [] => (store, counters)
  | file :: rest =>
    codexIngest (processSessionFile store counters file).1
      (processSessionFile store counters file).2 rest

end CodexUsage

namespace GeminiUsage

/-- One gemini_cli.api_response record after the JSON/typing stage of
parser.parse_usage_jsonl: its event timestamp (order type of the parsed
datetime), model code, and the five required token counts. -/
structure GemEvent where
  ts : Int
  model : String
  input_tokens : Int
  cached_input_tokens : Int
  output_tokens : Int
  thoughts_tokens : Int
  total_tokens : Int
deriving DecidableEq, Repr

/-- The (event_timestamp, model_code) uniqueness and ordering key. -/
def eventKey (e : GemEvent) : Int × String :=
  (e.ts, e.model)

/-- Python tuple comparison on (datetime, str) keys: lexicographic, strings
compared lexicographically by code point (Lean's String order). -/
def gemKeyLt (a b : Int × String) : Bool :=
  decide (a.1 < b.1) || (decide (a.1 = b.1) && decide (a.2 < b.2))

/-- Ingestion checkpoint tuple for one project source
(schemas.SourceCheckpoint). -/
structure GemCheckpoint where
  last_event_timestamp : Int
  last_model_code : String
deriving DecidableEq, Repr

/-- The key of a checkpoint. -/
def gemCkptKey (c : GemCheckpoint) : Int × String :=
  (c.last_event_timestamp, c.last_model_code)

/-- parser._passes_checkpoint for the composite-key family. -/
def gemPassesCheckpoint (event_timestamp : Int) (model_code : String)
    (checkpoint : GemCheckpoint) : Bool :=
  if event_timestamp > checkpoint.last_event_timestamp then
    true
  else
    decide (event_timestamp = checkpoint.last_event_timestamp) &&
    decide (model_code ≥ checkpoint.last_model_code)

/-- The failures a gemini per-source pass can raise: parse_usage_jsonl's
errors.DuplicateEventError and errors.AppendOnlyViolationError, the
tracked-source lookup failure of the restricted service model,
reconciliation's errors.SourceConflictError and
errors.ConfirmationDeclinedError, and the AssertionError of the
re-lookups in service._reconcile_source. -/
inductive GemIngestError where
  | duplicateEvent
  | appendOnlyViolation
  | sourceNotTracked
  | sourceConflict
  | confirmationDeclined
  | assertionFailed
deriving DecidableEq, Repr

/-- Parser output for one preprocessed telemetry JSONL
(schemas.ParsedJsonlFile restricted to the event-row level). -/
structure GemParsed where
  usage_rows : List GemEvent
  usage_events_total : Nat
  usage_events_skipped_before_checkpoint : Nat
  max_event_key : Option (Int × String)
deriving DecidableEq, Repr

/-- The parser's running-maximum update for one key (`if max_event_key is
None or event_key > max_event_key`). -/
def gemMaxStep (acc : Option (Int × String)) (k : Int × String) :
    Option (Int × String) :=
  match acc with
  | none => some k
  | some m => if gemKeyLt m k then some k else some m

/-- Whether an event passes the optional checkpoint filter of
parse_usage_jsonl. -/
def gemKept (checkpoint : Option GemCheckpoint) (e : GemEvent) : Bool :=
  match checkpoint with
  | none => true
  | some c => gemPassesCheckpoint e.ts e.model c

/-- The event loop of parser.parse_usage_jsonl: count every api_response
event, fail on a repeated (timestamp, model) key, track the maximum key, and
keep the events that pass the optional checkpoint. -/
def gemParseGo (checkpoint : Option GemCheckpoint) (seen : List (Int × String))
    (max_event_key : Option (Int × String)) (total skipped : Nat) :
    List GemEvent → Except GemIngestError GemParsed
  | [] => .ok ⟨[], total, skipped, max_event_key⟩
  | e :: rest =>
    let key := eventKey e
    if key ∈ seen then
      .error .duplicateEvent
    else
      let max' := gemMaxStep max_event_key key
      if gemKept checkpoint e then
        match gemParseGo checkpoint (key :: seen) max' (total + 1) skipped rest with
        | .error err => .error err
        | .ok parsed => .ok { parsed with usage_rows := e :: parsed.usage_rows }
      else
        gemParseGo checkpoint (key :: seen) max' (total + 1) (skipped + 1) rest

/-- parser.parse_usage_jsonl: run the event loop, then enforce the append-only
invariant — with a stored checkpoint, a missing or regressed maximum key is an
AppendOnlyViolationError. -/
def parse_usage_jsonl (checkpoint : Option GemCheckpoint) (events : List GemEvent) :
    Except GemIngestError GemParsed :=
  match gemParseGo checkpoint [] none 0 0 events with
  | .error e => .error e
  | .ok parsed =>
    match checkpoint with
    | none => .ok parsed
    | some c =>
      match parsed.max_event_key with
      | none => .error .appendOnlyViolation
      | some m =>
        if gemKeyLt m (gemCkptKey c) then .error .appendOnlyViolation
        else .ok parsed

/-- One tracked source row of gemini_ingestion_sources
(schemas.IngestionSourceRow). -/
structure GemSourceRow where
  project_id : Nat
  jsonl_file_path : String
  active : Bool
  file_size_bytes : Option Int
  file_mtime : Option Int
  checkpoint : Option GemCheckpoint
deriving DecidableEq, Repr

/-- One stored row of gemini_usage_events, primary-keyed by
(project_id, event_timestamp, model_code). -/
structure GemUsageRow where
  project_id : Nat
  event_timestamp : Int
  model_code : String
  input_tokens : Int
  cached_input_tokens : Int
  output_tokens : Int
  thoughts_tokens : Int
  total_tokens : Int
deriving DecidableEq, Repr

/-- The DuckDB tables the gemini ingestion pass reads and writes. -/
structure GemStore where
  sources : List GemSourceRow
  usage_events : List GemUsageRow
deriving DecidableEq, Repr

/-- The stored usage row for one parsed event of a project. -/
def toUsageRow (project_id : Nat) (e : GemEvent) : GemUsageRow :=
  ⟨project_id, e.ts, e.model, e.input_tokens, e.cached_input_tokens,
   e.output_tokens, e.thoughts_tokens, e.total_tokens⟩

/-- One insert of repository.insert_usage_events: `ON CONFLICT (project_id,
event_timestamp, model_code) DO NOTHING`. -/
def gemInsertUsageRow (usage_events : List GemUsageRow) (r : GemUsageRow) :
    List GemUsageRow :=
  if usage_events.any (fun e =>
      decide (e.project_id = r.project_id ∧ e.event_timestamp = r.event_timestamp ∧
              e.model_code = r.model_code)) then
    usage_events
  else
    usage_events ++ [r]

/-- repository.insert_usage_events over the parsed rows of one project. -/
def gemInsertUsageEvents (usage_events : List GemUsageRow) (project_id : Nat)
    (rows : List GemEvent) : List GemUsageRow :=
  rows.foldl (fun acc e => gemInsertUsageRow acc (toUsageRow project_id e)) usage_events

/-- Filesystem metadata of one JSONL file (schemas.JsonlFileState without the
path, which the service step carries separately). -/
structure GemFileState where
  file_size_bytes : Int
  file_mtime : Int
deriving DecidableEq, Repr

/-- service._file_state_matches: both stored fields present and equal. -/
def gemFileStateMatches (source : GemSourceRow) (file_state : GemFileState) : Bool :=
  match source.file_size_bytes, source.file_mtime with
  | some size, some mtime =>
    decide (size = file_state.file_size_bytes) &&
    decide (mtime = file_state.file_mtime)
  | _, _ => false

/-- service._resolve_checkpoint: keep the later of the stored checkpoint and
the maximum key observed by the parser. -/
def gemResolveCheckpoint (existing_checkpoint : Option GemCheckpoint)
    (parsed_max_event_key : Option (Int × String)) : Option GemCheckpoint :=
  match parsed_max_event_key with
  | none => existing_checkpoint
  | some k =>
    let parsed_checkpoint : GemCheckpoint := ⟨k.1, k.2⟩
    match existing_checkpoint with
    | none => some parsed_checkpoint
    | some e =>
      if gemKeyLt (gemCkptKey e) (gemCkptKey parsed_checkpoint) then
        some parsed_checkpoint
      else
        some e

/-- repository.update_source_bookkeeping: set file state and checkpoint on the
source row keyed by project_id. -/
def gemUpdateSourceBookkeeping (sources : List GemSourceRow) (project_id : Nat)
    (file_state : GemFileState) (checkpoint : Option GemCheckpoint) :
    List GemSourceRow :=
  sources.map (fun s =>
    if s.project_id = project_id then
      { s with
          file_size_bytes := some file_state.file_size_bytes
          file_mtime := some file_state.file_mtime
          checkpoint := checkpoint }
    else s)

/-- Aggregate counters emitted by the gemini service
(schemas.IngestionCounters restricted to the per-source loop). -/
structure GemCounters where
  sources_scanned : Nat := 0
  sources_ingested : Nat := 0
  sources_skipped_unchanged : Nat := 0
  usage_events_total : Nat := 0
  usage_events_skipped_before_checkpoint : Nat := 0
  usage_rows_attempted_insert : Nat := 0
deriving DecidableEq, Repr

/-- One candidate source as the per-source loop of service.ingest sees it:
its resolved path, current filesystem state, and the api_response events of
its JSONL file in file order. -/
structure GemSourceInput where
  path : String
  file_state : GemFileState
  events : List GemEvent
deriving DecidableEq, Repr

/-- The body of the per-source loop of gemini service.ingest, for a source
that reconciliation resolves to an already-tracked row (the confirmation
callback flow for new/moved sources is outside this model): skip unchanged
files, else parse with the stored checkpoint and commit the event inserts and
bookkeeping update in one transaction.  Parse failures propagate — the loop
has no per-source except-clause. -/
def gemProcessSource (store : GemStore) (counters : GemCounters)
    (src : GemSourceInput) : Except GemIngestError (GemStore × GemCounters) :=
  let counters := { counters with sources_scanned := counters.sources_scanned + 1 }
  match store.sources.find? (fun s => decide (s.jsonl_file_path = src.path)) with
  | none => .error .sourceNotTracked
  | some source_row =>
    if gemFileStateMatches source_row src.file_state then
      .ok (store, { counters with
          sources_skipped_unchanged := counters.sources_skipped_unchanged + 1 })
    else
      match parse_usage_jsonl source_row.checkpoint src.events with
      | .error e => .error e
      | .ok parsed =>
        let updated_checkpoint :=
          gemResolveCheckpoint source_row.checkpoint parsed.max_event_key
        let store' : GemStore :=
          { sources := gemUpdateSourceBookkeeping store.sources source_row.project_id
              src.file_state updated_checkpoint
            usage_events := gemInsertUsageEvents store.usage_events
              source_row.project_id parsed.usage_rows }
        .ok (store', { counters with
            sources_ingested := counters.sources_ingested + 1
            usage_events_total := counters.usage_events_total + parsed.usage_events_total
            usage_events_skipped_before_checkpoint :=
              counters.usage_events_skipped_before_checkpoint +
                parsed.usage_events_skipped_before_checkpoint
            usage_rows_attempted_insert :=
              counters.usage_rows_attempted_insert + parsed.usage_rows.length })

/-- The candidate-source loop of gemini service.ingest: the first failing
source raises out of the loop (there is no per-source except-clause), so the
remaining sources are not processed and the counters object is lost to the
caller. -/
def gemIngest (store : GemStore) (counters : GemCounters) :
    List GemSourceInput → GemStore × GemCounters × Option GemIngestError
  | [] => (store, counters, none)
  | src :: rest =>
    match gemProcessSource store counters src with
    | .error e => (store, counters, some e)
    | .ok (store', counters') => gemIngest store' counters' rest

/-- repository.get_source_by_path (path is UNIQUE in the schema). -/
def gemGetSourceByPath (sources : List GemSourceRow) (path : String) :
    Option GemSourceRow :=
  sources.find? (fun s => decide (s.jsonl_file_path = path))

/-- repository.get_source_by_project_id (project_id is the primary key). -/
def gemGetSourceByProject (sources : List GemSourceRow) (project_id : Nat) :
    Option GemSourceRow :=
  sources.find? (fun s => decide (s.project_id = project_id))

/-- repository.insert_source (active=True, no file state, no checkpoint);
the service issues it outside the per-pass transaction, so it commits
immediately. -/
def gemInsertSource (sources : List GemSourceRow) (project_id : Nat)
    (path : String) : List GemSourceRow :=
  sources ++ [⟨project_id, path, true, none, none, none⟩]

/-- repository.set_source_active, issued outside the per-pass transaction. -/
def gemSetSourceActive (sources : List GemSourceRow) (project_id : Nat)
    (active : Bool) : List GemSourceRow :=
  sources.map (fun s =>
    if s.project_id = project_id then { s with active := active } else s)

/-- repository.update_source_path, issued outside the per-pass transaction. -/
def gemUpdateSourcePath (sources : List GemSourceRow) (project_id : Nat)
    (path : String) : List GemSourceRow :=
  sources.map (fun s =>
    if s.project_id = project_id then { s with jsonl_file_path := path } else s)

/-- One candidate source as service.ingest's reconciliation sees it: the
resolved JSONL path, the project id read from the file's metadata line, the
outcomes of the three interactive confirmation callbacks, whether the
previously tracked path still holds valid metadata for the same project
(service._old_path_still_valid_for_project, a filesystem probe modelled as an
input), and the candidate's current file state and api_response events. -/
structure GemCandidateSource where
  path : String
  metadata_project_id : Nat
  confirm_new_source : Bool
  confirm_reactivate : Bool
  confirm_project_path_move : Bool
  old_path_still_valid : Bool
  file_state : GemFileState
  events : List GemEvent
deriving DecidableEq, Repr

/-- The reactivation tail of service._reconcile_source: an inactive resolved
source needs confirmation and an immediate set_source_active(True) write,
then a re-lookup (whose miss is the code's assert). -/
def gemEnsureActive (sources : List GemSourceRow) (resolved : GemSourceRow)
    (cand : GemCandidateSource) :
    List GemSourceRow × Except GemIngestError GemSourceRow :=
  if resolved.active then
    (sources, .ok resolved)
  else if !cand.confirm_reactivate then
    (sources, .error .confirmationDeclined)
  else
    let sources1 := gemSetSourceActive sources resolved.project_id true
    match gemGetSourceByProject sources1 resolved.project_id with
    | none => (sources1, .error .assertionFailed)
    | some refreshed => (sources1, .ok refreshed)

/-- service._reconcile_source: resolve the candidate path to a tracked source
row, registering a new source, moving a project's path, or reactivating an
inactive row as needed.  Each repository write commits immediately — it is
issued outside the per-pass transaction — so the returned source list keeps
the writes made before a failure. -/
def gemReconcileSource (sources : List GemSourceRow) (cand : GemCandidateSource) :
    List GemSourceRow × Except GemIngestError GemSourceRow :=
  match gemGetSourceByPath sources cand.path with
  | some source_by_path =>
    if source_by_path.project_id ≠ cand.metadata_project_id then
      (sources, .error .sourceConflict)
    else
      gemEnsureActive sources source_by_path cand
  | none =>
    match gemGetSourceByProject sources cand.metadata_project_id with
    | some source_by_project =>
      if source_by_project.jsonl_file_path ≠ cand.path ∧ cand.old_path_still_valid then
        (sources, .error .sourceConflict)
      else if !cand.confirm_project_path_move then
        (sources, .error .confirmationDeclined)
      else
        let sources1 := gemUpdateSourcePath sources source_by_project.project_id cand.path
        match gemGetSourceByProject sources1 source_by_project.project_id with
        | none => (sources1, .error .assertionFailed)
        | some refreshed => gemEnsureActive sources1 refreshed cand
    | none =>
      if !cand.confirm_new_source then
        (sources, .error .confirmationDeclined)
      else
        let sources1 := gemInsertSource sources cand.metadata_project_id cand.path
        match gemGetSourceByProject sources1 cand.metadata_project_id with
        | none => (sources1, .error .assertionFailed)
        | some refreshed => gemEnsureActive sources1 refreshed cand

/-- The per-source body of gemini service.ingest including reconciliation
(service.py lines 81-103): reconcile first — its repository writes commit
immediately — then skip unchanged files, else parse with the stored
checkpoint and commit the event inserts and bookkeeping update in one
transaction.  A failure surfaces in the error component, and the store
component keeps exactly what reconciliation committed before the failure.
(The read-only _raise_if_active_project_collision probe, which only fires on
duplicate active rows for one project, is outside this model.) -/
def gemProcessSourceFull (store : GemStore) (counters : GemCounters)
    (cand : GemCandidateSource) : GemStore × GemCounters × Option GemIngestError :=
  let counters := { counters with sources_scanned := counters.sources_scanned + 1 }
  match gemReconcileSource store.sources cand with
  | (sources1, .error e) => (⟨sources1, store.usage_events⟩, counters, some e)
  | (sources1, .ok source_row) =>
    let store1 : GemStore := ⟨sources1, store.usage_events⟩
    if gemFileStateMatches source_row cand.file_state then
      (store1, { counters with
          sources_skipped_unchanged := counters.sources_skipped_unchanged + 1 }, none)
    else
      match parse_usage_jsonl source_row.checkpoint cand.events with
      | .error e => (store1, counters, some e)
      | .ok parsed =>
        let updated_checkpoint :=
          gemResolveCheckpoint source_row.checkpoint parsed.max_event_key
        let store2 : GemStore :=
          { sources := gemUpdateSourceBookkeeping store1.sources source_row.project_id
              cand.file_state updated_checkpoint
            usage_events := gemInsertUsageEvents store1.usage_events
              source_row.project_id parsed.usage_rows }
        (store2, { counters with
            sources_ingested := counters.sources_ingested + 1
            usage_events_total := counters.usage_events_total + parsed.usage_events_total
            usage_events_skipped_before_checkpoint :=
              counters.usage_events_skipped_before_checkpoint +
                parsed.usage_events_skipped_before_checkpoint
            usage_rows_attempted_insert :=
              counters.usage_rows_attempted_insert + parsed.usage_rows.length }, none)

end GeminiUsage

namespace PyJson

/-- A parsed JSON value as orjson/json deliver it to the Python parsers.
Floats carry no payload here: no claim depends on a float's value, only on
its runtime type. -/
inductive JsonValue where
  | jnull
  | jbool (b : Bool)
  | jint (n : Int)
  | jfloat
  | jstr (s : String)
  | jarr (items : List JsonValue)
  | jobj (fields : List (String × JsonValue))

/-- dict.get on a JSON object (first binding wins; Python dicts cannot hold a
key twice). -/
def jsonGet (fields : List (String × JsonValue)) (key : String) : Option JsonValue :=
  (fields.find? (fun p => decide (p.1 = key))).map (·.2)

/-- Python `isinstance(value, int)`.  CPython's bool is a subclass of int, so
booleans pass this check — the load-bearing fact behind the codex parser's
behaviour on boolean token counts. -/
def pyIsInstanceInt : JsonValue → Bool
  | .jint _ => true
  | .jbool _ => true
  | _ => false

/-- The integer a Python value carries once `isinstance(value, int)` holds:
True behaves as 1 and False as 0 in all arithmetic and comparisons. -/
def pyIntValue : JsonValue → Int
  | .jint n => n
  | .jbool b => if b then 1 else 0
  | _ => 0

/-- The single error mark for a hard parse failure (ParseError in each of the
three packages; the message string is not modelled). -/
inductive ParseFailure where
  | parseFailure
deriving DecidableEq, Repr

/-- The field order of codex parser._extract_usage_snapshot's loop. -/
def codexUsageFieldNames : List String :=
  ["input_tokens", "cached_input_tokens", "output_tokens",
   "reasoning_output_tokens", "total_tokens"]

/-- The field loop of codex parser._extract_usage_snapshot: a missing field
makes the whole snapshot unusable (None, row skipped); a present field failing
`isinstance(value, int)` raises ParseError; otherwise the value is collected. -/
def codexExtractFieldLoop (snapshotFields : List (String × JsonValue)) :
    List String → Except ParseFailure (Option (List Int))
  | [] => .ok (some [])
  | field_name :: rest =>
    match jsonGet snapshotFields field_name with
    | none => .ok none
    | some raw_value =>
      if pyIsInstanceInt raw_value then
        match codexExtractFieldLoop snapshotFields rest with
        | .error e => .error e
        | .ok none => .ok none
        | .ok (some values) => .ok (some (pyIntValue raw_value :: values))
      else
        .error .parseFailure

/-- codex parser._extract_usage_snapshot: fetch one usage snapshot from the
info object; a non-dict or missing snapshot yields None, missing fields yield
None, a present non-int field raises ParseError. -/
def codexExtractUsageSnapshot (info : List (String × JsonValue)) (key : String) :
    Except ParseFailure (Option CodexUsage.TokenUsageValues) :=
  match jsonGet info key with
  | some (.jobj snapshotFields) =>
    match codexExtractFieldLoop snapshotFields codexUsageFieldNames with
    | .error e => .error e
    | .ok (some [a, b, c, d, e]) => .ok (some ⟨a, b, c, d, e⟩)
    | .ok _ => .ok none
  | _ => .ok none

/-- gemini parser._parse_required_int on the value `attributes.get(...)`
returns: `not isinstance(value, int) or isinstance(value, bool)` is a
ParseError, so booleans and missing values are rejected. -/
def geminiParseRequiredInt : Option JsonValue → Except ParseFailure Int
  | some (.jint n) => .ok n
  | _ => .error .parseFailure

/-- opencode service._require_int: `payload.get(field)` must exist and be an
int but not a bool. -/
def opencodeRequireInt (payload : List (String × JsonValue)) (field : String) :
    Except ParseFailure Int :=
  match jsonGet payload field with
  | some (.jint n) => .ok n
  | _ => .error .parseFailure

end PyJson

namespace OpenCodeUsage

open PyJson

/-- One row the SQLite source reader yields (schemas.SourceMessageRow), with
the message's JSON payload still unparsed. -/
structure SourceMessageRow where
  message_id : String
  session_id : String
  time_created_ms : Int
  time_updated_ms : Int
  data : JsonValue
  project_id : String
  session_title : String
  session_directory : String
  session_version : String
  project_worktree : Option String

/-- One row of opencode_sessions (schemas.SessionRow). -/
structure SessionRow where
  session_id : String
  project_id : String
  project_worktree : Option String
  session_title : String
  session_directory : String
  session_version : String
deriving DecidableEq, Repr

/-- A validated cost value: an int or a float (float payloads are not
modelled; no claim depends on them). -/
inductive CostValue where
  | intCost (n : Int)
  | floatCost
deriving DecidableEq, Repr

/-- One row of opencode_message_usage (schemas.MessageUsageRow);
message timestamps are modelled by their source milliseconds. -/
structure MessageUsageRow where
  message_id : String
  session_id : String
  project_id : String
  message_created_ms : Int
  message_completed_ms : Option Int
  provider_code : Option String
  model_code : Option String
  agent : Option String
  mode : Option String
  finish_reason : Option String
  input_tokens : Int
  output_tokens : Int
  reasoning_tokens : Int
  cache_read_tokens : Int
  cache_write_tokens : Int
  total_tokens : Option Int
  cost_usd : Option CostValue
  source_time_updated_ms : Int
deriving DecidableEq, Repr

/-- service._optional_str. -/
def optionalStr (payload : List (String × JsonValue)) (field : String) :
    Except ParseFailure (Option String) :=
  match jsonGet payload field with
  | none => .ok none
  | some .jnull => .ok none
  | some (.jstr s) => .ok (some s)
  | some _ => .error .parseFailure

/-- service._parse_completed_time: the optional `time.completed` milliseconds. -/
def parseCompletedTime (time_payload : Option JsonValue) :
    Except ParseFailure (Option Int) :=
  match time_payload with
  | none => .ok none
  | some .jnull => .ok none
  | some (.jobj time_fields) =>
    match jsonGet time_fields "completed" with
    | none => .ok none
    | some .jnull => .ok none
    | some (.jint n) => .ok (some n)
    | some _ => .error .parseFailure
  | some _ => .error .parseFailure

/-- service code validating the optional cost: bool is rejected, int or float
accepted. -/
def parseCost (value : Option JsonValue) : Except ParseFailure (Option CostValue) :=
  match value with
  | none => .ok none
  | some .jnull => .ok none
  | some (.jbool _) => .error .parseFailure
  | some (.jint n) => .ok (some (.intCost n))
  | some .jfloat => .ok (some .floatCost)
  | some _ => .error .parseFailure

/-- service code validating the optional `tokens.total`: int or null, bool
rejected. -/
def parseOptionalTotal (value : Option JsonValue) : Except ParseFailure (Option Int) :=
  match value with
  | none => .ok none
  | some .jnull => .ok none
  | some (.jint n) => .ok (some n)
  | some _ => .error .parseFailure

/-- service._parse_source_row: decode one assistant message payload into a
session row and a usage row, or raise ParseError. -/
def parseSourceRow (source_row : SourceMessageRow) :
    Except ParseFailure (SessionRow × MessageUsageRow) :=
  match source_row.data with
  | .jobj payload =>
    match jsonGet payload "role" with
    | some (.jstr "assistant") =>
      match jsonGet payload "tokens" with
      | some (.jobj tokens_payload) =>
        match opencodeRequireInt tokens_payload "input",
              opencodeRequireInt tokens_payload "output",
              opencodeRequireInt tokens_payload "reasoning" with
        | .ok input_tokens, .ok output_tokens, .ok reasoning_tokens =>
          match jsonGet tokens_payload "cache" with
          | some (.jobj cache_payload) =>
            match opencodeRequireInt cache_payload "read",
                  opencodeRequireInt cache_payload "write" with
            | .ok cache_read_tokens, .ok cache_write_tokens =>
              match parseOptionalTotal (jsonGet tokens_payload "total"),
                    parseCost (jsonGet payload "cost"),
                    parseCompletedTime (jsonGet payload "time"),
                    optionalStr payload "finish",
                    optionalStr payload "providerID",
                    optionalStr payload "modelID",
                    optionalStr payload "agent",
                    optionalStr payload "mode" with
              | .ok total_tokens, .ok cost_usd, .ok completed_ms, .ok finish_reason,
                .ok provider_code, .ok model_code, .ok agent, .ok mode =>
                .ok
                  (⟨source_row.session_id, source_row.project_id,
                    source_row.project_worktree, source_row.session_title,
                    source_row.session_directory, source_row.session_version⟩,
                   { message_id := source_row.message_id
                     session_id := source_row.session_id
                     project_id := source_row.project_id
                     message_created_ms := source_row.time_created_ms
                     message_completed_ms := completed_ms
                     provider_code := provider_code
                     model_code := model_code
                     agent := agent
                     mode := mode
                     finish_reason := finish_reason
                     input_tokens := input_tokens
                     output_tokens := output_tokens
                     reasoning_tokens := reasoning_tokens
                     cache_read_tokens := cache_read_tokens
                     cache_write_tokens := cache_write_tokens
                     total_tokens := total_tokens
                     cost_usd := cost_usd
                     source_time_updated_ms := source_row.time_updated_ms })
              | _, _, _, _, _, _, _, _ => .error .parseFailure
            | _, _ => .error .parseFailure
          | _ => .error .parseFailure
        | _, _, _ => .error .parseFailure
      | _ => .error .parseFailure
    | _ => .error .parseFailure
  | _ => .error .parseFailure

/-- Latest ingestion checkpoint read from opencode_message_usage
(schemas.SourceCheckpoint). -/
structure OcCheckpoint where
  last_time_updated_ms : Int
  last_message_id : String
deriving DecidableEq, Repr

/-- The (time_updated, message_id) ordering key of a usage row. -/
def ocKey (r : MessageUsageRow) : Int × String :=
  (r.source_time_updated_ms, r.message_id)

/-- Strict lexicographic order on (time_updated, id) keys, matching both the
`ORDER BY ... DESC LIMIT 1` checkpoint read and the source reader's
`(m.time_updated, m.id) > (:last_time, :last_id)` range condition. -/
def ocKeyLt (a b : Int × String) : Bool :=
  decide (a.1 < b.1) || (decide (a.1 = b.1) && decide (a.2 < b.2))

/-- The DuckDB tables the opencode ingestion pass writes. -/
structure OcStore where
  sessions : List SessionRow
  message_usage : List MessageUsageRow
deriving DecidableEq, Repr

/-- The empty database. -/
def ocEmptyStore : OcStore := ⟨[], []⟩

/-- repository.get_checkpoint: the (time_updated, id) key of the stored usage
row that orders last, or none. -/
def ocGetCheckpoint (store : OcStore) : Option OcCheckpoint :=
  store.message_usage.foldl
    (fun acc r =>
      match acc with
      | none => some ⟨r.source_time_updated_ms, r.message_id⟩
      | some c =>
        if ocKeyLt (c.last_time_updated_ms, c.last_message_id) (ocKey r) then
          some ⟨r.source_time_updated_ms, r.message_id⟩
        else
          some c)
    none

/-- Whether the SQLite `json_extract(m.data, '$.role') = 'assistant'` filter
keeps a source row. -/
def roleIsAssistant (r : SourceMessageRow) : Bool :=
  match r.data with
  | .jobj payload =>
    match jsonGet payload "role" with
    | some (.jstr s) => decide (s = "assistant")
    | _ => false
  | _ => false

/-- source_reader.get_latest_assistant_time_updated_ms: MAX(time_updated) over
assistant rows. -/
def getLatestAssistantTimeUpdatedMs (rows : List SourceMessageRow) : Option Int :=
  (rows.filter roleIsAssistant).foldl
    (fun acc r =>
      match acc with
      | none => some r.time_updated_ms
      | some m => if m < r.time_updated_ms then some r.time_updated_ms else some m)
    none

/-- Insert one row into a list sorted by ascending (time_updated, id) key. -/
def ocSortedInsert (r : SourceMessageRow) :
    List SourceMessageRow → List SourceMessageRow
  | [] => [r]
  | x :: xs =>
    if ocKeyLt (r.time_updated_ms, r.message_id) (x.time_updated_ms, x.message_id) then
      r :: x :: xs
    else
      x :: ocSortedInsert r xs

/-- Sort source rows by ascending (time_updated, id), the reader's ORDER BY. -/
def ocSortByKey (rows : List SourceMessageRow) : List SourceMessageRow :=
  rows.foldr ocSortedInsert []

/-- source_reader.iter_assistant_rows: assistant rows strictly after the
checkpoint key, in ascending (time_updated, id) order. -/
def iterAssistantRows (checkpoint : Option OcCheckpoint)
    (rows : List SourceMessageRow) : List SourceMessageRow :=
  ocSortByKey ((rows.filter roleIsAssistant).filter (fun r =>
    match checkpoint with
    | none => true
    | some c =>
      ocKeyLt (c.last_time_updated_ms, c.last_message_id)
        (r.time_updated_ms, r.message_id)))

/-- repository.upsert_sessions: replace-or-append keyed by session_id. -/
def ocUpsertSession (sessions : List SessionRow) (s : SessionRow) : List SessionRow :=
  if sessions.any (fun e => decide (e.session_id = s.session_id)) then
    sessions.map (fun e => if e.session_id = s.session_id then s else e)
  else
    sessions ++ [s]

/-- repository.upsert_message_usage: replace-or-append keyed by message_id
(`ON CONFLICT (message_id) DO UPDATE` replaces the whole row). -/
def ocUpsertUsage (usage : List MessageUsageRow) (r : MessageUsageRow) :
    List MessageUsageRow :=
  if usage.any (fun e => decide (e.message_id = r.message_id)) then
    usage.map (fun e => if e.message_id = r.message_id then r else e)
  else
    usage ++ [r]

/-- service._flush_batch: one transaction upserting the batch's session rows
then its usage rows. -/
def ocFlushBatch (store : OcStore) (sessions : List SessionRow)
    (usage_rows : List MessageUsageRow) : OcStore :=
  { sessions := sessions.foldl ocUpsertSession store.sessions
    message_usage := usage_rows.foldl ocUpsertUsage store.message_usage }

/-- The values of the `sessions_by_id` dict in insertion order after an
upsert (Python dicts keep the first position of an overwritten key). -/
def ocDictUpsert (dict : List (String × SessionRow)) (s : SessionRow) :
    List (String × SessionRow) :=
  if dict.any (fun p => decide (p.1 = s.session_id)) then
    dict.map (fun p => if p.1 = s.session_id then (p.1, s) else p)
  else
    dict ++ [(s.session_id, s)]

/-- Ingestion counters (schemas.IngestionCounters for the opencode service). -/
structure OcCounters where
  messages_scanned : Nat := 0
  messages_ingested : Nat := 0
  sessions_upserted : Nat := 0
  batches_flushed : Nat := 0
  skipped_no_source_changes : Bool := false
deriving DecidableEq, Repr

/-- The failure opencode ingestion can hit mid-pass (errors.ParseError). -/
inductive OcError where
  | parseFailed
deriving DecidableEq, Repr

/-- The row loop of opencode service.ingest: parse each source row, collect a
batch, and flush it in its own transaction whenever it reaches batch_size; a
ParseError propagates immediately, leaving every batch flushed so far
committed and the in-flight batch lost (the counters object is lost with the
exception and is returned here only for the successful path). -/
def ocIngestLoop (batch_size : Nat) (store : OcStore)
    (sessions_by_id : List (String × SessionRow)) (batch : List MessageUsageRow)
    (counters : OcCounters) :
    List SourceMessageRow → OcStore × OcCounters × Option OcError
  | [] =>
    if batch.isEmpty then
      (store, counters, none)
    else
      let store' := ocFlushBatch store (sessions_by_id.map (·.2)) batch
      (store',
       { counters with
           batches_flushed := counters.batches_flushed + 1
           sessions_upserted := counters.sessions_upserted + sessions_by_id.length
           messages_ingested := counters.messages_ingested + batch.length },
       none)
  | source_row :: rest =>
    let counters := { counters with messages_scanned := counters.messages_scanned + 1 }
    match parseSourceRow source_row with
    | .error _ => (store, counters, some .parseFailed)
    | .ok (session_row, usage_row) =>
      let sessions_by_id' := ocDictUpsert sessions_by_id session_row
      let batch' := batch ++ [usage_row]
      if batch_size ≤ batch'.length then
        let store' := ocFlushBatch store (sessions_by_id'.map (·.2)) batch'
        ocIngestLoop batch_size store' [] []
          { counters with
              batches_flushed := counters.batches_flushed + 1
              sessions_upserted := counters.sessions_upserted + sessions_by_id'.length
              messages_ingested := counters.messages_ingested + batch'.length }
          rest
      else
        ocIngestLoop batch_size store sessions_by_id' batch' counters rest

/-- opencode service.ingest (with full_refresh = False): read the stored
checkpoint; when the source's maximum assistant update time is missing or
orders before it, return early flagging skipped_no_source_changes without any
error; otherwise run the batched row loop over the reader's filtered, ordered
rows. -/
def ocIngest (batch_size : Nat) (store : OcStore)
    (source_rows : List SourceMessageRow) : OcStore × OcCounters × Option OcError :=
  let counters : OcCounters := {}
  let checkpoint := ocGetCheckpoint store
  match checkpoint with
  | some c =>
    let source_max := getLatestAssistantTimeUpdatedMs source_rows
    match source_max with
    | none => (store, { counters with skipped_no_source_changes := true }, none)
    | some m =>
      if m < c.last_time_updated_ms then
        (store, { counters with skipped_no_source_changes := true }, none)
      else
        ocIngestLoop batch_size store [] [] counters (iterAssistantRows checkpoint source_rows)
  | none =>
    ocIngestLoop batch_size store [] [] counters (iterAssistantRows checkpoint source_rows)

end OpenCodeUsage

/-! ### Orders on checkpoint keys, fold helpers, and concrete instances -/

namespace CodexUsage

/-- No two rows share a cumulative total with differing payloads. -/
def ConflictFree (rows : List TokenEventRow) : Prop :=
  List.Pairwise (fun a b =>
    a.total_tokens_cumulative = b.total_tokens_cumulative →
      rowsHaveMatchingPayload a b) rows

instance (rows : List TokenEventRow) : Decidable (ConflictFree rows) :=
  inferInstanceAs (Decidable (List.Pairwise (fun a b : TokenEventRow =>
    a.total_tokens_cumulative = b.total_tokens_cumulative →
      rowsHaveMatchingPayload a b) rows))

/-- Pairwise-distinct cumulative totals. -/
def DistinctCums (rows : List TokenEventRow) : Prop :=
  List.Pairwise (fun a b =>
    a.total_tokens_cumulative ≠ b.total_tokens_cumulative) rows

instance (rows : List TokenEventRow) : Decidable (DistinctCums rows) :=
  inferInstanceAs (Decidable (List.Pairwise (fun a b : TokenEventRow =>
    a.total_tokens_cumulative ≠ b.total_tokens_cumulative) rows))

/-- Reflexive lexicographic order on (timestamp, cumulative) keys. -/
def keyLe (a b : Int × Int) : Prop :=
  a.1 < b.1 ∨ (a.1 = b.1 ∧ a.2 ≤ b.2)

instance (a b : Int × Int) : Decidable (keyLe a b) :=
  inferInstanceAs (Decidable (a.1 < b.1 ∨ (a.1 = b.1 ∧ a.2 ≤ b.2)))

/-- Checkpoint comparison lifted to the optional checkpoints the repository
returns ("no checkpoint" orders below every checkpoint). -/
def ckptLeOpt : Option SessionCheckpoint → Option SessionCheckpoint → Prop
  | none, _ => True
  | some _, none => False
  | some c, some d => keyLe (ckptKey c) (ckptKey d)

/-- The larger of two (timestamp, cumulative) keys. -/
def keyMax (a b : Int × Int) : Int × Int :=
  if keyLt a b then b else a

/-- The maximum (event_timestamp, total_tokens_cumulative) key over the token
rows a pass observes (the parsed rows handed to dedupe and insertion). -/
def observedMaxKey (rows : List TokenEventRow) : Option (Int × Int) :=
  rows.foldl
    (fun acc r =>
      match acc with
      | none => some (r.event_timestamp, r.total_tokens_cumulative)
      | some m =>
        if keyLt m (r.event_timestamp, r.total_tokens_cumulative) then
          some (r.event_timestamp, r.total_tokens_cumulative)
        else
          some m)
    none

/-- Proof helper: the checkpoint at the end of a key-increasing row list. -/
def lastCkpt (c : SessionCheckpoint) : List StoredDetailRow → SessionCheckpoint
  | [] => c
  | r :: rest => lastCkpt ⟨r.event_timestamp, r.total_tokens_cumulative⟩ rest

/-- Example usage snapshot. -/
def exUsage (a b c d e : Int) : TokenUsageValues := ⟨a, b, c, d, e⟩

/-- Example token event row of session 1 attributed to one model. -/
def exRow (ts : Int) (line : Nat) (total last : TokenUsageValues) : TokenEventRow :=
  ⟨1, ts, line, "gpt-5", total, last⟩

/-- Cumulative total 10. -/
def exRow10 : TokenEventRow := exRow 1 1 (exUsage 6 0 4 0 10) (exUsage 6 0 4 0 10)

/-- Identical-payload duplicate of exRow10 on a later line. -/
def exRow10dup : TokenEventRow := exRow 2 2 (exUsage 6 0 4 0 10) (exUsage 6 0 4 0 10)

/-- Conflicting duplicate of exRow10: same total 10, different payload. -/
def exRow10conflict : TokenEventRow := exRow 2 2 (exUsage 7 0 3 0 10) (exUsage 6 0 4 0 10)

/-- Cumulative total 18 with deltas consistent against exRow10. -/
def exRow18 : TokenEventRow := exRow 3 3 (exUsage 10 0 8 0 18) (exUsage 4 0 4 0 8)

/-- Cumulative total 9, regressing below 10. -/
def exRow9 : TokenEventRow := exRow 4 2 (exUsage 5 0 4 0 9) (exUsage 0 0 0 0 0)

/-- Cumulative total 20 whose incremental values mismatch the difference
against exRow10. -/
def exRow20deltaBad : TokenEventRow := exRow 2 2 (exUsage 12 0 8 0 20) (exUsage 0 0 0 0 0)

/-- Cumulative total 15, regressing below 20. -/
def exRow15 : TokenEventRow := exRow 3 3 (exUsage 9 0 6 0 15) (exUsage 0 0 0 0 0)

/-- Cumulative total 9, regressing below 10, with mismatched deltas too. -/
def exRow9deltaBad : TokenEventRow := exRow 2 2 (exUsage 5 0 4 0 9) (exUsage 7 0 7 0 7)

/-- Example filesystem state of one session file. -/
def exFileState : IngestionFileState := ⟨"sessions/s.jsonl", 10, 100⟩

/-- A session file carrying the regressing rows [10, 9]. -/
def exFileMono : SessionFileInput := ⟨exFileState, 1, none, none, [exRow10, exRow9]⟩

/-- A stored detail row of session 1 at key (timestamp 5, cumulative 10). -/
def exDetail5x10 : StoredDetailRow := ⟨1, 5, 1, "gpt-5", 10, 6, 0, 4, 0, 10⟩

/-- A store already holding the (5, 10) row for session 1. -/
def exStoreC7 : CodexStore := ⟨[], [exDetail5x10], []⟩

/-- An observed row at key (timestamp 9, cumulative 10): same cumulative total
as the stored row but a later timestamp. -/
def exRowTs9Cum10 : TokenEventRow := exRow 9 7 (exUsage 6 0 4 0 10) (exUsage 6 0 4 0 10)

/-- A changed session file presenting only exRowTs9Cum10. -/
def exFileC7 : SessionFileInput := ⟨⟨"sessions/s.jsonl", 11, 101⟩, 1, none, none, [exRowTs9Cum10]⟩

/-- A store whose bookkeeping snapshot for the example file is current. -/
def exStoreC9 : CodexStore := ⟨[], [], [exFileState]⟩

/-- The example file, unchanged since exStoreC9's snapshot. -/
def exFileC9 : SessionFileInput := ⟨exFileState, 1, none, none, [exRow10]⟩

/-- A changed session file presenting no candidate token rows. -/
def exFileNoRows : SessionFileInput := ⟨⟨"sessions/s.jsonl", 12, 102⟩, 1, none, none, []⟩

/-- First-run filesystem state for the resumability example. -/
def exC8Fs1 : IngestionFileState := ⟨"sessions/s.jsonl", 10, 100⟩

/-- Second-run filesystem state (the file grew). -/
def exC8Fs2 : IngestionFileState := ⟨"sessions/s.jsonl", 20, 200⟩

end CodexUsage

namespace GeminiUsage

/-- Reflexive lexicographic order on (timestamp, model) keys. -/
def gemKeyLe (a b : Int × String) : Prop :=
  a.1 < b.1 ∨ (a.1 = b.1 ∧ a.2 ≤ b.2)

instance (a b : Int × String) : Decidable (gemKeyLe a b) :=
  inferInstanceAs (Decidable (a.1 < b.1 ∨ (a.1 = b.1 ∧ a.2 ≤ b.2)))

/-- Checkpoint comparison lifted to optional checkpoints. -/
def gemCkptLeOpt : Option GemCheckpoint → Option GemCheckpoint → Prop
  | none, _ => True
  | some _, none => False
  | some c, some d => gemKeyLe (gemCkptKey c) (gemCkptKey d)

/-- The larger of two (timestamp, model) keys. -/
def gemKeyMax (a b : Int × String) : Int × String :=
  if gemKeyLt a b then b else a

/-- The parser's running maximum over a key list. -/
def gemMaxFold (acc : Option (Int × String)) (ks : List (Int × String)) :
    Option (Int × String) :=
  ks.foldl gemMaxStep acc

/-- Proof helper: the last key of a key list, anchored at a start key. -/
def gemLastKey (k : Int × String) : List (Int × String) → Int × String
  | [] => k
  | x :: xs => gemLastKey x xs

/-- Example api_response event. -/
def gemEv (ts : Int) (model : String) : GemEvent := ⟨ts, model, 1, 0, 1, 0, 2⟩

/-- Tracked source row of project 7, never ingested. -/
def gemSrcRowA : GemSourceRow := ⟨7, "a.jsonl", true, none, none, none⟩

/-- Tracked source row of project 8, never ingested. -/
def gemSrcRowB : GemSourceRow := ⟨8, "b.jsonl", true, none, none, none⟩

/-- A store tracking two sources with no ingested events. -/
def gemStoreC6 : GemStore := ⟨[gemSrcRowA, gemSrcRowB], []⟩

/-- Source input whose file holds a duplicated (timestamp, model) key. -/
def gemInputA : GemSourceInput := ⟨"a.jsonl", ⟨1, 1⟩, [gemEv 1 "m", gemEv 1 "m"]⟩

/-- Healthy source input for the second tracked source. -/
def gemInputB : GemSourceInput := ⟨"b.jsonl", ⟨1, 1⟩, [gemEv 2 "m"]⟩

/-- Candidate resolving to the already-tracked, active source a.jsonl of
project 7, whose events hold a duplicated (timestamp, model) key. -/
def gemCandTracked : GemCandidateSource :=
  ⟨"a.jsonl", 7, true, true, true, false, ⟨1, 1⟩, [gemEv 1 "m", gemEv 1 "m"]⟩

/-- Candidate for the untracked path new.jsonl of project 9 (registration
confirmed), whose events hold a duplicated (timestamp, model) key. -/
def gemCandNew : GemCandidateSource :=
  ⟨"new.jsonl", 9, true, true, true, false, ⟨10, 100⟩, [gemEv 1 "m", gemEv 1 "m"]⟩

/-- Tracked source row with a stored checkpoint at (10, "m"). -/
def gemSrcRowCk : GemSourceRow := ⟨7, "g.jsonl", true, some 1, some 1, some ⟨10, "m"⟩⟩

/-- A store tracking that checkpointed source. -/
def gemStoreC3 : GemStore := ⟨[gemSrcRowCk], []⟩

/-- A rewritten source file whose only event key (5, "m") regresses behind the
stored checkpoint (10, "m"). -/
def gemInputC3 : GemSourceInput := ⟨"g.jsonl", ⟨2, 2⟩, [gemEv 5 "m"]⟩

/-- Tracked source row with a current bookkeeping snapshot (size 3, mtime 4). -/
def gemSrcRowFs : GemSourceRow := ⟨7, "g.jsonl", true, some 3, some 4, none⟩

/-- A store tracking that up-to-date source. -/
def gemStoreC9 : GemStore := ⟨[gemSrcRowFs], []⟩

/-- The same source presenting an unchanged snapshot. -/
def gemInputC9 : GemSourceInput := ⟨"g.jsonl", ⟨3, 4⟩, [gemEv 1 "m"]⟩

/-- A store tracking one fresh source for the resumability example. -/
def gemStoreC8 : GemStore := ⟨[⟨7, "g.jsonl", true, none, none, none⟩], []⟩

end GeminiUsage

namespace OpenCodeUsage

open PyJson

/-- A well-formed assistant message payload. -/
def ocPayloadGood : JsonValue :=
  .jobj [("role", .jstr "assistant"),
         ("tokens", .jobj [("input", .jint 1), ("output", .jint 2),
                           ("reasoning", .jint 0),
                           ("cache", .jobj [("read", .jint 0), ("write", .jint 0)])])]

/-- A malformed assistant message payload (tokens object missing). -/
def ocPayloadBad : JsonValue := .jobj [("role", .jstr "assistant")]

/-- A parseable assistant source row at update time 1. -/
def ocRowGood : SourceMessageRow :=
  { message_id := "a", session_id := "s1", time_created_ms := 1,
    time_updated_ms := 1, data := ocPayloadGood, project_id := "p",
    session_title := "t", session_directory := "d", session_version := "v",
    project_worktree := none }

/-- A malformed assistant source row at update time 2. -/
def ocRowBad : SourceMessageRow :=
  { ocRowGood with message_id := "b", time_updated_ms := 2, data := ocPayloadBad }

/-- An assistant source row whose update time 5 lies behind the checkpoint. -/
def ocRowOld : SourceMessageRow :=
  { ocRowGood with message_id := "c", time_updated_ms := 5 }

/-- An assistant source row at the checkpoint's update time 10 with the
smaller message id "a": its key (10, "a") orders strictly before the
checkpoint key (10, "m1") while its update time ties the checkpoint's. -/
def ocRowBoundary : SourceMessageRow :=
  { ocRowGood with message_id := "a", time_updated_ms := 10 }

/-- The session row parsed from ocRowGood. -/
def ocSessionGood : SessionRow := ⟨"s1", "p", none, "t", "d", "v"⟩

/-- The usage row parsed from ocRowGood. -/
def ocUsageGood : MessageUsageRow :=
  { message_id := "a", session_id := "s1", project_id := "p",
    message_created_ms := 1, message_completed_ms := none,
    provider_code := none, model_code := none, agent := none, mode := none,
    finish_reason := none, input_tokens := 1, output_tokens := 2,
    reasoning_tokens := 0, cache_read_tokens := 0, cache_write_tokens := 0,
    total_tokens := none, cost_usd := none, source_time_updated_ms := 1 }

/-- A stored usage row at checkpoint key (10, "m1"). -/
def ocStoredUsage10 : MessageUsageRow :=
  { message_id := "m1", session_id := "s1", project_id := "p",
    message_created_ms := 0, message_completed_ms := none,
    provider_code := none, model_code := none, agent := none, mode := none,
    finish_reason := none, input_tokens := 1, output_tokens := 2,
    reasoning_tokens := 0, cache_read_tokens := 0, cache_write_tokens := 0,
    total_tokens := none, cost_usd := none, source_time_updated_ms := 10 }

/-- A store whose checkpoint is (10, "m1"). -/
def ocStoreC3 : OcStore := ⟨[], [ocStoredUsage10]⟩

end OpenCodeUsage

namespace PyJson

/-- A usage snapshot whose input_tokens value is a string. -/
def exStrSnapshotFields : List (String × JsonValue) :=
  [("input_tokens", .jstr "x"), ("cached_input_tokens", .jint 0),
   ("output_tokens", .jint 0), ("reasoning_output_tokens", .jint 0),
   ("total_tokens", .jint 1)]

/-- An info object carrying the string-valued usage snapshot. -/
def exStrSnapshotInfo : List (String × JsonValue) :=
  [("total_token_usage", .jobj exStrSnapshotFields)]

/-- A usage snapshot object carrying a boolean input_tokens value. -/
def exBoolSnapshotInfo : List (String × JsonValue) :=
  [("total_token_usage",
    .jobj [("input_tokens", .jbool true), ("cached_input_tokens", .jint 0),
           ("output_tokens", .jint 0), ("reasoning_output_tokens", .jint 0),
           ("total_tokens", .jint 1)])]

end PyJson

/-! ### Lemmas about the codex dedupe / integrity validator -/

namespace CodexUsage

/-- An `Except _ Unit` value is `ok` or some error. -/
lemma except_unit_cases {E : Type} (x : Except E Unit) :
    x = .ok () ∨ ∃ e, x = .error e := by
  cases x with
  | error e => exact Or.inr ⟨e, rfl⟩
  | ok u => cases u; exact Or.inl rfl

/-- The field loop accepts exactly when every listed field's cumulative
difference equals its incremental value. -/
lemma validateRowDeltaFields_ok_iff (p c : TokenEventRow)
    (fs : List (TokenUsageValues → Int)) :
    validateRowDeltaFields p c fs = .ok () ↔
      ∀ f ∈ fs, f c.total_usage - f p.total_usage = f c.last_usage := by
  induction fs with
  | nil => simp [validateRowDeltaFields]
  | cons f rest ih =>
    by_cases h : f c.total_usage - f p.total_usage = f c.last_usage
    · simp [validateRowDeltaFields, h, ih]
    · simp [validateRowDeltaFields, h]

/-- The field loop either accepts or raises DeltaConsistencyError. -/
lemma validateRowDeltaFields_cases (p c : TokenEventRow)
    (fs : List (TokenUsageValues → Int)) :
    validateRowDeltaFields p c fs = .ok () ∨
      validateRowDeltaFields p c fs = .error .deltaConsistency := by
  induction fs with
  | nil => exact Or.inl rfl
  | cons f rest ih =>
    by_cases h : f c.total_usage - f p.total_usage = f c.last_usage
    · simpa [validateRowDeltaFields, h] using ih
    · simp [validateRowDeltaFields, h]

/-- _validate_row_delta accepts exactly the delta-consistent adjacent pairs. -/
lemma validateRowDelta_ok_iff (p c : TokenEventRow) :
    validateRowDelta p c = .ok () ↔ rowDeltaMatches p c :=
  validateRowDeltaFields_ok_iff p c tokenFieldAccessors

/-- A delta-inconsistent pair raises DeltaConsistencyError. -/
lemma validateRowDelta_error_of_not_matches (p c : TokenEventRow)
    (h : ¬ rowDeltaMatches p c) :
    validateRowDelta p c = .error .deltaConsistency := by
  rcases validateRowDeltaFields_cases p c tokenFieldAccessors with hok | herr
  · exact absurd ((validateRowDelta_ok_iff p c).mp hok) h
  · exact herr

/-- _validate_monotonicity_and_deltas accepts exactly when every adjacent pair
is strictly increasing and delta-consistent. -/
lemma validateMono_ok_iff (rows : List TokenEventRow) :
    validateMonotonicityAndDeltas rows = .ok () ↔
      List.Chain' (fun a b => cumLt a b ∧ rowDeltaMatches a b) rows := by
  induction rows with
  | nil => simp [validateMonotonicityAndDeltas]
  | cons p tail ih =>
    cases tail with
    | nil => simp [validateMonotonicityAndDeltas]
    | cons c rest =>
      by_cases hle : c.total_tokens_cumulative ≤ p.total_tokens_cumulative
      · have hnot : ¬ cumLt p c := not_lt.mpr hle
        simp [validateMonotonicityAndDeltas, hle, List.chain'_cons, hnot]
      · have hlt : cumLt p c := lt_of_not_le hle
        rcases validateRowDeltaFields_cases p c tokenFieldAccessors with hok | herr
        · have hmatch := (validateRowDelta_ok_iff p c).mp hok
          simp [validateMonotonicityAndDeltas, hle, validateRowDelta] at hok ⊢
          simp [hok, List.chain'_cons, hlt, hmatch, ih]
        · have hnm : ¬ rowDeltaMatches p c := by
            intro hm
            have hok2 := (validateRowDelta_ok_iff p c).mpr hm
            unfold validateRowDelta at hok2
            rw [herr] at hok2
            exact Except.noConfusion hok2
          simp [validateMonotonicityAndDeltas, hle, validateRowDelta] at herr ⊢
          simp [herr, List.chain'_cons, hnm]

/-- When every strictly increasing adjacent pair is delta-consistent but some
adjacent pair fails to increase, the walk raises MonotonicityError (the delta
check of a pair only runs after that pair's monotonicity check passed). -/
lemma validateMono_error_monotonicity (rows : List TokenEventRow)
    (hbad : ¬ List.Chain' cumLt rows)
    (hdelta : List.Chain' (fun a b => cumLt a b → rowDeltaMatches a b) rows) :
    validateMonotonicityAndDeltas rows = .error .monotonicity := by
  induction rows with
  | nil => exact absurd List.chain'_nil hbad
  | cons p tail ih =>
    cases tail with
    | nil => exact absurd (List.chain'_singleton p) hbad
    | cons c rest =>
      by_cases hle : c.total_tokens_cumulative ≤ p.total_tokens_cumulative
      · simp [validateMonotonicityAndDeltas, hle]
      · have hlt : cumLt p c := lt_of_not_le hle
        rw [List.chain'_cons] at hbad hdelta
        have hmatch : rowDeltaMatches p c := hdelta.1 hlt
        have hok := (validateRowDelta_ok_iff p c).mpr hmatch
        have hbad' : ¬ List.Chain' cumLt (c :: rest) := fun hc => hbad ⟨hlt, hc⟩
        simp [validateMonotonicityAndDeltas, hle, validateRowDelta] at hok ⊢
        simp [hok, ih hbad' hdelta.2]

/-- When every adjacent pair strictly increases but some pair is
delta-inconsistent, the walk raises DeltaConsistencyError. -/
lemma validateMono_error_delta (rows : List TokenEventRow)
    (hmono : List.Chain' cumLt rows)
    (hbad : ¬ List.Chain' (fun a b => rowDeltaMatches a b) rows) :
    validateMonotonicityAndDeltas rows = .error .deltaConsistency := by
  induction rows with
  | nil => exact absurd List.chain'_nil hbad
  | cons p tail ih =>
    cases tail with
    | nil => exact absurd (List.chain'_singleton p) hbad
    | cons c rest =>
      rw [List.chain'_cons] at hmono hbad
      have hle : ¬ c.total_tokens_cumulative ≤ p.total_tokens_cumulative :=
        not_le.mpr hmono.1
      by_cases hmatch : rowDeltaMatches p c
      · have hok := (validateRowDelta_ok_iff p c).mpr hmatch
        have hbad' : ¬ List.Chain' (fun a b => rowDeltaMatches a b) (c :: rest) :=
          fun hc => hbad ⟨hmatch, hc⟩
        simp [validateMonotonicityAndDeltas, hle, validateRowDelta] at hok ⊢
        simp [hok, ih hmono.2 hbad']
      · have herr := validateRowDelta_error_of_not_matches p c hmatch
        simp [validateMonotonicityAndDeltas, hle, validateRowDelta] at herr ⊢
        simp [herr]

/-- The dict lookup misses exactly when the key is not among the dict keys. -/
lemma lookupFirst_eq_none_iff (dict : List (Int × TokenEventRow)) (c : Int) :
    lookupFirst dict c = none ↔ c ∉ dict.map Prod.fst := by
  unfold lookupFirst
  constructor
  · intro h hmem
    rcases List.mem_map.mp hmem with ⟨p, hp, hkey⟩
    rcases hfind : dict.find? (fun q => decide (q.1 = c)) with _ | q
    · have := List.find?_eq_none.mp hfind p hp
      simp [hkey] at this
    · simp [hfind] at h
  · intro h
    rcases hfind : dict.find? (fun q => decide (q.1 = c)) with _ | q
    · simp [hfind]
    · exfalso
      have hq := List.mem_of_find?_eq_some hfind
      have hkey : q.1 = c := by simpa using List.find?_some hfind
      exact h (List.mem_map.mpr ⟨q, hq, hkey⟩)

/-- A dict hit returns the stored row for that key. -/
lemma lookupFirst_mem (dict : List (Int × TokenEventRow)) (c : Int)
    (e : TokenEventRow) (h : lookupFirst dict c = some e) :
    (c, e) ∈ dict := by
  unfold lookupFirst at h
  cases hf : dict.find? (fun p => decide (p.1 = c)) with
  | none => rw [hf] at h; exact Option.noConfusion h
  | some q =>
    rw [hf] at h
    have hq : q ∈ dict := List.mem_of_find?_eq_some hf
    have hkey : q.1 = c := by simpa using List.find?_some hf
    have he : q.2 = e := by simpa using h
    have : q = (c, e) := by
      cases q
      simp_all
    exact this ▸ hq

/-- dedupeKeepFirstGo only consults the seen list through membership. -/
lemma dedupeKeepFirstGo_congr (s₁ s₂ : List Int)
    (h : ∀ x, x ∈ s₁ ↔ x ∈ s₂) (rows : List TokenEventRow) :
    dedupeKeepFirstGo s₁ rows = dedupeKeepFirstGo s₂ rows := by
  induction rows generalizing s₁ s₂ with
  | nil => rfl
  | cons r rest ih =>
    by_cases hm : r.total_tokens_cumulative ∈ s₁
    · simp [dedupeKeepFirstGo, hm, (h _).mp hm, ih s₁ s₂ h]
    · have hm₂ : r.total_tokens_cumulative ∉ s₂ := fun hx => hm ((h _).mpr hx)
      have h' : ∀ x, x ∈ r.total_tokens_cumulative :: s₁ ↔
          x ∈ r.total_tokens_cumulative :: s₂ := by
        intro x; simp [h x]
      simp [dedupeKeepFirstGo, hm, hm₂, ih _ _ h']

/-- A successful scan's output is the first-occurrence-wins sequence keyed by
the dict's keys. -/
lemma dedupeScan_ok_rows (rows : List TokenEventRow) :
    ∀ (dict : List (Int × TokenEventRow)) (s : Nat) (d : List TokenEventRow) (s' : Nat),
      dedupeScan dict s rows = .ok (d, s') →
      d = dedupeKeepFirstGo (dict.map Prod.fst) rows := by
  induction rows with
  | nil =>
    intro dict s d s' h
    simp [dedupeScan] at h
    simp [dedupeKeepFirstGo, h.1.symm]
  | cons row rest ih =>
    intro dict s d s' h
    cases hl : lookupFirst dict row.total_tokens_cumulative with
    | none =>
      have hmem : row.total_tokens_cumulative ∉ dict.map Prod.fst :=
        (lookupFirst_eq_none_iff dict _).mp hl
      cases hrec : dedupeScan (dict ++ [(row.total_tokens_cumulative, row)]) s rest with
      | error e => simp [dedupeScan, hl, hrec] at h
      | ok out =>
        obtain ⟨d', s''⟩ := out
        simp [dedupeScan, hl, hrec] at h
        have hd' := ih _ _ _ _ hrec
        have hkeys : ∀ x, x ∈ (dict ++ [(row.total_tokens_cumulative, row)]).map Prod.fst ↔
            x ∈ row.total_tokens_cumulative :: dict.map Prod.fst := by
          intro x
          simp [or_comm]
        rw [← h.1, hd',
          dedupeKeepFirstGo_congr _ _ hkeys rest]
        simp [dedupeKeepFirstGo, hmem]
    | some existing_row =>
      have hmem : row.total_tokens_cumulative ∈ dict.map Prod.fst := by
        have := lookupFirst_mem dict _ _ hl
        exact List.mem_map.mpr ⟨_, this, rfl⟩
      by_cases hp : rowsHaveMatchingPayload existing_row row
      · have hrec : dedupeScan dict (s + 1) rest = .ok (d, s') := by
          simpa [dedupeScan, hl, hp] using h
        rw [ih _ _ _ _ hrec]
        simp [dedupeKeepFirstGo, hmem]
      · simp [dedupeScan, hl, hp] at h

/-- Under pairwise conflict-freedom (and a dict compatible with the remaining
rows) the scan never raises DuplicateConflictError. -/
lemma dedupeScan_ok_of_conflictFree (rows : List TokenEventRow) :
    ∀ (dict : List (Int × TokenEventRow)) (s : Nat),
      ConflictFree rows →
      (∀ p ∈ dict, ∀ r ∈ rows,
        p.1 = r.total_tokens_cumulative → rowsHaveMatchingPayload p.2 r) →
      ∃ out, dedupeScan dict s rows = .ok out := by
  induction rows with
  | nil => intro dict s _ _; exact ⟨([], s), by simp [dedupeScan]⟩
  | cons row rest ih =>
    intro dict s hcf hdict
    have hcf' : ConflictFree rest := (List.pairwise_cons.mp hcf).2
    cases hl : lookupFirst dict row.total_tokens_cumulative with
    | none =>
      have hdict' : ∀ p ∈ dict ++ [(row.total_tokens_cumulative, row)], ∀ r ∈ rest,
          p.1 = r.total_tokens_cumulative → rowsHaveMatchingPayload p.2 r := by
        intro p hp r hr hkey
        rcases List.mem_append.mp hp with hold | hnew
        · exact hdict p hold r (List.mem_cons_of_mem _ hr) hkey
        · have hpe : p = (row.total_tokens_cumulative, row) := by simpa using hnew
          subst hpe
          exact (List.pairwise_cons.mp hcf).1 r hr hkey
      obtain ⟨out, hout⟩ := ih (dict ++ [(row.total_tokens_cumulative, row)]) s hcf' hdict'
      exact ⟨(row :: out.1, out.2), by simp [dedupeScan, hl, hout]⟩
    | some existing_row =>
      have hmem := lookupFirst_mem dict _ _ hl
      have hp : rowsHaveMatchingPayload existing_row row :=
        hdict _ hmem row (List.mem_cons_self _ _) rfl
      have hdict' : ∀ p ∈ dict, ∀ r ∈ rest,
          p.1 = r.total_tokens_cumulative → rowsHaveMatchingPayload p.2 r :=
        fun p hp' r hr => hdict p hp' r (List.mem_cons_of_mem _ hr)
      obtain ⟨out, hout⟩ := ih dict (s + 1) hcf' hdict'
      exact ⟨out, by simp [dedupeScan, hl, hp, hout]⟩

/-- With pairwise-distinct cumulative totals the scan keeps every row and
skips none. -/
lemma dedupeScan_ok_of_distinct (rows : List TokenEventRow) :
    ∀ (dict : List (Int × TokenEventRow)) (s : Nat),
      DistinctCums rows →
      (∀ r ∈ rows, r.total_tokens_cumulative ∉ dict.map Prod.fst) →
      dedupeScan dict s rows = .ok (rows, s) := by
  induction rows with
  | nil => intro dict s _ _; simp [dedupeScan]
  | cons row rest ih =>
    intro dict s hdist hdisj
    have hl : lookupFirst dict row.total_tokens_cumulative = none :=
      (lookupFirst_eq_none_iff dict _).mpr (hdisj row (List.mem_cons_self _ _))
    have hdisj' : ∀ r ∈ rest,
        r.total_tokens_cumulative ∉
          (dict ++ [(row.total_tokens_cumulative, row)]).map Prod.fst := by
      intro r hr hx
      rw [List.map_append] at hx
      rcases List.mem_append.mp hx with hx | hx
      · exact hdisj r (List.mem_cons_of_mem _ hr) hx
      · have hcum : r.total_tokens_cumulative = row.total_tokens_cumulative := by
          simpa using hx
        exact (List.pairwise_cons.mp hdist).1 r hr hcum.symm
    have hrec := ih (dict ++ [(row.total_tokens_cumulative, row)]) s
      (List.pairwise_cons.mp hdist).2 hdisj'
    simp [dedupeScan, hl, hrec]

/-- Rows surviving the first-occurrence filter avoid the seen keys and are
pairwise distinct in their cumulative totals. -/
lemma dedupeKeepFirstGo_props (rows : List TokenEventRow) :
    ∀ seen : List Int,
      (∀ r ∈ dedupeKeepFirstGo seen rows, r.total_tokens_cumulative ∉ seen) ∧
      DistinctCums (dedupeKeepFirstGo seen rows) := by
  induction rows with
  | nil => intro seen; exact ⟨by simp [dedupeKeepFirstGo], List.Pairwise.nil⟩
  | cons row rest ih =>
    intro seen
    by_cases hm : row.total_tokens_cumulative ∈ seen
    · simpa [dedupeKeepFirstGo, hm] using ih seen
    · have hrest := ih (row.total_tokens_cumulative :: seen)
      constructor
      · intro r hr
        simp [dedupeKeepFirstGo, hm] at hr
        rcases hr with hr | hr
        · exact hr ▸ hm
        · intro hx
          exact hrest.1 r hr (List.mem_cons_of_mem _ hx)
      · simp only [dedupeKeepFirstGo, hm, if_false]
        refine List.pairwise_cons.mpr ⟨?_, hrest.2⟩
        intro r hr hx
        exact hrest.1 r hr (hx ▸ List.mem_cons_self _ _)

/-- _validate_uniqueness accepts a sequence of pairwise-distinct totals. -/
lemma validateUniquenessGo_ok (rows : List TokenEventRow) :
    ∀ observed : List Int,
      DistinctCums rows →
      (∀ r ∈ rows, r.total_tokens_cumulative ∉ observed) →
      validateUniquenessGo observed rows = .ok () := by
  induction rows with
  | nil => intro observed _ _; rfl
  | cons row rest ih =>
    intro observed hdist hdisj
    have hm : row.total_tokens_cumulative ∉ observed :=
      hdisj row (List.mem_cons_self _ _)
    have hdisj' : ∀ r ∈ rest,
        r.total_tokens_cumulative ∉ row.total_tokens_cumulative :: observed := by
      intro r hr hx
      rcases List.mem_cons.mp hx with hx | hx
      · exact (List.pairwise_cons.mp hdist).1 r hr hx.symm
      · exact hdisj r (List.mem_cons_of_mem _ hr) hx
    simp [validateUniquenessGo, hm,
      ih (row.total_tokens_cumulative :: observed) (List.pairwise_cons.mp hdist).2 hdisj']

/-- With pairwise-distinct totals the first-occurrence filter is the identity. -/
lemma dedupeKeepFirstGo_eq_self (rows : List TokenEventRow) :
    ∀ seen : List Int,
      DistinctCums rows →
      (∀ r ∈ rows, r.total_tokens_cumulative ∉ seen) →
      dedupeKeepFirstGo seen rows = rows := by
  induction rows with
  | nil => intro seen _ _; rfl
  | cons row rest ih =>
    intro seen hdist hdisj
    have hm : row.total_tokens_cumulative ∉ seen := hdisj row (List.mem_cons_self _ _)
    have hdisj' : ∀ r ∈ rest,
        r.total_tokens_cumulative ∉ row.total_tokens_cumulative :: seen := by
      intro r hr hx
      rcases List.mem_cons.mp hx with hx | hx
      · exact (List.pairwise_cons.mp hdist).1 r hr hx.symm
      · exact hdisj r (List.mem_cons_of_mem _ hr) hx
    simp [dedupeKeepFirstGo, hm, ih _ (List.pairwise_cons.mp hdist).2 hdisj']

/-- A successful dedupe returns exactly the first-occurrence-wins sequence,
and that sequence is strictly increasing and delta-consistent at every
adjacent pair. -/
lemma dedupe_ok_elim (rows : List TokenEventRow) (res : DedupeResult)
    (h : dedupe_and_validate_token_rows rows = .ok res) :
    res.token_rows = dedupeKeepFirst rows ∧
    List.Chain' (fun a b => cumLt a b ∧ rowDeltaMatches a b) res.token_rows := by
  unfold dedupe_and_validate_token_rows at h
  cases hscan : dedupeScan [] 0 rows with
  | error e => simp [hscan] at h
  | ok out =>
    obtain ⟨d, s⟩ := out
    have hd : d = dedupeKeepFirst rows := by
      have := dedupeScan_ok_rows rows [] 0 d s hscan
      simpa [dedupeKeepFirst] using this
    cases huniq : validateUniqueness d with
    | error e => simp [hscan, huniq] at h
    | ok u =>
      cases u
      cases hmono : validateMonotonicityAndDeltas d with
      | error e => simp [hscan, huniq, hmono] at h
      | ok u =>
        cases u
        simp [hscan, huniq, hmono] at h
        have hres : res = ⟨d, s⟩ := h.symm
        subst hres
        exact ⟨hd, (validateMono_ok_iff d).mp hmono⟩

/-- A non-increasing adjacent pair in the deduped sequence forces some
integrity error. -/
lemma dedupe_error_of_not_chain_cum (rows : List TokenEventRow)
    (hbad : ¬ List.Chain' cumLt (dedupeKeepFirst rows)) :
    ∃ e, dedupe_and_validate_token_rows rows = .error e := by
  cases hres : dedupe_and_validate_token_rows rows with
  | error e => exact ⟨e, rfl⟩
  | ok res =>
    obtain ⟨hrows, hchain⟩ := dedupe_ok_elim rows res hres
    exact absurd (hrows ▸ hchain.imp (fun _ _ hab => hab.1)) hbad

/-- A delta-inconsistent adjacent pair in the deduped sequence forces some
integrity error. -/
lemma dedupe_error_of_not_chain_delta (rows : List TokenEventRow)
    (hbad : ¬ List.Chain' (fun a b => rowDeltaMatches a b) (dedupeKeepFirst rows)) :
    ∃ e, dedupe_and_validate_token_rows rows = .error e := by
  cases hres : dedupe_and_validate_token_rows rows with
  | error e => exact ⟨e, rfl⟩
  | ok res =>
    obtain ⟨hrows, hchain⟩ := dedupe_ok_elim rows res hres
    exact absurd (hrows ▸ hchain.imp (fun _ _ hab => hab.2)) hbad

/-- With no payload conflicts the scan succeeds on the keep-first sequence and
uniqueness validation accepts it. -/
lemma dedupe_reaches_walk (rows : List TokenEventRow) (hcf : ConflictFree rows) :
    ∃ s, dedupeScan [] 0 rows = .ok (dedupeKeepFirst rows, s) ∧
      validateUniqueness (dedupeKeepFirst rows) = .ok () := by
  obtain ⟨out, hout⟩ := dedupeScan_ok_of_conflictFree rows [] 0 hcf (by simp)
  obtain ⟨d, s⟩ := out
  have hd : d = dedupeKeepFirst rows := by
    have := dedupeScan_ok_rows rows [] 0 d s hout
    simpa [dedupeKeepFirst] using this
  subst hd
  have hprops := dedupeKeepFirstGo_props rows []
  refine ⟨s, hout, ?_⟩
  exact validateUniquenessGo_ok _ [] hprops.2 (by simp)

/-- Refined monotonicity-failure form: with no payload conflicts and all
strictly increasing adjacent pairs delta-consistent, a non-increasing pair
yields precisely MonotonicityError. -/
lemma dedupe_error_monotonicity (rows : List TokenEventRow)
    (hcf : ConflictFree rows)
    (hdelta : List.Chain' (fun a b => cumLt a b → rowDeltaMatches a b)
      (dedupeKeepFirst rows))
    (hbad : ¬ List.Chain' cumLt (dedupeKeepFirst rows)) :
    dedupe_and_validate_token_rows rows = .error .monotonicity := by
  obtain ⟨s, hscan, huniq⟩ := dedupe_reaches_walk rows hcf
  have hmono := validateMono_error_monotonicity _ hbad hdelta
  unfold dedupe_and_validate_token_rows
  simp [hscan, huniq, hmono]

/-- Refined delta-failure form: with no payload conflicts and all adjacent
pairs strictly increasing, a delta-inconsistent pair yields precisely
DeltaConsistencyError. -/
lemma dedupe_error_delta (rows : List TokenEventRow)
    (hcf : ConflictFree rows)
    (hmono : List.Chain' cumLt (dedupeKeepFirst rows))
    (hbad : ¬ List.Chain' (fun a b => rowDeltaMatches a b) (dedupeKeepFirst rows)) :
    dedupe_and_validate_token_rows rows = .error .deltaConsistency := by
  obtain ⟨s, hscan, huniq⟩ := dedupe_reaches_walk rows hcf
  have hdeltaerr := validateMono_error_delta _ hmono hbad
  unfold dedupe_and_validate_token_rows
  simp [hscan, huniq, hdeltaerr]

/-- Adjacent-pair relations combine over one list. -/
lemma list_chain'_and {α : Type} {R S : α → α → Prop} :
    ∀ {l : List α}, List.Chain' R l → List.Chain' S l →
      List.Chain' (fun a b => R a b ∧ S a b) l := by
  intro l
  induction l with
  | nil => intro _ _; exact List.chain'_nil
  | cons a tail ih =>
    cases tail with
    | nil => intro _ _; simp
    | cons b rest =>
      intro hR hS
      rw [List.chain'_cons] at hR hS ⊢
      exact ⟨⟨hR.1, hS.1⟩, ih hR.2 hS.2⟩

/-- The parser's row loop keeps exactly the rows passing the checkpoint and
counts every candidate as raw and every filtered row as checkpoint-skipped. -/
lemma parseSessionRows_eq (checkpoint : Option SessionCheckpoint)
    (rows : List TokenEventRow) :
    parseSessionRows checkpoint rows =
      ⟨rows.filter (rowKept checkpoint), rows.length,
       rows.countP (fun r => !rowKept checkpoint r)⟩ := by
  induction rows with
  | nil => rfl
  | cons r rest ih =>
    by_cases hk : rowKept checkpoint r
    · simp [parseSessionRows, ih, hk, List.countP_cons, List.filter_cons]
    · simp [parseSessionRows, ih, hk, List.countP_cons, List.filter_cons]

/-- A dedupe failure is caught at the per-file boundary: the store is left
untouched and the file is recorded as failed. -/
lemma processSessionFile_failed (store : CodexStore) (counters : IngestionCounters)
    (file : SessionFileInput) (e : DedupeError)
    (hnm : fileStateMatches (getFileState store file.path) file.file_state = false)
    (herr : dedupe_and_validate_token_rows
      (parseSessionRows (getSessionCheckpoint store file.session_id)
        file.candidate_rows).token_rows = .error e) :
    (processSessionFile store counters file).1 = store ∧
    file.path ∈ (processSessionFile store counters file).2.failed_files := by
  cases e with
  | monotonicity => simp [processSessionFile, hnm, herr]
  | deltaConsistency => simp [processSessionFile, hnm, herr]
  | duplicateConflict => simp [processSessionFile, hnm, herr]

/-- Every branch of the per-file step scans exactly one file. -/
lemma processSessionFile_scanned (store : CodexStore) (counters : IngestionCounters)
    (file : SessionFileInput) :
    (processSessionFile store counters file).2.files_scanned =
      counters.files_scanned + 1 := by
  by_cases hm : fileStateMatches (getFileState store file.path) file.file_state = true
  · simp [processSessionFile, hm]
  · have hm' : fileStateMatches (getFileState store file.path) file.file_state = false := by
      simpa using hm
    cases hd : dedupe_and_validate_token_rows
        (parseSessionRows (getSessionCheckpoint store file.session_id)
          file.candidate_rows).token_rows with
    | ok res => simp [processSessionFile, hm', hd]
    | error e => cases e <;> simp [processSessionFile, hm', hd]

/-- The batch loop reaches every file: the scanned counter grows by the batch
size no matter which files fail. -/
lemma codexIngest_scanned (files : List SessionFileInput) :
    ∀ (store : CodexStore) (counters : IngestionCounters),
      (codexIngest store counters files).2.files_scanned =
        counters.files_scanned + files.length := by
  induction files with
  | nil => intro store counters; simp [codexIngest]
  | cons f rest ih =>
    intro store counters
    have h := ih (processSessionFile store counters f).1 (processSessionFile store counters f).2
    calc (codexIngest store counters (f :: rest)).2.files_scanned
        = (codexIngest (processSessionFile store counters f).1
            (processSessionFile store counters f).2 rest).2.files_scanned := rfl
      _ = (processSessionFile store counters f).2.files_scanned + rest.length := h
      _ = counters.files_scanned + 1 + rest.length := by
            rw [processSessionFile_scanned]
      _ = counters.files_scanned + (f :: rest).length := by
            simp [List.length_cons]; omega

end CodexUsage

/-! ### Claims C1, C2, C4 — the cumulative-counter validator -/

open CodexUsage in
/-- C1 (amended).  For the cumulative-counter family: if after
first-occurrence-wins deduplication some adjacent pair of the deduped sequence
has a current cumulative total less than or equal to the previous one, then
dedupe_and_validate_token_rows raises an integrity error — specifically a
monotonicity error when no equal-total rows carry conflicting payloads and
every strictly increasing adjacent pair is delta-consistent (a duplicate
conflict or an earlier pair's delta mismatch is otherwise reported first) —
the service records the file as failed, and zero new event rows are committed
to the store for that source's pass. -/
theorem codex_nonmonotonic_dedupe_fails_pass (rows : List TokenEventRow)
    (hbad : ¬ List.Chain' cumLt (dedupeKeepFirst rows)) :
    (∃ e, dedupe_and_validate_token_rows rows = .error e) ∧
    (ConflictFree rows →
      List.Chain' (fun a b => cumLt a b → rowDeltaMatches a b) (dedupeKeepFirst rows) →
      dedupe_and_validate_token_rows rows = .error .monotonicity) ∧
    (∀ (store : CodexStore) (counters : IngestionCounters) (file : SessionFileInput),
      fileStateMatches (getFileState store file.path) file.file_state = false →
      (parseSessionRows (getSessionCheckpoint store file.session_id)
        file.candidate_rows).token_rows = rows →
      (processSessionFile store counters file).1 = store ∧
      file.path ∈ (processSessionFile store counters file).2.failed_files) := by
  refine ⟨dedupe_error_of_not_chain_cum rows hbad,
    fun hcf hdelta => dedupe_error_monotonicity rows hcf hdelta hbad, ?_⟩
  intro store counters file hnm hrows
  obtain ⟨e, he⟩ := dedupe_error_of_not_chain_cum rows hbad
  exact processSessionFile_failed store counters file e hnm (by rw [hrows]; exact he)

open CodexUsage in
/-- Witness for C1 at the regressing totals [10, 9]: the deduped sequence has
a non-increasing adjacent pair, dedupe raises MonotonicityError, the store is
untouched and the file is recorded as failed. -/
theorem codex_nonmonotonic_dedupe_fails_pass_witness :
    (¬ List.Chain' cumLt (dedupeKeepFirst [exRow10, exRow9])) ∧
    dedupe_and_validate_token_rows [exRow10, exRow9] = .error .monotonicity ∧
    (processSessionFile emptyStore {} exFileMono).1 = emptyStore ∧
    exFileMono.path ∈ (processSessionFile emptyStore {} exFileMono).2.failed_files := by
  have hbad : ¬ List.Chain' cumLt (dedupeKeepFirst [exRow10, exRow9]) := by decide
  have h := codex_nonmonotonic_dedupe_fails_pass [exRow10, exRow9] hbad
  have hsvc := h.2.2 emptyStore {} exFileMono (by decide) (by decide)
  exact ⟨hbad, h.2.1 (by decide) (by decide), hsvc.1, hsvc.2⟩

open CodexUsage in
/-- Counterexample to C1 as stated: at totals [10, 20, 15] where the pair
(10, 20) carries mismatched incremental values, the deduped sequence has the
non-increasing adjacent pair (20, 15), yet dedupe_and_validate_token_rows
raises DeltaConsistencyError for the earlier pair, not a monotonicity error. -/
theorem codex_nonmonotonic_dedupe_counterexample :
    (¬ List.Chain' cumLt (dedupeKeepFirst [exRow10, exRow20deltaBad, exRow15])) ∧
    dedupe_and_validate_token_rows [exRow10, exRow20deltaBad, exRow15] =
      .error .deltaConsistency ∧
    dedupe_and_validate_token_rows [exRow10, exRow20deltaBad, exRow15] ≠
      .error .monotonicity := by
  exact ⟨by decide, by decide, by decide⟩

open CodexUsage in
/-- C2 (amended).  For the cumulative-counter family: a pass accepted by
dedupe_and_validate_token_rows has, for every adjacent pair of the deduped
sequence and each of the five token fields, the current-minus-previous
cumulative difference equal to the incremental value on the current row; any
mismatch fails that source's pass with an integrity error — specifically a
delta-consistency error when no equal-total rows carry conflicting payloads
and every adjacent pair strictly increases (a duplicate conflict or a
monotonicity violation at or before the pair is otherwise reported first) —
leaving the store untouched and the file recorded as failed. -/
theorem codex_delta_mismatch_fails_pass (rows : List TokenEventRow) :
    (∀ res, dedupe_and_validate_token_rows rows = .ok res →
      List.Chain' (fun a b => rowDeltaMatches a b) res.token_rows) ∧
    (¬ List.Chain' (fun a b => rowDeltaMatches a b) (dedupeKeepFirst rows) →
      (∃ e, dedupe_and_validate_token_rows rows = .error e) ∧
      (ConflictFree rows → List.Chain' cumLt (dedupeKeepFirst rows) →
        dedupe_and_validate_token_rows rows = .error .deltaConsistency) ∧
      (∀ (store : CodexStore) (counters : IngestionCounters) (file : SessionFileInput),
        fileStateMatches (getFileState store file.path) file.file_state = false →
        (parseSessionRows (getSessionCheckpoint store file.session_id)
          file.candidate_rows).token_rows = rows →
        (processSessionFile store counters file).1 = store ∧
        file.path ∈ (processSessionFile store counters file).2.failed_files)) := by
  constructor
  · intro res hok
    exact ((dedupe_ok_elim rows res hok).2).imp (fun _ _ hab => hab.2)
  · intro hbad
    refine ⟨dedupe_error_of_not_chain_delta rows hbad,
      fun hcf hmono => dedupe_error_delta rows hcf hmono hbad, ?_⟩
    intro store counters file hnm hrows
    obtain ⟨e, he⟩ := dedupe_error_of_not_chain_delta rows hbad
    exact processSessionFile_failed store counters file e hnm (by rw [hrows]; exact he)

open CodexUsage in
/-- Witness for C2 at totals [10, 20] with mismatched incremental values: the
mismatch raises DeltaConsistencyError and a successful run of the engine on
totals [10, 18] is delta-consistent at its one adjacent pair. -/
theorem codex_delta_mismatch_fails_pass_witness :
    (¬ List.Chain' (fun a b => rowDeltaMatches a b)
      (dedupeKeepFirst [exRow10, exRow20deltaBad])) ∧
    dedupe_and_validate_token_rows [exRow10, exRow20deltaBad] =
      .error .deltaConsistency ∧
    List.Chain' (fun a b => rowDeltaMatches a b)
      (DedupeResult.token_rows ⟨[exRow10, exRow18], 1⟩) := by
  have hbad : ¬ List.Chain' (fun a b => rowDeltaMatches a b)
      (dedupeKeepFirst [exRow10, exRow20deltaBad]) := by decide
  have h := codex_delta_mismatch_fails_pass [exRow10, exRow20deltaBad]
  refine ⟨hbad, (h.2 hbad).2.1 (by decide) (by decide), ?_⟩
  have h18 := codex_delta_mismatch_fails_pass [exRow10, exRow10dup, exRow18]
  exact h18.1 ⟨[exRow10, exRow18], 1⟩ (by decide)

open CodexUsage in
/-- Counterexample to C2 as stated: at totals [10, 9] where the pair also
carries mismatched incremental values, the monotonicity check of that pair
runs first, so the mismatch raises MonotonicityError, not a delta-consistency
error. -/
theorem codex_delta_mismatch_counterexample :
    (¬ List.Chain' (fun a b => rowDeltaMatches a b)
      (dedupeKeepFirst [exRow10, exRow9deltaBad])) ∧
    dedupe_and_validate_token_rows [exRow10, exRow9deltaBad] = .error .monotonicity ∧
    dedupe_and_validate_token_rows [exRow10, exRow9deltaBad] ≠
      .error .deltaConsistency := by
  exact ⟨by decide, by decide, by decide⟩

open CodexUsage in
/-- C4.  For the cumulative-counter family: totals [10, 10 (identical
payload), 18] dedupe to exactly the rows with totals 10 and 18 in order with
one duplicate skipped; two rows sharing a total with differing payloads raise
DuplicateConflictError; totals [10, 9] raise MonotonicityError and the
service stores zero rows for that pass. -/
theorem codex_dedupe_concrete_examples :
    dedupe_and_validate_token_rows [exRow10, exRow10dup, exRow18] =
      .ok ⟨[exRow10, exRow18], 1⟩ ∧
    dedupe_and_validate_token_rows [exRow10, exRow10conflict] =
      .error .duplicateConflict ∧
    dedupe_and_validate_token_rows [exRow10, exRow9] = .error .monotonicity ∧
    (processSessionFile emptyStore {} exFileMono).1.session_details = [] := by
  exact ⟨by decide, by decide, by decide, by decide⟩

/-! ### Lemmas about the gemini parser and service -/

namespace GeminiUsage

/-- With pairwise-distinct event keys the parse loop succeeds, keeping
exactly the checkpoint-passing events, counting every event, and tracking the
running maximum key. -/
lemma gemParseGo_ok_of_distinct (events : List GemEvent) :
    ∀ (checkpoint : Option GemCheckpoint) (seen : List (Int × String))
      (maxk : Option (Int × String)) (t s : Nat),
      List.Pairwise (fun a b => eventKey a ≠ eventKey b) events →
      (∀ e ∈ events, eventKey e ∉ seen) →
      gemParseGo checkpoint seen maxk t s events =
        .ok ⟨events.filter (gemKept checkpoint), t + events.length,
             s + events.countP (fun e => !gemKept checkpoint e),
             gemMaxFold maxk (events.map eventKey)⟩ := by
  induction events with
  | nil =>
    intro checkpoint seen maxk t s _ _
    simp [gemParseGo, gemMaxFold]
  | cons e rest ih =>
    intro checkpoint seen maxk t s hdist hdisj
    have hnot : eventKey e ∉ seen := hdisj e (List.mem_cons_self _ _)
    have hdisj' : ∀ x ∈ rest, eventKey x ∉ eventKey e :: seen := by
      intro x hx hmem
      rcases List.mem_cons.mp hmem with hmem | hmem
      · exact (List.pairwise_cons.mp hdist).1 x hx hmem.symm
      · exact hdisj x (List.mem_cons_of_mem _ hx) hmem
    have hrec := ih checkpoint (eventKey e :: seen) (gemMaxStep maxk (eventKey e))
      (t + 1) s (List.pairwise_cons.mp hdist).2 hdisj'
    have hrec' := ih checkpoint (eventKey e :: seen) (gemMaxStep maxk (eventKey e))
      (t + 1) (s + 1) (List.pairwise_cons.mp hdist).2 hdisj'
    by_cases hk : gemKept checkpoint e = true
    · simp [gemParseGo, hnot, hk, hrec, List.filter_cons, List.countP_cons, gemMaxFold]
      omega
    · have hk' : gemKept checkpoint e = false := by simpa using hk
      simp [gemParseGo, hnot, hk', hrec', List.filter_cons, List.countP_cons, gemMaxFold]
      omega

/-- The running maximum of keys all below a bound stays below the bound. -/
lemma gemMaxFold_lt (key : Int × String) (ks : List (Int × String)) :
    ∀ acc : Option (Int × String),
      (∀ k ∈ ks, gemKeyLt k key = true) →
      (∀ a, acc = some a → gemKeyLt a key = true) →
      ∀ m, gemMaxFold acc ks = some m → gemKeyLt m key = true := by
  induction ks with
  | nil =>
    intro acc _ hacc m hm
    exact hacc m (by simpa [gemMaxFold] using hm)
  | cons k rest ih =>
    intro acc hks hacc m hm
    have hstep : ∀ a, gemMaxStep acc k = some a → gemKeyLt a key = true := by
      intro a ha
      cases acc with
      | none =>
        have : k = a := by simpa [gemMaxStep] using ha
        exact this ▸ hks k (List.mem_cons_self _ _)
      | some b =>
        by_cases hbk : gemKeyLt b k = true
        · have : k = a := by simpa [gemMaxStep, hbk] using ha
          exact this ▸ hks k (List.mem_cons_self _ _)
        · have hbk' : gemKeyLt b k = false := by simpa using hbk
          have : b = a := by simpa [gemMaxStep, hbk'] using ha
          exact this ▸ hacc b rfl
    exact ih (gemMaxStep acc k) (fun k' hk' => hks k' (List.mem_cons_of_mem _ hk'))
      hstep m (by simpa [gemMaxFold] using hm)

/-- A duplicate-free source whose every key orders strictly before the stored
checkpoint fails the parse with AppendOnlyViolationError. -/
lemma parse_append_only_of_regressed (c : GemCheckpoint) (events : List GemEvent)
    (hdist : List.Pairwise (fun a b => eventKey a ≠ eventKey b) events)
    (hlt : ∀ e ∈ events, gemKeyLt (eventKey e) (gemCkptKey c) = true) :
    parse_usage_jsonl (some c) events = .error .appendOnlyViolation := by
  have hgo := gemParseGo_ok_of_distinct events (some c) [] none 0 0 hdist (by simp)
  unfold parse_usage_jsonl
  cases hmax : gemMaxFold none (events.map eventKey) with
  | none => simp [hgo, hmax]
  | some m =>
    have hm : gemKeyLt m (gemCkptKey c) = true := by
      refine gemMaxFold_lt (gemCkptKey c) (events.map eventKey) none ?_ ?_ m hmax
      · intro k hk
        rcases List.mem_map.mp hk with ⟨e, he, hke⟩
        exact hke ▸ hlt e he
      · intro a ha
        exact Option.noConfusion ha
    simp [hgo, hmax, hm]

/-- The per-source step surfaces the append-only violation for a
checkpointed, changed, duplicate-free source whose keys all regress. -/
lemma gemProcessSource_append_only (store : GemStore) (counters : GemCounters)
    (src : GemSourceInput) (source_row : GemSourceRow) (c : GemCheckpoint)
    (hfind : store.sources.find? (fun s => decide (s.jsonl_file_path = src.path)) =
      some source_row)
    (hnm : gemFileStateMatches source_row src.file_state = false)
    (hck : source_row.checkpoint = some c)
    (hdist : List.Pairwise (fun a b => eventKey a ≠ eventKey b) src.events)
    (hlt : ∀ e ∈ src.events, gemKeyLt (eventKey e) (gemCkptKey c) = true) :
    gemProcessSource store counters src = .error .appendOnlyViolation := by
  have hparse := parse_append_only_of_regressed c src.events hdist hlt
  simp [gemProcessSource, hfind, hnm, hck, hparse]

end GeminiUsage

/-! ### Lemmas about the opencode service -/

namespace OpenCodeUsage

/-- With a stored checkpoint and a source maximum missing or ordering before
it, ingest returns early flagging skipped_no_source_changes, raising nothing
and writing nothing. -/
lemma ocIngest_skips_on_regression (batch_size : Nat) (store : OcStore)
    (source_rows : List SourceMessageRow) (c : OcCheckpoint)
    (hc : ocGetCheckpoint store = some c)
    (hm : ∀ m, getLatestAssistantTimeUpdatedMs source_rows = some m →
      m < c.last_time_updated_ms) :
    ocIngest batch_size store source_rows =
      (store, { skipped_no_source_changes := true }, none) := by
  cases hmax : getLatestAssistantTimeUpdatedMs source_rows with
  | none => simp [ocIngest, hc, hmax]
  | some m =>
    have hlt := hm m hmax
    simp [ocIngest, hc, hmax, hlt]

end OpenCodeUsage

/-! ### Claims C9, C6, C3, C5 -/

open CodexUsage GeminiUsage in
/-- C9.  Idempotence: for a source whose bookkeeping snapshot (file size and
modification time) exactly matches the stored snapshot, re-running ingestion
short-circuits the read/parse/validate path, stores no new event rows, and
leaves the stored event count and the checkpoint unchanged — in the codex
service and, for a tracked source row, in the gemini service. -/
theorem unchanged_source_short_circuits
    (store : CodexStore) (counters : IngestionCounters) (file : SessionFileInput)
    (gstore : GemStore) (gcounters : GemCounters) (gsrc : GemSourceInput)
    (gsource_row : GemSourceRow) :
    (fileStateMatches (getFileState store file.path) file.file_state = true →
      processSessionFile store counters file =
        (store, { counters with
            files_scanned := counters.files_scanned + 1
            files_skipped_unchanged := counters.files_skipped_unchanged + 1 }) ∧
      getSessionCheckpoint (processSessionFile store counters file).1 file.session_id =
        getSessionCheckpoint store file.session_id ∧
      (processSessionFile store counters file).1.session_details.length =
        store.session_details.length) ∧
    (gstore.sources.find? (fun s => decide (s.jsonl_file_path = gsrc.path)) =
        some gsource_row →
      gemFileStateMatches gsource_row gsrc.file_state = true →
      gemProcessSource gstore gcounters gsrc =
        .ok (gstore, { gcounters with
            sources_scanned := gcounters.sources_scanned + 1
            sources_skipped_unchanged := gcounters.sources_skipped_unchanged + 1 })) := by
  constructor
  · intro hmatch
    have hstep : processSessionFile store counters file =
        (store, { counters with
            files_scanned := counters.files_scanned + 1
            files_skipped_unchanged := counters.files_skipped_unchanged + 1 }) := by
      simp [processSessionFile, hmatch]
    exact ⟨hstep, by rw [hstep], by rw [hstep]⟩
  · intro hfind hmatch
    simp [gemProcessSource, hfind, hmatch]

open CodexUsage GeminiUsage in
/-- Witness for C9: the unchanged codex example file is skipped with the store
untouched, and the unchanged tracked gemini source likewise. -/
theorem unchanged_source_short_circuits_witness :
    processSessionFile exStoreC9 {} exFileC9 =
      (exStoreC9, { files_scanned := 1, files_skipped_unchanged := 1 }) ∧
    gemProcessSource gemStoreC9 {} gemInputC9 =
      .ok (gemStoreC9, { sources_scanned := 1, sources_skipped_unchanged := 1 }) := by
  have h := unchanged_source_short_circuits exStoreC9 {} exFileC9
    gemStoreC9 {} gemInputC9 gemSrcRowFs
  exact ⟨(h.1 (by decide)).1, h.2 (by decide) (by decide)⟩

open CodexUsage GeminiUsage in
/-- C6 (amended).  The codex orchestrator reaches every file of a batch — the
scanned counter always grows by the batch length, and a file failing an
integrity check is recorded in failed_files while processing continues with
the remaining files on the unchanged store.  The gemini orchestrator has no
per-source handler: the first failing source aborts the loop, returning the
store as it was before that source and leaving the remaining sources
unprocessed. -/
theorem per_source_failure_containment :
    (∀ (store : CodexStore) (counters : IngestionCounters) (files : List SessionFileInput),
      (codexIngest store counters files).2.files_scanned =
        counters.files_scanned + files.length) ∧
    (∀ (store : CodexStore) (counters : IngestionCounters) (file : SessionFileInput)
        (rest : List SessionFileInput) (e : DedupeError),
      fileStateMatches (getFileState store file.path) file.file_state = false →
      dedupe_and_validate_token_rows
        (parseSessionRows (getSessionCheckpoint store file.session_id)
          file.candidate_rows).token_rows = .error e →
      codexIngest store counters (file :: rest) =
        codexIngest store (processSessionFile store counters file).2 rest ∧
      file.path ∈ (processSessionFile store counters file).2.failed_files) ∧
    (∀ (gstore : GemStore) (gcounters : GemCounters) (gsrc : GemSourceInput)
        (grest : List GemSourceInput) (ge : GemIngestError),
      gemProcessSource gstore gcounters gsrc = .error ge →
      gemIngest gstore gcounters (gsrc :: grest) = (gstore, gcounters, some ge)) := by
  refine ⟨fun store counters files => codexIngest_scanned files store counters, ?_, ?_⟩
  · intro store counters file rest e hnm herr
    have hfailed := processSessionFile_failed store counters file e hnm herr
    constructor
    · show codexIngest (processSessionFile store counters file).1
        (processSessionFile store counters file).2 rest = _
      rw [hfailed.1]
    · exact hfailed.2
  · intro gstore gcounters gsrc grest ge he
    simp [gemIngest, he]

open CodexUsage GeminiUsage in
/-- Witness for C6: the codex batch holding only the regressing file is fully
scanned with the file recorded as failed, and a gemini batch whose first
source holds a duplicated key halts at that source. -/
theorem per_source_failure_containment_witness :
    (codexIngest emptyStore {} [exFileMono]).2.files_scanned = 1 ∧
    exFileMono.path ∈ (processSessionFile emptyStore {} exFileMono).2.failed_files ∧
    gemIngest gemStoreC6 {} [gemInputA, gemInputB] =
      (gemStoreC6, {}, some .duplicateEvent) := by
  have h := per_source_failure_containment
  have hcodex := h.2.1 emptyStore {} exFileMono [] .monotonicity (by decide) (by decide)
  refine ⟨by simpa using h.1 emptyStore {} [exFileMono], hcodex.2, ?_⟩
  exact h.2.2 gemStoreC6 {} gemInputA [gemInputB] .duplicateEvent (by decide)

open GeminiUsage in
/-- Counterexample to C6 as stated: in a gemini batch of two tracked sources
where the first holds a duplicated (timestamp, model) key, the failure is not
caught at the per-source boundary — ingest aborts with the error and the
second source's healthy event is never stored. -/
theorem gemini_batch_aborts_counterexample :
    gemIngest gemStoreC6 {} [gemInputA, gemInputB] =
      (gemStoreC6, {}, some .duplicateEvent) ∧
    (gemIngest gemStoreC6 {} [gemInputA, gemInputB]).1.usage_events = [] := by
  exact ⟨by decide, by decide⟩

open GeminiUsage OpenCodeUsage in
/-- C3 (amended).  With an existing stored checkpoint, a maximum source key
ordering strictly before it is handled per family: the composite-key (Gemini)
family — for a duplicate-free source, whose per-pass duplicate check runs
first — fails loudly with an append-only violation and commits no events;
the ordered-cursor (OpenCode) family never raises — it returns early flagging
skipped_no_source_changes exactly when the maximum assistant update time
orders strictly before the checkpoint's time, while a key regressing only in
the row-id component at equal update time is not skipped: the pass runs, its
cursor filter excludes every row at or before the checkpoint key, and no
events are committed and no flag is set. -/
theorem append_only_regression_handling :
    (∀ (gstore : GemStore) (gcounters : GemCounters) (gsrc : GemSourceInput)
        (grest : List GemSourceInput) (source_row : GemSourceRow) (c : GemCheckpoint),
      gstore.sources.find? (fun s => decide (s.jsonl_file_path = gsrc.path)) =
        some source_row →
      gemFileStateMatches source_row gsrc.file_state = false →
      source_row.checkpoint = some c →
      List.Pairwise (fun a b => eventKey a ≠ eventKey b) gsrc.events →
      (∀ e ∈ gsrc.events, gemKeyLt (eventKey e) (gemCkptKey c) = true) →
      gemProcessSource gstore gcounters gsrc = .error .appendOnlyViolation ∧
      gemIngest gstore gcounters (gsrc :: grest) =
        (gstore, gcounters, some .appendOnlyViolation)) ∧
    (∀ (batch_size : Nat) (store : OcStore) (source_rows : List SourceMessageRow)
        (c : OcCheckpoint),
      ocGetCheckpoint store = some c →
      (∀ m, getLatestAssistantTimeUpdatedMs source_rows = some m →
        m < c.last_time_updated_ms) →
      ocIngest batch_size store source_rows =
        (store, { skipped_no_source_changes := true }, none)) ∧
    (∀ (batch_size : Nat) (store : OcStore) (source_rows : List SourceMessageRow)
        (c : OcCheckpoint) (m : Int),
      ocGetCheckpoint store = some c →
      getLatestAssistantTimeUpdatedMs source_rows = some m →
      ¬ m < c.last_time_updated_ms →
      (∀ r ∈ source_rows, roleIsAssistant r = true →
        ocKeyLt (c.last_time_updated_ms, c.last_message_id)
          (r.time_updated_ms, r.message_id) = false) →
      ocIngest batch_size store source_rows = (store, {}, none)) := by
  refine ⟨?_, ?_, ?_⟩
  · intro gstore gcounters gsrc grest source_row c hfind hnm hck hdist hlt
    have herr := gemProcessSource_append_only gstore gcounters gsrc source_row c
      hfind hnm hck hdist hlt
    exact ⟨herr, by simp [gemIngest, herr]⟩
  · intro batch_size store source_rows c hc hm
    exact ocIngest_skips_on_regression batch_size store source_rows c hc hm
  · intro batch_size store source_rows c m hc hm hlt hkeys
    have hiter : iterAssistantRows (some c) source_rows = [] := by
      unfold iterAssistantRows
      have h2 : (source_rows.filter roleIsAssistant).filter
          (fun r => ocKeyLt (c.last_time_updated_ms, c.last_message_id)
            (r.time_updated_ms, r.message_id)) = [] := by
        rw [List.filter_eq_nil_iff]
        intro r hr
        have hmem := List.mem_filter.mp hr
        simp [hkeys r hmem.1 hmem.2]
      dsimp only
      rw [h2]
      rfl
    simp [ocIngest, hc, hm, hlt, hiter, ocIngestLoop]

open GeminiUsage OpenCodeUsage in
/-- Witness for C3: the checkpointed gemini source whose only key (5, "m")
regresses behind (10, "m") fails with the append-only violation committing
nothing; the opencode source whose maximum update time 5 regresses behind
checkpoint time 10 is skipped without error; and the opencode source whose
maximum key (10, "a") regresses behind checkpoint key (10, "m1") only in the
id component is neither skipped nor an error — the pass runs and commits
nothing. -/
theorem append_only_regression_handling_witness :
    gemIngest gemStoreC3 {} [gemInputC3] =
      (gemStoreC3, {}, some .appendOnlyViolation) ∧
    ocIngest 1000 ocStoreC3 [ocRowOld] =
      (ocStoreC3, { skipped_no_source_changes := true }, none) ∧
    ocIngest 1000 ocStoreC3 [ocRowBoundary] = (ocStoreC3, {}, none) := by
  have h := append_only_regression_handling
  refine ⟨?_, ?_, ?_⟩
  · exact (h.1 gemStoreC3 {} gemInputC3 [] gemSrcRowCk ⟨10, "m"⟩ (by decide) (by decide)
      (by decide) (by decide) (by decide)).2
  · refine h.2.1 1000 ocStoreC3 [ocRowOld] ⟨10, "m1"⟩ (by decide) ?_
    intro m hm
    have h5 : getLatestAssistantTimeUpdatedMs [ocRowOld] = some 5 := by decide
    rw [h5] at hm
    injection hm with hm5
    have hm' : m = 5 := hm5.symm
    subst hm'
    decide
  · refine h.2.2 1000 ocStoreC3 [ocRowBoundary] ⟨10, "m1"⟩ 10 (by decide) (by decide)
      (by decide) ?_
    intro r hr _
    have hr' : r = ocRowBoundary := by simpa using hr
    subst hr'
    show ocKeyLt (10, "m1") (10, "a") = false
    have hstr : ¬ (("m1" : String) < "a") := by
      rw [String.lt_iff_toList_lt]
      decide
    simp [ocKeyLt, hstr]

open OpenCodeUsage in
/-- Counterexample to C3 as stated: for the ordered-cursor family, a source
maximum (5) ordering strictly before the stored checkpoint time (10) does not
fail with an append-only violation — ingest silently returns with no error,
only flagging skipped_no_source_changes. -/
theorem opencode_regression_silently_skips_counterexample :
    ocGetCheckpoint ocStoreC3 = some ⟨10, "m1"⟩ ∧
    getLatestAssistantTimeUpdatedMs [ocRowOld] = some 5 ∧
    ocIngest 1000 ocStoreC3 [ocRowOld] =
      (ocStoreC3, { skipped_no_source_changes := true }, none) := by
  exact ⟨by decide, by decide, by decide⟩

namespace GeminiUsage

/-- Reconciliation of an already-tracked, project-consistent, active source is
read-only: it issues no repository write and resolves to the found row. -/
lemma gemReconcileSource_tracked (sources : List GemSourceRow)
    (cand : GemCandidateSource) (source_row : GemSourceRow)
    (hfind : gemGetSourceByPath sources cand.path = some source_row)
    (hpid : source_row.project_id = cand.metadata_project_id)
    (hactive : source_row.active = true) :
    gemReconcileSource sources cand = (sources, .ok source_row) := by
  unfold gemReconcileSource
  rw [hfind]
  dsimp only
  rw [if_neg (fun h => h hpid)]
  unfold gemEnsureActive
  rw [hactive]
  simp

/-- A gemini pass failing at the parse step keeps exactly reconciliation's
committed identity writes: the event and bookkeeping writes of the per-pass
transaction never land, but the sources list reconciliation committed stays. -/
lemma gemProcessSourceFull_parse_error (store : GemStore) (counters : GemCounters)
    (cand : GemCandidateSource) (sources1 : List GemSourceRow)
    (source_row : GemSourceRow) (ge : GemIngestError)
    (hrec : gemReconcileSource store.sources cand = (sources1, .ok source_row))
    (hnm : gemFileStateMatches source_row cand.file_state = false)
    (hparse : parse_usage_jsonl source_row.checkpoint cand.events = .error ge) :
    gemProcessSourceFull store counters cand =
      (⟨sources1, store.usage_events⟩,
       { counters with sources_scanned := counters.sources_scanned + 1 }, some ge) := by
  simp [gemProcessSourceFull, hrec, hnm, hparse]

end GeminiUsage

open CodexUsage GeminiUsage OpenCodeUsage in
/-- C5 (amended).  For the cumulative-counter family a source's pass writes
inside one transaction, so a failed pass leaves the store exactly as it was.
For the composite-key family only the event and bookkeeping writes are
transactional: reconciliation's identity writes (new-source registration,
path moves, reactivation) commit immediately outside the transaction, so a
failing pass over an already-tracked, project-consistent, active source
leaves the store exactly as before, while a failing pass whose reconciliation
wrote keeps exactly those identity writes.  For the ordered-cursor family
each batch is flushed in its own transaction, so a pass that fails after a
flush keeps the flushed batches committed: at batch size 1, a parse failure
on the second row leaves the first row's session and usage writes in the
store. -/
theorem transactional_scoping_per_family :
    (∀ (store : CodexStore) (counters : IngestionCounters) (file : SessionFileInput)
        (e : DedupeError),
      fileStateMatches (getFileState store file.path) file.file_state = false →
      dedupe_and_validate_token_rows
        (parseSessionRows (getSessionCheckpoint store file.session_id)
          file.candidate_rows).token_rows = .error e →
      (processSessionFile store counters file).1 = store) ∧
    (∀ (gstore : GemStore) (gcounters : GemCounters) (cand : GemCandidateSource)
        (source_row : GemSourceRow) (ge : GemIngestError),
      gemGetSourceByPath gstore.sources cand.path = some source_row →
      source_row.project_id = cand.metadata_project_id →
      source_row.active = true →
      gemFileStateMatches source_row cand.file_state = false →
      parse_usage_jsonl source_row.checkpoint cand.events = .error ge →
      (gemProcessSourceFull gstore gcounters cand).1 = gstore) ∧
    (∀ (gstore : GemStore) (gcounters : GemCounters) (cand : GemCandidateSource)
        (sources1 : List GemSourceRow) (source_row : GemSourceRow)
        (ge : GemIngestError),
      gemReconcileSource gstore.sources cand = (sources1, .ok source_row) →
      gemFileStateMatches source_row cand.file_state = false →
      parse_usage_jsonl source_row.checkpoint cand.events = .error ge →
      (gemProcessSourceFull gstore gcounters cand).1 = ⟨sources1, gstore.usage_events⟩) ∧
    ocIngest 1 ocEmptyStore [ocRowGood, ocRowBad] =
      (⟨[ocSessionGood], [ocUsageGood]⟩,
       { messages_scanned := 2, messages_ingested := 1,
         sessions_upserted := 1, batches_flushed := 1 },
       some .parseFailed) := by
  refine ⟨?_, ?_, ?_, by decide⟩
  · intro store counters file e hnm herr
    exact (processSessionFile_failed store counters file e hnm herr).1
  · intro gstore gcounters cand source_row ge hfind hpid hactive hnm hparse
    have hrec := gemReconcileSource_tracked gstore.sources cand source_row
      hfind hpid hactive
    rw [gemProcessSourceFull_parse_error gstore gcounters cand gstore.sources
      source_row ge hrec hnm hparse]
  · intro gstore gcounters cand sources1 source_row ge hrec hnm hparse
    rw [gemProcessSourceFull_parse_error gstore gcounters cand sources1
      source_row ge hrec hnm hparse]

open CodexUsage GeminiUsage in
/-- Witness for C5: the failing codex pass leaves the empty store empty; the
failing gemini pass over the already-tracked active source a.jsonl leaves the
batch's store untouched; and the failing gemini pass that first registers
new.jsonl keeps exactly the registered source row and nothing else. -/
theorem transactional_scoping_per_family_witness :
    (processSessionFile emptyStore {} exFileMono).1 = emptyStore ∧
    (gemProcessSourceFull gemStoreC6 {} gemCandTracked).1 = gemStoreC6 ∧
    (gemProcessSourceFull (⟨[], []⟩ : GemStore) {} gemCandNew).1 =
      ⟨[⟨9, "new.jsonl", true, none, none, none⟩], []⟩ := by
  have h := transactional_scoping_per_family
  refine ⟨h.1 emptyStore {} exFileMono .monotonicity (by decide) (by decide), ?_, ?_⟩
  · exact h.2.1 gemStoreC6 {} gemCandTracked gemSrcRowA .duplicateEvent (by decide)
      (by decide) (by decide) (by decide) (by decide)
  · exact h.2.2.1 ⟨[], []⟩ {} gemCandNew [⟨9, "new.jsonl", true, none, none, none⟩]
      ⟨9, "new.jsonl", true, none, none, none⟩ .duplicateEvent (by decide) (by decide)
      (by decide)

open GeminiUsage OpenCodeUsage in
/-- Counterexample to C5 as stated: (composite-key) a gemini pass over an
untracked source registers it via insert_source outside any transaction and
then fails parsing on a duplicated key — the registered source row stays
committed, so the store differs from its pre-pass state though no event was
written; (ordered-cursor) an opencode pass at batch size 1 whose second row
fails to parse keeps the first row's flushed batch committed. -/
theorem partial_commit_counterexample :
    (gemProcessSourceFull (⟨[], []⟩ : GemStore) {} gemCandNew).2.2 =
      some .duplicateEvent ∧
    (gemProcessSourceFull (⟨[], []⟩ : GemStore) {} gemCandNew).1 ≠
      (⟨[], []⟩ : GemStore) ∧
    (gemProcessSourceFull (⟨[], []⟩ : GemStore) {} gemCandNew).1.sources =
      [⟨9, "new.jsonl", true, none, none, none⟩] ∧
    (gemProcessSourceFull (⟨[], []⟩ : GemStore) {} gemCandNew).1.usage_events = [] ∧
    (ocIngest 1 ocEmptyStore [ocRowGood, ocRowBad]).2.2 = some .parseFailed ∧
    (ocIngest 1 ocEmptyStore [ocRowGood, ocRowBad]).1 ≠ ocEmptyStore ∧
    (ocIngest 1 ocEmptyStore [ocRowGood, ocRowBad]).1.message_usage = [ocUsageGood] := by
  exact ⟨by decide, by decide, by decide, by decide, by decide, by decide, by decide⟩

/-! ### Lemmas about checkpoint resolution -/

namespace CodexUsage

/-- The Bool lexicographic test in propositional form. -/
lemma keyLt_iff (a b : Int × Int) :
    keyLt a b = true ↔ (a.1 < b.1 ∨ (a.1 = b.1 ∧ a.2 < b.2)) := by
  simp [keyLt]

/-- keyLe is reflexive. -/
lemma keyLe_refl (a : Int × Int) : keyLe a a :=
  Or.inr ⟨rfl, le_refl _⟩

/-- A strict key comparison gives the reflexive one. -/
lemma keyLe_of_lt {a b : Int × Int} (h : keyLt a b = true) : keyLe a b := by
  rcases (keyLt_iff a b).mp h with h1 | ⟨h1, h2⟩
  · exact Or.inl h1
  · exact Or.inr ⟨h1, le_of_lt h2⟩

/-- keyLe is transitive. -/
lemma keyLe_trans {a b c : Int × Int} (hab : keyLe a b) (hbc : keyLe b c) :
    keyLe a c := by
  rcases hab with h1 | ⟨h1, h2⟩
  · rcases hbc with g1 | ⟨g1, _⟩
    · exact Or.inl (lt_trans h1 g1)
    · exact Or.inl (g1 ▸ h1)
  · rcases hbc with g1 | ⟨g1, g2⟩
    · exact Or.inl (by rw [h1]; exact g1)
    · exact Or.inr ⟨h1.trans g1, le_trans h2 g2⟩

/-- ckptLeOpt is reflexive. -/
lemma ckptLeOpt_refl (x : Option SessionCheckpoint) : ckptLeOpt x x := by
  cases x with
  | none => trivial
  | some c => exact keyLe_refl _

/-- ckptLeOpt is transitive. -/
lemma ckptLeOpt_trans {x y z : Option SessionCheckpoint}
    (hxy : ckptLeOpt x y) (hyz : ckptLeOpt y z) : ckptLeOpt x z := by
  cases x with
  | none => trivial
  | some a =>
    cases y with
    | none => exact absurd hxy (by simp [ckptLeOpt])
    | some b =>
      cases z with
      | none => exact absurd hyz (by simp [ckptLeOpt])
      | some c => exact keyLe_trans hxy hyz

/-- One fold step of the checkpoint query never decreases the accumulator. -/
lemma ckptCombine_le (acc : Option SessionCheckpoint) (r : StoredDetailRow) :
    ckptLeOpt acc (ckptCombine acc r) := by
  cases acc with
  | none => trivial
  | some c =>
    by_cases h : keyLt (ckptKey c) (detailKey r) = true
    · show ckptLeOpt (some c) (ckptCombine (some c) r)
      simp only [ckptCombine, h, if_true]
      exact keyLe_of_lt h
    · have h' : keyLt (ckptKey c) (detailKey r) = false := by simpa using h
      show ckptLeOpt (some c) (ckptCombine (some c) r)
      simp only [ckptCombine, h', if_false]
      exact keyLe_refl _

/-- Folding further rows never decreases the checkpoint accumulator. -/
lemma foldl_ckptCombine_le (l : List StoredDetailRow) :
    ∀ acc : Option SessionCheckpoint, ckptLeOpt acc (l.foldl ckptCombine acc) := by
  induction l with
  | nil => intro acc; exact ckptLeOpt_refl acc
  | cons r rest ih =>
    intro acc
    exact ckptLeOpt_trans (ckptCombine_le acc r) (ih (ckptCombine acc r))

/-- One conflict-ignoring insert either keeps the table or appends one row. -/
lemma insertDetailRow_append (details : List StoredDetailRow) (r : StoredDetailRow) :
    ∃ extra, insertDetailRow details r = details ++ extra := by
  unfold insertDetailRow
  split
  · exact ⟨[], by simp⟩
  · exact ⟨[r], rfl⟩

/-- Inserting a pass's rows only appends to the details table. -/
lemma insertSessionDetails_append (rows : List TokenEventRow) :
    ∀ details : List StoredDetailRow,
      ∃ extra, insertSessionDetails details rows = details ++ extra := by
  induction rows with
  | nil => intro details; exact ⟨[], by simp [insertSessionDetails]⟩
  | cons r rest ih =>
    intro details
    obtain ⟨e1, he1⟩ := insertDetailRow_append details (toDetailRow r)
    obtain ⟨e2, he2⟩ := ih (details ++ e1)
    refine ⟨e1 ++ e2, ?_⟩
    show insertSessionDetails (insertDetailRow details (toDetailRow r)) rest = _
    rw [he1, he2, List.append_assoc]

/-- The per-file step never regresses any session's stored checkpoint. -/
lemma processSessionFile_checkpoint_le (store : CodexStore)
    (counters : IngestionCounters) (file : SessionFileInput) (sid : Nat) :
    ckptLeOpt (getSessionCheckpoint store sid)
      (getSessionCheckpoint (processSessionFile store counters file).1 sid) := by
  by_cases hm : fileStateMatches (getFileState store file.path) file.file_state = true
  · simp only [processSessionFile, hm, if_true]
    exact ckptLeOpt_refl _
  · have hm' : fileStateMatches (getFileState store file.path) file.file_state = false := by
      simpa using hm
    cases hd : dedupe_and_validate_token_rows
        (parseSessionRows (getSessionCheckpoint store file.session_id)
          file.candidate_rows).token_rows with
    | error e =>
      cases e <;>
        first
        | (simp [processSessionFile, hm', hd]; exact ckptLeOpt_refl _)
    | ok res =>
      obtain ⟨extra, hex⟩ := insertSessionDetails_append res.token_rows store.session_details
      simp [processSessionFile, hm', hd]
      unfold getSessionCheckpoint
      dsimp only
      rw [hex, List.filter_append, List.foldl_append]
      exact foldl_ckptCombine_le _ _

/-- A pass observing no token rows keeps the session checkpoint unchanged. -/
lemma processSessionFile_checkpoint_no_events (store : CodexStore)
    (counters : IngestionCounters) (file : SessionFileInput)
    (hrows : (parseSessionRows (getSessionCheckpoint store file.session_id)
      file.candidate_rows).token_rows = []) :
    getSessionCheckpoint (processSessionFile store counters file).1 file.session_id =
      getSessionCheckpoint store file.session_id := by
  by_cases hm : fileStateMatches (getFileState store file.path) file.file_state = true
  · simp [processSessionFile, hm]
  · have hm' : fileStateMatches (getFileState store file.path) file.file_state = false := by
      simpa using hm
    have hd : dedupe_and_validate_token_rows
        (parseSessionRows (getSessionCheckpoint store file.session_id)
          file.candidate_rows).token_rows = .ok ⟨[], 0⟩ := by
      rw [hrows]
      rfl
    simp [processSessionFile, hm', hd, insertSessionDetails]
    unfold getSessionCheckpoint
    dsimp only

end CodexUsage

namespace GeminiUsage

/-- The Bool lexicographic test in propositional form. -/
lemma gemKeyLt_iff (a b : Int × String) :
    gemKeyLt a b = true ↔ (a.1 < b.1 ∨ (a.1 = b.1 ∧ a.2 < b.2)) := by
  simp [gemKeyLt]

/-- gemKeyLe is reflexive. -/
lemma gemKeyLe_refl (a : Int × String) : gemKeyLe a a :=
  Or.inr ⟨rfl, le_refl _⟩

/-- A strict key comparison gives the reflexive one. -/
lemma gemKeyLe_of_lt {a b : Int × String} (h : gemKeyLt a b = true) : gemKeyLe a b := by
  rcases (gemKeyLt_iff a b).mp h with h1 | ⟨h1, h2⟩
  · exact Or.inl h1
  · exact Or.inr ⟨h1, le_of_lt h2⟩

/-- gemCkptLeOpt is reflexive. -/
lemma gemCkptLeOpt_refl (x : Option GemCheckpoint) : gemCkptLeOpt x x := by
  cases x with
  | none => trivial
  | some c => exact gemKeyLe_refl _

/-- The key of a checkpoint built from a key is that key. -/
lemma gemCkptKey_mk (a : Int) (b : String) :
    gemCkptKey ⟨a, b⟩ = (a, b) := rfl

/-- _resolve_checkpoint returns the later of stored checkpoint and parsed
maximum key. -/
lemma gemResolveCheckpoint_eq_max (e : GemCheckpoint) (k : Int × String) :
    gemResolveCheckpoint (some e) (some k) =
      some ⟨(gemKeyMax (gemCkptKey e) k).1, (gemKeyMax (gemCkptKey e) k).2⟩ := by
  by_cases h : gemKeyLt (e.last_event_timestamp, e.last_model_code) k = true
  · simp [gemResolveCheckpoint, gemKeyMax, gemCkptKey, h]
  · have h' : gemKeyLt (e.last_event_timestamp, e.last_model_code) k = false := by
      simpa using h
    simp [gemResolveCheckpoint, gemKeyMax, gemCkptKey, h']

/-- _resolve_checkpoint never regresses the stored checkpoint. -/
lemma gemResolveCheckpoint_le (existing : Option GemCheckpoint)
    (parsedMax : Option (Int × String)) :
    gemCkptLeOpt existing (gemResolveCheckpoint existing parsedMax) := by
  cases parsedMax with
  | none => exact gemCkptLeOpt_refl existing
  | some k =>
    cases existing with
    | none => trivial
    | some e =>
      rw [gemResolveCheckpoint_eq_max e k]
      show gemKeyLe (gemCkptKey e) _
      unfold gemKeyMax gemCkptKey
      split
      · rename_i h
        exact gemKeyLe_of_lt h
      · exact gemKeyLe_refl _

end GeminiUsage

/-! ### Claim C7 -/

open CodexUsage GeminiUsage in
/-- C7 (amended).  Checkpoints never regress: the codex per-file step leaves
every session's stored checkpoint at or after its previous value, and a pass
observing no token rows keeps it unchanged; gemini's _resolve_checkpoint
keeps the stored checkpoint on no events and otherwise stores exactly the
maximum of the stored checkpoint and the maximum observed event key.  (For
the cumulative-counter family the new checkpoint is the maximum key over
stored rows, which can order before the maximum observed key when an observed
row's cumulative total collides with an already-stored row.) -/
theorem checkpoint_never_regresses :
    (∀ (store : CodexStore) (counters : IngestionCounters) (file : SessionFileInput)
        (sid : Nat),
      ckptLeOpt (getSessionCheckpoint store sid)
        (getSessionCheckpoint (processSessionFile store counters file).1 sid)) ∧
    (∀ (store : CodexStore) (counters : IngestionCounters) (file : SessionFileInput),
      (parseSessionRows (getSessionCheckpoint store file.session_id)
        file.candidate_rows).token_rows = [] →
      getSessionCheckpoint (processSessionFile store counters file).1 file.session_id =
        getSessionCheckpoint store file.session_id) ∧
    (∀ existing : Option GemCheckpoint, gemResolveCheckpoint existing none = existing) ∧
    (∀ k : Int × String, gemResolveCheckpoint none (some k) = some ⟨k.1, k.2⟩) ∧
    (∀ (e : GemCheckpoint) (k : Int × String),
      gemResolveCheckpoint (some e) (some k) =
        some ⟨(gemKeyMax (gemCkptKey e) k).1, (gemKeyMax (gemCkptKey e) k).2⟩) ∧
    (∀ (existing : Option GemCheckpoint) (parsedMax : Option (Int × String)),
      gemCkptLeOpt existing (gemResolveCheckpoint existing parsedMax)) := by
  refine ⟨processSessionFile_checkpoint_le, processSessionFile_checkpoint_no_events,
    fun existing => rfl, fun k => rfl, gemResolveCheckpoint_eq_max,
    gemResolveCheckpoint_le⟩

open CodexUsage GeminiUsage in
/-- Witness for C7: the codex pass over the colliding-total file keeps the
checkpoint at or after (5, 10); a pass with no rows leaves it unchanged; and
resolving the gemini checkpoint (10, "m") against observed maximum (12, "m")
never regresses. -/
theorem checkpoint_never_regresses_witness :
    ckptLeOpt (getSessionCheckpoint exStoreC7 1)
      (getSessionCheckpoint (processSessionFile exStoreC7 {} exFileC7).1 1) ∧
    getSessionCheckpoint (processSessionFile exStoreC7 {} exFileNoRows).1 1 =
      getSessionCheckpoint exStoreC7 1 ∧
    gemCkptLeOpt (some ⟨10, "m"⟩)
      (gemResolveCheckpoint (some ⟨10, "m"⟩) (some (12, "m"))) := by
  have h := checkpoint_never_regresses
  exact ⟨h.1 exStoreC7 {} exFileC7 1, h.2.1 exStoreC7 {} exFileNoRows (by decide),
    h.2.2.2.2.2 (some ⟨10, "m"⟩) (some (12, "m"))⟩

open CodexUsage in
/-- Counterexample to C7 as stated: a successful codex pass observing the key
(9, 10) over a store already holding (5, 10) for the same cumulative total
stores checkpoint (5, 10), not the maximum (9, 10) of previous checkpoint and
maximum observed event key. -/
theorem checkpoint_observed_max_counterexample :
    (processSessionFile exStoreC7 {} exFileC7).2.files_ingested = 1 ∧
    getSessionCheckpoint exStoreC7 1 = some ⟨5, 10⟩ ∧
    observedMaxKey (parseSessionRows (getSessionCheckpoint exStoreC7 1)
      exFileC7.candidate_rows).token_rows = some (9, 10) ∧
    getSessionCheckpoint (processSessionFile exStoreC7 {} exFileC7).1 1 = some ⟨5, 10⟩ ∧
    keyMax (ckptKey ⟨5, 10⟩) (9, 10) ≠ ckptKey ⟨5, 10⟩ := by
  exact ⟨by decide, by decide, by decide, by decide, by decide⟩

/-! ### Lemmas about numeric field typing and claim C10 -/

namespace PyJson

/-- With every listed field present, a present field failing the isinstance
int check makes the codex field loop raise ParseError. -/
lemma codexExtractFieldLoop_error (snapshotFields : List (String × JsonValue)) :
    ∀ fs : List String,
      (∀ f ∈ fs, ∃ v, jsonGet snapshotFields f = some v) →
      (∃ f ∈ fs, ∃ v, jsonGet snapshotFields f = some v ∧ pyIsInstanceInt v = false) →
      codexExtractFieldLoop snapshotFields fs = .error .parseFailure := by
  intro fs
  induction fs with
  | nil =>
    intro _ hbad
    obtain ⟨f, hf, _⟩ := hbad
    exact absurd hf (List.not_mem_nil f)
  | cons f rest ih =>
    intro hall hbad
    obtain ⟨v, hv⟩ := hall f (List.mem_cons_self _ _)
    by_cases hint : pyIsInstanceInt v = true
    · have hbad' : ∃ g ∈ rest, ∃ w, jsonGet snapshotFields g = some w ∧
          pyIsInstanceInt w = false := by
        obtain ⟨g, hg, w, hw, hwf⟩ := hbad
        rcases List.mem_cons.mp hg with hg | hg
        · subst hg
          rw [hv] at hw
          injection hw with hw
          rw [hw] at hint
          rw [hint] at hwf
          exact absurd hwf (by simp)
        · exact ⟨g, hg, w, hw, hwf⟩
      have hrec := ih (fun g hg => hall g (List.mem_cons_of_mem _ hg)) hbad'
      simp [codexExtractFieldLoop, hv, hint, hrec]
    · have hint' : pyIsInstanceInt v = false := by simpa using hint
      simp [codexExtractFieldLoop, hv, hint']

end PyJson

open PyJson in
/-- C10 (amended).  In the Gemini and OpenCode parsers a required numeric
field that is present but not an integer — booleans included — raises a hard
ParseError, never a coercion.  In the Codex parser a present field that is
neither an int nor a bool raises a hard ParseError, but a boolean passes the
`isinstance(value, int)` check (bool subclasses int in Python) and is used as
the integer 1 or 0 instead of being rejected. -/
theorem wrong_typed_numeric_fields_rejected :
    (∀ v : Option JsonValue, (∀ n : Int, v ≠ some (.jint n)) →
      geminiParseRequiredInt v = .error .parseFailure) ∧
    (∀ (payload : List (String × JsonValue)) (field : String),
      (∀ n : Int, jsonGet payload field ≠ some (.jint n)) →
      opencodeRequireInt payload field = .error .parseFailure) ∧
    (∀ (info : List (String × JsonValue)) (key : String)
        (snapshotFields : List (String × JsonValue)),
      jsonGet info key = some (.jobj snapshotFields) →
      (∀ f ∈ codexUsageFieldNames, ∃ v, jsonGet snapshotFields f = some v) →
      (∃ f ∈ codexUsageFieldNames, ∃ v, jsonGet snapshotFields f = some v ∧
        pyIsInstanceInt v = false) →
      codexExtractUsageSnapshot info key = .error .parseFailure) ∧
    (∀ b : Bool, pyIsInstanceInt (.jbool b) = true) ∧
    pyIntValue (.jbool true) = 1 ∧ pyIntValue (.jbool false) = 0 := by
  refine ⟨?_, ?_, ?_, fun b => rfl, rfl, rfl⟩
  · intro v hv
    match v with
    | none => rfl
    | some .jnull => rfl
    | some (.jbool b) => rfl
    | some (.jint n) => exact absurd rfl (hv n)
    | some .jfloat => rfl
    | some (.jstr s) => rfl
    | some (.jarr items) => rfl
    | some (.jobj fields) => rfl
  · intro payload field hv
    unfold opencodeRequireInt
    match hget : jsonGet payload field with
    | none => rfl
    | some .jnull => rfl
    | some (.jbool b) => rfl
    | some (.jint n) => exact absurd hget (hv n)
    | some .jfloat => rfl
    | some (.jstr s) => rfl
    | some (.jarr items) => rfl
    | some (.jobj fields) => rfl
  · intro info key snapshotFields hkey hall hbad
    have hloop := codexExtractFieldLoop_error snapshotFields codexUsageFieldNames hall hbad
    simp [codexExtractUsageSnapshot, hkey, hloop]

open PyJson in
/-- Witness for C10: a boolean and a missing value are rejected by the gemini
helper, a string-typed field is rejected by the opencode helper, and the codex
snapshot whose input_tokens is a string raises ParseError. -/
theorem wrong_typed_numeric_fields_rejected_witness :
    geminiParseRequiredInt (some (.jbool true)) = .error .parseFailure ∧
    geminiParseRequiredInt none = .error .parseFailure ∧
    opencodeRequireInt [("input", .jstr "x")] "input" = .error .parseFailure ∧
    codexExtractUsageSnapshot exStrSnapshotInfo "total_token_usage" =
      .error .parseFailure := by
  have h := wrong_typed_numeric_fields_rejected
  refine ⟨h.1 (some (.jbool true)) (fun n hn => JsonValue.noConfusion (Option.some.inj hn)),
    h.1 none (fun n hn => Option.noConfusion hn),
    h.2.1 [("input", .jstr "x")] "input"
      (fun n hn => JsonValue.noConfusion (Option.some.inj hn)),
    h.2.2.1 exStrSnapshotInfo "total_token_usage" exStrSnapshotFields rfl ?_ ?_⟩
  · intro f hf
    simp only [codexUsageFieldNames, List.mem_cons, List.not_mem_nil, or_false] at hf
    rcases hf with rfl | rfl | rfl | rfl | rfl
    · exact ⟨_, rfl⟩
    · exact ⟨_, rfl⟩
    · exact ⟨_, rfl⟩
    · exact ⟨_, rfl⟩
    · exact ⟨_, rfl⟩
  · exact ⟨"input_tokens", by simp [codexUsageFieldNames], .jstr "x", rfl, rfl⟩

open PyJson in
/-- Counterexample to C10 as stated: the codex parser accepts a boolean
input_tokens value — `isinstance(True, int)` holds in Python — and returns a
snapshot using it as the integer 1 instead of raising a parse error. -/
theorem codex_accepts_boolean_counterexample :
    codexExtractUsageSnapshot exBoolSnapshotInfo "total_token_usage" =
      .ok (some ⟨1, 0, 0, 0, 1⟩) := by
  decide

/-! ### Lemmas for resumability (claim C8) -/

namespace CodexUsage

/-- Strictly increasing cumulative totals are pairwise distinct. -/
lemma distinctCums_of_chain (rows : List TokenEventRow)
    (h : List.Chain' cumLt rows) : DistinctCums rows := by
  haveI : IsTrans TokenEventRow cumLt := ⟨fun a b c hab hbc => lt_trans hab hbc⟩
  have hp := List.chain'_iff_pairwise.mp h
  exact hp.imp (fun hab => ne_of_lt hab)

/-- A strictly increasing, delta-consistent row list passes the whole
dedupe/validate stage unchanged with no duplicates skipped. -/
lemma dedupe_ok_of_valid (rows : List TokenEventRow)
    (hcum : List.Chain' cumLt rows)
    (hdelta : List.Chain' (fun a b => rowDeltaMatches a b) rows) :
    dedupe_and_validate_token_rows rows = .ok ⟨rows, 0⟩ := by
  have hdist := distinctCums_of_chain rows hcum
  have hscan := dedupeScan_ok_of_distinct rows [] 0 hdist (by simp)
  have huniq := validateUniquenessGo_ok rows [] hdist (by simp)
  have hmono := (validateMono_ok_iff rows).mpr (list_chain'_and hcum hdelta)
  unfold dedupe_and_validate_token_rows
  simp [hscan, validateUniqueness, huniq, hmono]

/-- A row at or before the checkpoint position fails the tail-window test. -/
lemma passesCheckpoint_false_of_before {ts cum ts0 cum0 : Int}
    (hts : ts ≤ ts0) (hcum : cum < cum0) :
    passesCheckpoint ts cum ⟨ts0, cum0⟩ = false := by
  unfold passesCheckpoint
  rw [if_neg (not_lt.mpr hts)]
  by_cases heq : ts = ts0
  · simp [heq, not_le.mpr hcum]
  · simp [heq]

/-- The checkpoint row itself passes the tail-window test. -/
lemma passesCheckpoint_self (ts cum : Int) :
    passesCheckpoint ts cum ⟨ts, cum⟩ = true := by
  unfold passesCheckpoint
  rw [if_neg (lt_irrefl ts)]
  simp

/-- A row strictly after the checkpoint position passes the tail-window test. -/
lemma passesCheckpoint_true_of_after {ts cum ts0 cum0 : Int}
    (hts : ts0 ≤ ts) (hcum : cum0 < cum) :
    passesCheckpoint ts cum ⟨ts0, cum0⟩ = true := by
  unfold passesCheckpoint
  by_cases hgt : ts > ts0
  · rw [if_pos hgt]
  · rw [if_neg hgt]
    have heq : ts = ts0 := le_antisymm (not_lt.mp hgt) hts
    simp [heq, le_of_lt hcum]

/-- Inserting a row whose key is already stored is a no-op. -/
lemma insertDetailRow_existing (details : List StoredDetailRow) (r : StoredDetailRow)
    (h : ∃ e ∈ details, e.session_id = r.session_id ∧
      e.total_tokens_cumulative = r.total_tokens_cumulative) :
    insertDetailRow details r = details := by
  have hany : details.any (fun e =>
      decide (e.session_id = r.session_id ∧
              e.total_tokens_cumulative = r.total_tokens_cumulative)) = true := by
    obtain ⟨e, he, h1, h2⟩ := h
    exact List.any_eq_true.mpr ⟨e, he, by simp [h1, h2]⟩
  unfold insertDetailRow
  simp only [hany]
  simp

/-- Inserting rows with fresh, pairwise-distinct keys appends them in order. -/
lemma insertSessionDetails_all_new (rows : List TokenEventRow) :
    ∀ details : List StoredDetailRow,
      DistinctCums rows →
      (∀ r ∈ rows, ∀ e ∈ details,
        ¬(e.session_id = r.session_id ∧
          e.total_tokens_cumulative = r.total_tokens_cumulative)) →
      insertSessionDetails details rows = details ++ rows.map toDetailRow := by
  induction rows with
  | nil => intro details _ _; simp [insertSessionDetails]
  | cons r rest ih =>
    intro details hdist habs
    have hany : details.any (fun e =>
        decide (e.session_id = (toDetailRow r).session_id ∧
                e.total_tokens_cumulative = (toDetailRow r).total_tokens_cumulative)) =
          false := by
      rw [List.any_eq_false]
      intro e he
      simpa [toDetailRow, not_and] using habs r (List.mem_cons_self _ _) e he
    have hstep : insertDetailRow details (toDetailRow r) = details ++ [toDetailRow r] := by
      unfold insertDetailRow
      simp only [hany]
      simp
    have habs' : ∀ r' ∈ rest, ∀ e ∈ details ++ [toDetailRow r],
        ¬(e.session_id = r'.session_id ∧
          e.total_tokens_cumulative = r'.total_tokens_cumulative) := by
      intro r' hr' e he hcontra
      rcases List.mem_append.mp he with he | he
      · exact habs r' (List.mem_cons_of_mem _ hr') e he hcontra
      · have hee : e = toDetailRow r := by simpa using he
        subst hee
        exact (List.pairwise_cons.mp hdist).1 r' hr' hcontra.2
    have hrec := ih (details ++ [toDetailRow r]) (List.pairwise_cons.mp hdist).2 habs'
    show insertSessionDetails (insertDetailRow details (toDetailRow r)) rest = _
    rw [hstep, hrec, List.append_assoc]
    rfl

/-- Upserting metadata over its single existing row replaces it. -/
lemma upsertSessionMetadata_single (mOld mNew : SessionMetadataRow)
    (h : mOld.session_id = mNew.session_id) :
    upsertSessionMetadata [mOld] mNew = [mNew] := by
  simp [upsertSessionMetadata, h]

/-- Upserting a file state over its single existing row replaces it. -/
lemma upsertFileState_single (fOld fNew : IngestionFileState)
    (h : fOld.session_file_path = fNew.session_file_path) :
    upsertFileState [fOld] fNew = [fNew] := by
  simp [upsertFileState, h]

/-- A lexicographic key grows when the timestamp is non-decreasing and the
cumulative total strictly increases. -/
lemma keyLt_of_le_lt {a1 b1 a2 b2 : Int} (h1 : a1 ≤ b1) (h2 : a2 < b2) :
    keyLt (a1, a2) (b1, b2) = true := by
  rcases lt_or_eq_of_le h1 with h1 | h1
  · exact (keyLt_iff _ _).mpr (Or.inl h1)
  · exact (keyLt_iff _ _).mpr (Or.inr ⟨h1, h2⟩)

/-- Folding the checkpoint query along key-increasing rows lands on the last
row's key. -/
lemma foldl_ckptCombine_some (l : List StoredDetailRow) :
    ∀ c : SessionCheckpoint,
      List.Chain (fun a b => keyLt a b = true) (ckptKey c) (l.map detailKey) →
      l.foldl ckptCombine (some c) = some (lastCkpt c l) := by
  induction l with
  | nil => intro c _; rfl
  | cons r rest ih =>
    intro c hchain
    rw [List.map_cons, List.chain_cons] at hchain
    have hcomb : ckptCombine (some c) r =
        some ⟨r.event_timestamp, r.total_tokens_cumulative⟩ := by
      simp [ckptCombine, hchain.1]
    show List.foldl ckptCombine (ckptCombine (some c) r) rest = _
    rw [hcomb]
    exact ih ⟨r.event_timestamp, r.total_tokens_cumulative⟩ hchain.2

/-- The end of the checkpoint walk over mapped rows anchored at a row. -/
lemma lastCkpt_map_anchor (rest : List TokenEventRow) :
    ∀ r : TokenEventRow,
      lastCkpt ⟨r.event_timestamp, r.total_tokens_cumulative⟩ (rest.map toDetailRow) =
        ⟨((r :: rest).getLast (List.cons_ne_nil r rest)).event_timestamp,
         ((r :: rest).getLast (List.cons_ne_nil r rest)).total_tokens_cumulative⟩ := by
  induction rest with
  | nil => intro r; rfl
  | cons q rest' ih =>
    intro r
    show lastCkpt ⟨q.event_timestamp, q.total_tokens_cumulative⟩
      (rest'.map toDetailRow) = _
    rw [ih q]
    simp [List.getLast_cons]

/-- The session checkpoint read off a store holding exactly the mapped rows
of one session, with non-decreasing timestamps and strictly increasing
totals, is the key of the last row. -/
lemma getCkpt_mapped (rows : List TokenEventRow) (hne : rows ≠ []) (sid : Nat)
    (hsid : ∀ r ∈ rows, r.session_id = sid)
    (hkey : List.Chain' (fun a b =>
      keyLt (a.event_timestamp, a.total_tokens_cumulative)
        (b.event_timestamp, b.total_tokens_cumulative) = true) rows)
    (meta : List SessionMetadataRow) (files : List IngestionFileState) :
    getSessionCheckpoint ⟨meta, rows.map toDetailRow, files⟩ sid =
      some ⟨(rows.getLast hne).event_timestamp,
            (rows.getLast hne).total_tokens_cumulative⟩ := by
  unfold getSessionCheckpoint
  dsimp only
  have hfilter : (rows.map toDetailRow).filter
      (fun r => decide (r.session_id = sid)) = rows.map toDetailRow := by
    apply List.filter_eq_self.mpr
    intro d hd
    rcases List.mem_map.mp hd with ⟨r, hr, hrd⟩
    subst hrd
    simp [toDetailRow, hsid r hr]
  rw [hfilter]
  cases rows with
  | nil => exact absurd rfl hne
  | cons r rest =>
    rw [List.map_cons]
    show List.foldl ckptCombine (ckptCombine none (toDetailRow r)) (rest.map toDetailRow) = _
    have hcomb : ckptCombine none (toDetailRow r) =
        some ⟨r.event_timestamp, r.total_tokens_cumulative⟩ := rfl
    rw [hcomb]
    have hchain : List.Chain (fun a b => keyLt a b = true)
        (ckptKey ⟨r.event_timestamp, r.total_tokens_cumulative⟩)
        ((rest.map toDetailRow).map detailKey) := by
      rw [List.map_map]
      have hanchor : List.Chain (fun a b : TokenEventRow =>
          keyLt (a.event_timestamp, a.total_tokens_cumulative)
            (b.event_timestamp, b.total_tokens_cumulative) = true) r rest := hkey
      exact (List.chain_map (detailKey ∘ toDetailRow)).mpr hanchor
    rw [foldl_ckptCombine_some (rest.map toDetailRow)
      ⟨r.event_timestamp, r.total_tokens_cumulative⟩ hchain]
    rw [lastCkpt_map_anchor rest r]

/-- Non-decreasing timestamps and strictly increasing totals give
key-increasing rows. -/
lemma chain_rowKey (rows : List TokenEventRow)
    (hts : List.Chain' (fun a b => a.event_timestamp ≤ b.event_timestamp) rows)
    (hcum : List.Chain' cumLt rows) :
    List.Chain' (fun a b =>
      keyLt (a.event_timestamp, a.total_tokens_cumulative)
        (b.event_timestamp, b.total_tokens_cumulative) = true) rows :=
  (list_chain'_and hts hcum).imp (fun _ _ hab => keyLt_of_le_lt hab.1 hab.2)

/-- The fresh-store run over a well-formed file stores its candidate rows
verbatim: metadata, all detail rows in order, and the file's snapshot. -/
lemma processSessionFile_fresh (rows : List TokenEventRow) (sid : Nat)
    (st : Option Int) (cwd : Option String) (fs : IngestionFileState)
    (c : IngestionCounters)
    (hcum : List.Chain' cumLt rows)
    (hdelta : List.Chain' (fun a b => rowDeltaMatches a b) rows) :
    (processSessionFile emptyStore c ⟨fs, sid, st, cwd, rows⟩).1 =
      ⟨[⟨sid, st, cwd, fs.session_file_path⟩], rows.map toDetailRow, [fs]⟩ := by
  have hnm : fileStateMatches (getFileState emptyStore fs.session_file_path) fs =
      false := rfl
  have hckpt : getSessionCheckpoint emptyStore sid = none := rfl
  have hrows : (parseSessionRows (getSessionCheckpoint emptyStore sid) rows).token_rows =
      rows := by
    rw [hckpt, parseSessionRows_eq]
    exact List.filter_eq_self.mpr (fun a _ => rfl)
  have hd : dedupe_and_validate_token_rows
      (parseSessionRows (getSessionCheckpoint emptyStore sid) rows).token_rows =
      .ok ⟨rows, 0⟩ := by
    rw [hrows]
    exact dedupe_ok_of_valid rows hcum hdelta
  have hins : insertSessionDetails emptyStore.session_details rows =
      rows.map toDetailRow := by
    have := insertSessionDetails_all_new rows emptyStore.session_details
      (distinctCums_of_chain rows hcum) (by intro r _ e he; simp [emptyStore] at he)
    simpa [emptyStore] using this
  have hmeta : upsertSessionMetadata emptyStore.session_metadata
      ⟨sid, st, cwd, fs.session_file_path⟩ = [⟨sid, st, cwd, fs.session_file_path⟩] := rfl
  have hfiles : upsertFileState emptyStore.ingestion_files fs = [fs] := rfl
  simp [processSessionFile, hnm, hd, SessionFileInput.path, hins, hmeta, hfiles]

end CodexUsage

namespace CodexUsage

/-- The checkpoint filter of the second read keeps exactly the checkpoint row
and the appended tail. -/
lemma parse_tail_filter (front : List TokenEventRow) (lastRow : TokenEventRow)
    (sfx : List TokenEventRow)
    (hf1 : ∀ r ∈ front, r.event_timestamp ≤ lastRow.event_timestamp ∧
      r.total_tokens_cumulative < lastRow.total_tokens_cumulative)
    (hf2 : ∀ r ∈ sfx, lastRow.event_timestamp ≤ r.event_timestamp ∧
      lastRow.total_tokens_cumulative < r.total_tokens_cumulative) :
    (front ++ lastRow :: sfx).filter
      (rowKept (some ⟨lastRow.event_timestamp, lastRow.total_tokens_cumulative⟩)) =
      lastRow :: sfx := by
  rw [List.filter_append]
  have h1 : front.filter
      (rowKept (some ⟨lastRow.event_timestamp, lastRow.total_tokens_cumulative⟩)) = [] := by
    rw [List.filter_eq_nil_iff]
    intro r hr
    simp [rowKept, passesCheckpoint_false_of_before (hf1 r hr).1 (hf1 r hr).2]
  have hhead : rowKept
      (some ⟨lastRow.event_timestamp, lastRow.total_tokens_cumulative⟩) lastRow = true := by
    simp [rowKept, passesCheckpoint_self]
  have h2 : sfx.filter
      (rowKept (some ⟨lastRow.event_timestamp, lastRow.total_tokens_cumulative⟩)) = sfx := by
    rw [List.filter_eq_self]
    intro r hr
    simp [rowKept, passesCheckpoint_true_of_after (hf2 r hr).1 (hf2 r hr).2]
  rw [h1, List.filter_cons, if_pos hhead, h2]
  rfl

end CodexUsage

open CodexUsage in
/-- C8 (codex half, used by the claim theorem): after ingesting the prefix
into an empty store, re-reading the grown file parses exactly the checkpoint
row plus the appended tail, and the second incremental run produces the same
store as one full run, holding one detail row per source row. -/
theorem codex_resumability_statement (pfx sfx : List TokenEventRow) (sid : Nat)
    (st : Option Int) (cwd : Option String) (fs1 fs2 : IngestionFileState)
    (c1 c3 : IngestionCounters)
    (hts : List.Chain' (fun a b => a.event_timestamp ≤ b.event_timestamp) (pfx ++ sfx))
    (hcum : List.Chain' cumLt (pfx ++ sfx))
    (hdelta : List.Chain' (fun a b => rowDeltaMatches a b) (pfx ++ sfx))
    (hsid : ∀ r ∈ pfx ++ sfx, r.session_id = sid)
    (hne : pfx ≠ [])
    (hpath : fs1.session_file_path = fs2.session_file_path)
    (hsize : fs1.file_size_bytes ≠ fs2.file_size_bytes) :
    (parseSessionRows
        (getSessionCheckpoint
          (processSessionFile emptyStore c1 ⟨fs1, sid, st, cwd, pfx⟩).1 sid)
        (pfx ++ sfx)).token_rows = pfx.getLast hne :: sfx ∧
    (processSessionFile
        (processSessionFile emptyStore c1 ⟨fs1, sid, st, cwd, pfx⟩).1
        (processSessionFile emptyStore c1 ⟨fs1, sid, st, cwd, pfx⟩).2
        ⟨fs2, sid, st, cwd, pfx ++ sfx⟩).1 =
      (processSessionFile emptyStore c3 ⟨fs2, sid, st, cwd, pfx ++ sfx⟩).1 ∧
    (processSessionFile
        (processSessionFile emptyStore c1 ⟨fs1, sid, st, cwd, pfx⟩).1
        (processSessionFile emptyStore c1 ⟨fs1, sid, st, cwd, pfx⟩).2
        ⟨fs2, sid, st, cwd, pfx ++ sfx⟩).1.session_details.length =
      (pfx ++ sfx).length := by
  -- prefix-only chains
  have hts_p : List.Chain' (fun a b => a.event_timestamp ≤ b.event_timestamp) pfx :=
    (List.chain'_append.mp hts).1
  have hcum_p : List.Chain' cumLt pfx := (List.chain'_append.mp hcum).1
  have hdelta_p : List.Chain' (fun a b => rowDeltaMatches a b) pfx :=
    (List.chain'_append.mp hdelta).1
  -- the first run
  have hrun1 := processSessionFile_fresh pfx sid st cwd fs1 c1 hcum_p hdelta_p
  set lastRow := pfx.getLast hne with hlastRow
  -- checkpoint after the first run
  have hckpt1 : getSessionCheckpoint
      (processSessionFile emptyStore c1 ⟨fs1, sid, st, cwd, pfx⟩).1 sid =
      some ⟨lastRow.event_timestamp, lastRow.total_tokens_cumulative⟩ := by
    rw [hrun1]
    exact getCkpt_mapped pfx hne sid (fun r hr => hsid r (List.mem_append_left _ hr))
      (chain_rowKey pfx hts_p hcum_p) _ _
  -- pairwise orderings over the whole file
  haveI : IsTrans TokenEventRow (fun a b => a.event_timestamp ≤ b.event_timestamp) :=
    ⟨fun a b c hab hbc => le_trans hab hbc⟩
  haveI : IsTrans TokenEventRow cumLt := ⟨fun a b c hab hbc => lt_trans hab hbc⟩
  have hPts : List.Pairwise (fun a b => a.event_timestamp ≤ b.event_timestamp)
      (pfx ++ sfx) := List.chain'_iff_pairwise.mp hts
  have hPcum : List.Pairwise cumLt (pfx ++ sfx) := List.chain'_iff_pairwise.mp hcum
  -- decompose the prefix around its last row
  have hdecomp : pfx.dropLast ++ [lastRow] = pfx := List.dropLast_append_getLast hne
  have hf1 : ∀ r ∈ pfx.dropLast, r.event_timestamp ≤ lastRow.event_timestamp ∧
      r.total_tokens_cumulative < lastRow.total_tokens_cumulative := by
    intro r hr
    have hts_pfx : List.Pairwise (fun a b => a.event_timestamp ≤ b.event_timestamp) pfx :=
      (List.pairwise_append.mp hPts).1
    have hcum_pfx : List.Pairwise cumLt pfx := (List.pairwise_append.mp hPcum).1
    rw [← hdecomp] at hts_pfx hcum_pfx
    exact ⟨(List.pairwise_append.mp hts_pfx).2.2 r hr lastRow (by simp),
      (List.pairwise_append.mp hcum_pfx).2.2 r hr lastRow (by simp)⟩
  have hf2 : ∀ r ∈ sfx, lastRow.event_timestamp ≤ r.event_timestamp ∧
      lastRow.total_tokens_cumulative < r.total_tokens_cumulative := by
    intro r hr
    have hmem : lastRow ∈ pfx := List.getLast_mem hne
    exact ⟨(List.pairwise_append.mp hPts).2.2 lastRow hmem r hr,
      (List.pairwise_append.mp hPcum).2.2 lastRow hmem r hr⟩
  -- the whole file decomposes into the front, the checkpoint row and the tail
  have hwhole : pfx ++ sfx = pfx.dropLast ++ (lastRow :: sfx) := by
    calc pfx ++ sfx = (pfx.dropLast ++ [lastRow]) ++ sfx := by rw [hdecomp]
      _ = pfx.dropLast ++ (lastRow :: sfx) := by
          rw [List.append_assoc, List.singleton_append]
  -- the second read parses the checkpoint row plus the tail
  have hparse2 : (parseSessionRows
      (some ⟨lastRow.event_timestamp, lastRow.total_tokens_cumulative⟩)
      (pfx ++ sfx)).token_rows = lastRow :: sfx := by
    rw [parseSessionRows_eq]
    show (pfx ++ sfx).filter _ = _
    rw [hwhole]
    exact parse_tail_filter pfx.dropLast lastRow sfx hf1 hf2
  refine ⟨by rw [hckpt1]; exact hparse2, ?_, ?_⟩
  -- chains over the parsed tail of the second run
  all_goals {
    have hcum_t : List.Chain' cumLt (lastRow :: sfx) := by
      have := hcum
      rw [hwhole] at this
      exact (List.chain'_append.mp this).2.1
    have hdelta_t : List.Chain' (fun a b => rowDeltaMatches a b) (lastRow :: sfx) := by
      have := hdelta
      rw [hwhole] at this
      exact (List.chain'_append.mp this).2.1
    have hd2 : dedupe_and_validate_token_rows
        (parseSessionRows
          (getSessionCheckpoint
            (processSessionFile emptyStore c1 ⟨fs1, sid, st, cwd, pfx⟩).1 sid)
          (pfx ++ sfx)).token_rows = .ok ⟨lastRow :: sfx, 0⟩ := by
      rw [hckpt1, hparse2]
      exact dedupe_ok_of_valid _ hcum_t hdelta_t
    -- the second run's store computation
    have hgf : getFileState
        (processSessionFile emptyStore c1 ⟨fs1, sid, st, cwd, pfx⟩).1
        fs2.session_file_path = some fs1 := by
      rw [hrun1]
      simp [getFileState, List.find?, hpath]
    have hnm2 : fileStateMatches
        (getFileState (processSessionFile emptyStore c1 ⟨fs1, sid, st, cwd, pfx⟩).1
          fs2.session_file_path) fs2 = false := by
      rw [hgf]
      simp [fileStateMatches, hsize]
    have hins2 : insertSessionDetails (pfx.map toDetailRow) (lastRow :: sfx) =
        (pfx ++ sfx).map toDetailRow := by
      have hex : insertDetailRow (pfx.map toDetailRow) (toDetailRow lastRow) =
          pfx.map toDetailRow := by
        apply insertDetailRow_existing
        exact ⟨toDetailRow lastRow, List.mem_map.mpr ⟨lastRow, List.getLast_mem hne, rfl⟩,
          rfl, rfl⟩
      have hnew : insertSessionDetails (pfx.map toDetailRow) sfx =
          pfx.map toDetailRow ++ sfx.map toDetailRow := by
        apply insertSessionDetails_all_new
        · have : List.Pairwise cumLt sfx := (List.pairwise_append.mp hPcum).2.1
          exact this.imp (fun hab => ne_of_lt hab)
        · intro r hr e he hcontra
          rcases List.mem_map.mp he with ⟨p, hp, hpe⟩
          subst hpe
          have hplt : p.total_tokens_cumulative < r.total_tokens_cumulative :=
            (List.pairwise_append.mp hPcum).2.2 p hp r hr
          exact absurd hcontra.2 (ne_of_lt hplt)
      show insertSessionDetails (insertDetailRow (pfx.map toDetailRow) (toDetailRow lastRow)) sfx = _
      rw [hex, hnew, ← List.map_append]
    have hrun2 : (processSessionFile
        (processSessionFile emptyStore c1 ⟨fs1, sid, st, cwd, pfx⟩).1
        (processSessionFile emptyStore c1 ⟨fs1, sid, st, cwd, pfx⟩).2
        ⟨fs2, sid, st, cwd, pfx ++ sfx⟩).1 =
        ⟨[⟨sid, st, cwd, fs2.session_file_path⟩], (pfx ++ sfx).map toDetailRow, [fs2]⟩ := by
      have hd2' := hd2
      rw [hrun1] at hd2'
      generalize (processSessionFile emptyStore c1 ⟨fs1, sid, st, cwd, pfx⟩).2 = c2
      rw [hrun1]
      have hnm2' : fileStateMatches
          (getFileState
            (⟨[⟨sid, st, cwd, fs1.session_file_path⟩], pfx.map toDetailRow, [fs1]⟩ : CodexStore)
            fs2.session_file_path) fs2 = false := by
        have hfind : getFileState
            (⟨[⟨sid, st, cwd, fs1.session_file_path⟩], pfx.map toDetailRow, [fs1]⟩ : CodexStore)
            fs2.session_file_path = some fs1 := by
          simp [getFileState, List.find?, hpath]
        rw [hfind]
        simp [fileStateMatches, hsize]
      have hmeta2 : upsertSessionMetadata
          [(⟨sid, st, cwd, fs1.session_file_path⟩ : SessionMetadataRow)]
          ⟨sid, st, cwd, fs2.session_file_path⟩ =
          [⟨sid, st, cwd, fs2.session_file_path⟩] :=
        upsertSessionMetadata_single _ _ rfl
      have hfiles2 : upsertFileState [fs1] fs2 = [fs2] :=
        upsertFileState_single _ _ hpath
      simp [processSessionFile, hnm2', hd2', SessionFileInput.path, hmeta2, hfiles2, hins2]
    have hfull : (processSessionFile emptyStore c3 ⟨fs2, sid, st, cwd, pfx ++ sfx⟩).1 =
        ⟨[⟨sid, st, cwd, fs2.session_file_path⟩], (pfx ++ sfx).map toDetailRow, [fs2]⟩ :=
      processSessionFile_fresh (pfx ++ sfx) sid st cwd fs2 c3 hcum hdelta
    first
    | (rw [hrun2, hfull])
    | (rw [hrun2]; simp)
  }

/-! ### Gemini lemmas for resumability (claim C8) -/

namespace GeminiUsage

/-- The strict key order is irreflexive. -/
lemma gemKeyLt_irrefl (a : Int × String) : gemKeyLt a a = false := by
  simp [gemKeyLt]

/-- The strict key order is transitive. -/
lemma gemKeyLt_trans {a b c : Int × String} (hab : gemKeyLt a b = true)
    (hbc : gemKeyLt b c = true) : gemKeyLt a c = true := by
  rcases (gemKeyLt_iff a b).mp hab with h1 | ⟨h1, h2⟩ <;>
    rcases (gemKeyLt_iff b c).mp hbc with g1 | ⟨g1, g2⟩
  · exact (gemKeyLt_iff a c).mpr (Or.inl (lt_trans h1 g1))
  · exact (gemKeyLt_iff a c).mpr (Or.inl (lt_of_lt_of_le h1 (le_of_eq g1)))
  · exact (gemKeyLt_iff a c).mpr (Or.inl (lt_of_le_of_lt (le_of_eq h1) g1))
  · exact (gemKeyLt_iff a c).mpr (Or.inr ⟨h1.trans g1, lt_trans h2 g2⟩)

/-- The strict key order is asymmetric. -/
lemma gemKeyLt_asymm {a b : Int × String} (h : gemKeyLt a b = true) :
    gemKeyLt b a = false := by
  by_cases hba : gemKeyLt b a = true
  · have := gemKeyLt_trans h hba
    rw [gemKeyLt_irrefl] at this
    exact Bool.noConfusion this
  · simpa using hba

/-- Strictly key-increasing events have pairwise distinct keys. -/
lemma gemDistinct_of_chain (events : List GemEvent)
    (h : List.Chain' (fun a b => gemKeyLt (eventKey a) (eventKey b) = true) events) :
    List.Pairwise (fun a b => eventKey a ≠ eventKey b) events := by
  haveI : IsTrans GemEvent (fun a b => gemKeyLt (eventKey a) (eventKey b) = true) :=
    ⟨fun a b c hab hbc => gemKeyLt_trans hab hbc⟩
  exact (List.chain'_iff_pairwise.mp h).imp (fun hab heq => by
    rw [heq, gemKeyLt_irrefl] at hab
    exact Bool.noConfusion hab)

/-- An event whose key orders strictly before the checkpoint key fails the
tail-window test. -/
lemma gemPasses_false_of_lt (e : GemEvent) (k : Int × String)
    (h : gemKeyLt (eventKey e) k = true) :
    gemPassesCheckpoint e.ts e.model ⟨k.1, k.2⟩ = false := by
  obtain ⟨k1, k2⟩ := k
  have h' := (gemKeyLt_iff _ _).mp h
  simp [eventKey] at h'
  rcases h' with h1 | ⟨h1, h2⟩
  · unfold gemPassesCheckpoint
    rw [if_neg (by exact not_lt.mpr (le_of_lt h1))]
    simp [ne_of_lt h1]
  · subst h1
    unfold gemPassesCheckpoint
    rw [if_neg (lt_irrefl _)]
    simp [not_le.mpr h2]

/-- The checkpoint event itself passes the tail-window test. -/
lemma gemPasses_self (e : GemEvent) :
    gemPassesCheckpoint e.ts e.model ⟨e.ts, e.model⟩ = true := by
  unfold gemPassesCheckpoint
  rw [if_neg (lt_irrefl _)]
  simp

/-- An event whose key orders strictly after the checkpoint key passes the
tail-window test. -/
lemma gemPasses_true_of_gt (e : GemEvent) (k : Int × String)
    (h : gemKeyLt k (eventKey e) = true) :
    gemPassesCheckpoint e.ts e.model ⟨k.1, k.2⟩ = true := by
  obtain ⟨k1, k2⟩ := k
  have h' := (gemKeyLt_iff _ _).mp h
  simp [eventKey] at h'
  rcases h' with h1 | ⟨h1, h2⟩
  · unfold gemPassesCheckpoint
    rw [if_pos h1]
  · subst h1
    unfold gemPassesCheckpoint
    rw [if_neg (lt_irrefl _)]
    simp [le_of_lt h2]

/-- The checkpoint filter of the second read keeps exactly the checkpoint
event and the appended tail. -/
lemma gem_tail_filter (front : List GemEvent) (lastE : GemEvent) (sfx : List GemEvent)
    (hf1 : ∀ e ∈ front, gemKeyLt (eventKey e) (eventKey lastE) = true)
    (hf2 : ∀ e ∈ sfx, gemKeyLt (eventKey lastE) (eventKey e) = true) :
    (front ++ lastE :: sfx).filter (gemKept (some ⟨lastE.ts, lastE.model⟩)) =
      lastE :: sfx := by
  rw [List.filter_append]
  have h1 : front.filter (gemKept (some ⟨lastE.ts, lastE.model⟩)) = [] := by
    rw [List.filter_eq_nil_iff]
    intro e he
    have hpf := gemPasses_false_of_lt e (eventKey lastE) (hf1 e he)
    simp [eventKey] at hpf
    simp [gemKept, hpf]
  have hhead : gemKept (some ⟨lastE.ts, lastE.model⟩) lastE = true := by
    simp [gemKept, gemPasses_self]
  have h2 : sfx.filter (gemKept (some ⟨lastE.ts, lastE.model⟩)) = sfx := by
    rw [List.filter_eq_self]
    intro e he
    have hpt := gemPasses_true_of_gt e (eventKey lastE) (hf2 e he)
    simp [eventKey] at hpt
    simp [gemKept, hpt]
  rw [h1, List.filter_cons, if_pos hhead, h2]
  rfl

end GeminiUsage

namespace GeminiUsage

/-- Folding the running maximum along key-increasing keys lands on the last
key. -/
lemma gemMaxFold_anchor (ks : List (Int × String)) :
    ∀ k, List.Chain (fun a b => gemKeyLt a b = true) k ks →
      gemMaxFold (some k) ks = some (gemLastKey k ks) := by
  induction ks with
  | nil => intro k _; rfl
  | cons x rest ih =>
    intro k hchain
    rw [List.chain_cons] at hchain
    have hstep : gemMaxStep (some k) x = some x := by simp [gemMaxStep, hchain.1]
    show List.foldl gemMaxStep (gemMaxStep (some k) x) rest = _
    rw [hstep]
    exact ih x hchain.2

/-- The end of the key walk over mapped events anchored at an event. -/
lemma gemLastKey_map (rest : List GemEvent) :
    ∀ e : GemEvent, gemLastKey (eventKey e) (rest.map eventKey) =
      eventKey ((e :: rest).getLast (List.cons_ne_nil e rest)) := by
  induction rest with
  | nil => intro e; rfl
  | cons q rest' ih =>
    intro e
    show gemLastKey (eventKey q) (rest'.map eventKey) = _
    rw [ih q]
    simp [List.getLast_cons]

/-- The parser's running maximum over strictly key-increasing events is the
key of the last event. -/
lemma gemMaxFold_eq_getLast (events : List GemEvent) (hne : events ≠ [])
    (hchain : List.Chain' (fun a b => gemKeyLt (eventKey a) (eventKey b) = true) events) :
    gemMaxFold none (events.map eventKey) = some (eventKey (events.getLast hne)) := by
  cases events with
  | nil => exact absurd rfl hne
  | cons e rest =>
    rw [List.map_cons]
    have hanchor : List.Chain (fun a b : GemEvent =>
        gemKeyLt (eventKey a) (eventKey b) = true) e rest := hchain
    have hkeys : List.Chain (fun a b => gemKeyLt a b = true) (eventKey e)
        (rest.map eventKey) := (List.chain_map eventKey).mpr hanchor
    show List.foldl gemMaxStep (gemMaxStep none (eventKey e)) (rest.map eventKey) = _
    have hstep : gemMaxStep none (eventKey e) = some (eventKey e) := rfl
    rw [hstep]
    show gemMaxFold (some (eventKey e)) (rest.map eventKey) = _
    rw [gemMaxFold_anchor (rest.map eventKey) (eventKey e) hkeys]
    rw [gemLastKey_map rest e]

/-- Inserting a usage row whose primary key is already stored is a no-op. -/
lemma gemInsertUsageRow_existing (usage_events : List GemUsageRow) (r : GemUsageRow)
    (h : ∃ e ∈ usage_events, e.project_id = r.project_id ∧
      e.event_timestamp = r.event_timestamp ∧ e.model_code = r.model_code) :
    gemInsertUsageRow usage_events r = usage_events := by
  have hany : usage_events.any (fun e =>
      decide (e.project_id = r.project_id ∧ e.event_timestamp = r.event_timestamp ∧
              e.model_code = r.model_code)) = true := by
    obtain ⟨e, he, h1, h2, h3⟩ := h
    exact List.any_eq_true.mpr ⟨e, he, by simp [h1, h2, h3]⟩
  unfold gemInsertUsageRow
  simp only [hany]
  simp

/-- Inserting events with fresh, pairwise-distinct keys appends them in
order. -/
lemma gemInsertUsageEvents_all_new (rows : List GemEvent) :
    ∀ (usage_events : List GemUsageRow) (pid : Nat),
      List.Pairwise (fun a b => eventKey a ≠ eventKey b) rows →
      (∀ r ∈ rows, ∀ e ∈ usage_events,
        ¬(e.project_id = pid ∧ e.event_timestamp = r.ts ∧ e.model_code = r.model)) →
      gemInsertUsageEvents usage_events pid rows =
        usage_events ++ rows.map (toUsageRow pid) := by
  induction rows with
  | nil => intro usage_events pid _ _; simp [gemInsertUsageEvents]
  | cons r rest ih =>
    intro usage_events pid hdist habs
    have hany : usage_events.any (fun e =>
        decide (e.project_id = (toUsageRow pid r).project_id ∧
                e.event_timestamp = (toUsageRow pid r).event_timestamp ∧
                e.model_code = (toUsageRow pid r).model_code)) = false := by
      rw [List.any_eq_false]
      intro e he
      simpa [toUsageRow, not_and] using habs r (List.mem_cons_self _ _) e he
    have hstep : gemInsertUsageRow usage_events (toUsageRow pid r) =
        usage_events ++ [toUsageRow pid r] := by
      unfold gemInsertUsageRow
      simp only [hany]
      simp
    have habs' : ∀ r' ∈ rest, ∀ e ∈ usage_events ++ [toUsageRow pid r],
        ¬(e.project_id = pid ∧ e.event_timestamp = r'.ts ∧ e.model_code = r'.model) := by
      intro r' hr' e he hcontra
      rcases List.mem_append.mp he with he | he
      · exact habs r' (List.mem_cons_of_mem _ hr') e he hcontra
      · have hee : e = toUsageRow pid r := by simpa using he
        subst hee
        have h2 : r.ts = r'.ts := hcontra.2.1
        have h3 : r.model = r'.model := hcontra.2.2
        have hkeys : eventKey r = eventKey r' := by simp [eventKey, h2, h3]
        exact (List.pairwise_cons.mp hdist).1 r' hr' hkeys
    have hrec := ih (usage_events ++ [toUsageRow pid r]) pid
      (List.pairwise_cons.mp hdist).2 habs'
    show gemInsertUsageEvents (gemInsertUsageRow usage_events (toUsageRow pid r)) pid rest = _
    rw [hstep, hrec, List.append_assoc]
    rfl

end GeminiUsage

namespace GeminiUsage

/-- The first run over a tracked-but-never-ingested source stores every
event and checkpoints the last event's key. -/
lemma gemProcessSource_fresh (pid : Nat) (path : String) (active : Bool)
    (fst : GemFileState) (c : GemCounters) (events : List GemEvent) (hne : events ≠ [])
    (hchain : List.Chain' (fun a b => gemKeyLt (eventKey a) (eventKey b) = true) events) :
    ∃ c' : GemCounters,
      gemProcessSource ⟨[⟨pid, path, active, none, none, none⟩], []⟩ c
        ⟨path, fst, events⟩ =
      .ok (⟨[⟨pid, path, active, some fst.file_size_bytes, some fst.file_mtime,
              some ⟨(events.getLast hne).ts, (events.getLast hne).model⟩⟩],
            events.map (toUsageRow pid)⟩, c') := by
  have hdist := gemDistinct_of_chain events hchain
  have hgo := gemParseGo_ok_of_distinct events none [] none 0 0 hdist (by simp)
  have hfilter : events.filter (gemKept none) = events :=
    List.filter_eq_self.mpr (fun a _ => rfl)
  have hmax := gemMaxFold_eq_getLast events hne hchain
  have hparse : parse_usage_jsonl none events =
      .ok ⟨events, events.length, events.countP (fun e => !gemKept none e),
           some (eventKey (events.getLast hne))⟩ := by
    unfold parse_usage_jsonl
    simp [hgo, hfilter, hmax]
  have hfind : ([(⟨pid, path, active, none, none, none⟩ : GemSourceRow)]).find?
      (fun s => decide (s.jsonl_file_path = path)) =
      some ⟨pid, path, active, none, none, none⟩ := by
    simp [List.find?]
  have hnm : gemFileStateMatches ⟨pid, path, active, none, none, none⟩ fst = false := rfl
  have hres : gemResolveCheckpoint none (some (eventKey (events.getLast hne))) =
      some ⟨(events.getLast hne).ts, (events.getLast hne).model⟩ := rfl
  have hupd : gemUpdateSourceBookkeeping [⟨pid, path, active, none, none, none⟩] pid fst
      (some ⟨(events.getLast hne).ts, (events.getLast hne).model⟩) =
      [⟨pid, path, active, some fst.file_size_bytes, some fst.file_mtime,
        some ⟨(events.getLast hne).ts, (events.getLast hne).model⟩⟩] := by
    simp [gemUpdateSourceBookkeeping]
  have hins : gemInsertUsageEvents [] pid events = events.map (toUsageRow pid) := by
    have := gemInsertUsageEvents_all_new events [] pid hdist
      (by intro r _ e he; simp at he)
    simpa using this
  refine ⟨{ c with
      sources_scanned := c.sources_scanned + 1
      sources_ingested := c.sources_ingested + 1
      usage_events_total := c.usage_events_total + events.length
      usage_events_skipped_before_checkpoint :=
        c.usage_events_skipped_before_checkpoint +
          events.countP (fun e => !gemKept none e)
      usage_rows_attempted_insert := c.usage_rows_attempted_insert + events.length }, ?_⟩
  simp [gemProcessSource, hfind, hnm, hparse, hres, hupd, hins]

/-- Re-reading the grown file under the stored checkpoint parses exactly the
checkpoint event plus the appended tail, and the append-only check passes. -/
lemma gem_parse_incremental (pfx sfx : List GemEvent) (hne : pfx ≠ [])
    (hchain : List.Chain' (fun a b => gemKeyLt (eventKey a) (eventKey b) = true)
      (pfx ++ sfx)) :
    parse_usage_jsonl (some ⟨(pfx.getLast hne).ts, (pfx.getLast hne).model⟩)
        (pfx ++ sfx) =
      .ok ⟨pfx.getLast hne :: sfx, (pfx ++ sfx).length,
           (pfx ++ sfx).countP (fun e =>
             !gemKept (some ⟨(pfx.getLast hne).ts, (pfx.getLast hne).model⟩) e),
           some (eventKey ((pfx ++ sfx).getLast
             (List.append_ne_nil_of_left_ne_nil hne sfx)))⟩ := by
  have hdist := gemDistinct_of_chain _ hchain
  have hgo := gemParseGo_ok_of_distinct (pfx ++ sfx)
    (some ⟨(pfx.getLast hne).ts, (pfx.getLast hne).model⟩) [] none 0 0 hdist (by simp)
  set lastE := pfx.getLast hne with hlastE
  haveI : IsTrans GemEvent (fun a b => gemKeyLt (eventKey a) (eventKey b) = true) :=
    ⟨fun a b c hab hbc => gemKeyLt_trans hab hbc⟩
  have hP := List.chain'_iff_pairwise.mp hchain
  have hdecomp : pfx.dropLast ++ [lastE] = pfx := List.dropLast_append_getLast hne
  have hwhole : pfx ++ sfx = pfx.dropLast ++ (lastE :: sfx) := by
    calc pfx ++ sfx = (pfx.dropLast ++ [lastE]) ++ sfx := by rw [hdecomp]
      _ = pfx.dropLast ++ (lastE :: sfx) := by
          rw [List.append_assoc, List.singleton_append]
  have hf1 : ∀ e ∈ pfx.dropLast, gemKeyLt (eventKey e) (eventKey lastE) = true := by
    intro e he
    have hpfx : List.Pairwise (fun a b => gemKeyLt (eventKey a) (eventKey b) = true)
        pfx := (List.pairwise_append.mp hP).1
    rw [← hdecomp] at hpfx
    exact (List.pairwise_append.mp hpfx).2.2 e he lastE (by simp)
  have hf2 : ∀ e ∈ sfx, gemKeyLt (eventKey lastE) (eventKey e) = true := by
    intro e he
    exact (List.pairwise_append.mp hP).2.2 lastE (List.getLast_mem hne) e he
  have hfilt : (pfx ++ sfx).filter (gemKept (some ⟨lastE.ts, lastE.model⟩)) =
      lastE :: sfx := by
    rw [hwhole]
    exact gem_tail_filter pfx.dropLast lastE sfx hf1 hf2
  have hW : pfx ++ sfx ≠ [] := List.append_ne_nil_of_left_ne_nil hne sfx
  have hmax := gemMaxFold_eq_getLast (pfx ++ sfx) hW hchain
  have hT : (lastE :: sfx) ≠ [] := List.cons_ne_nil _ _
  have hgl : (pfx ++ sfx).getLast hW = (lastE :: sfx).getLast hT := by
    have h2 : pfx.dropLast ++ (lastE :: sfx) ≠ [] := by simp
    have step1 : (pfx ++ sfx).getLast hW =
        (pfx.dropLast ++ (lastE :: sfx)).getLast h2 := by
      congr 1
    rw [step1]
    exact List.getLast_append' _ _ hT
  have happ : gemKeyLt (eventKey ((pfx ++ sfx).getLast hW))
      (gemCkptKey ⟨lastE.ts, lastE.model⟩) = false := by
    rw [hgl]
    have hck : gemCkptKey ⟨lastE.ts, lastE.model⟩ = eventKey lastE := rfl
    rw [hck]
    rcases List.mem_cons.mp (List.getLast_mem hT) with hm | hm
    · rw [hm]
      exact gemKeyLt_irrefl _
    · exact gemKeyLt_asymm (hf2 _ hm)
  unfold parse_usage_jsonl
  rw [hgo]
  dsimp only
  rw [hmax]
  dsimp only
  rw [happ]
  rw [hfilt]
  simp

end GeminiUsage

namespace GeminiUsage

/-- The second incremental run over the grown file: the at-checkpoint event
collapses to a no-op via insert-or-ignore on the (project, timestamp, model)
key, the tail is appended, and the stored events equal those of a full run. -/
lemma gemProcessSource_incremental (pid : Nat) (path : String) (active : Bool)
    (fst1 fst2 : GemFileState) (c : GemCounters) (pfx sfx : List GemEvent)
    (hne : pfx ≠ [])
    (hchain : List.Chain' (fun a b => gemKeyLt (eventKey a) (eventKey b) = true)
      (pfx ++ sfx))
    (hsize : fst1.file_size_bytes ≠ fst2.file_size_bytes) :
    ∃ (c' : GemCounters) (srcs : List GemSourceRow),
      gemProcessSource
        ⟨[⟨pid, path, active, some fst1.file_size_bytes, some fst1.file_mtime,
           some ⟨(pfx.getLast hne).ts, (pfx.getLast hne).model⟩⟩],
         pfx.map (toUsageRow pid)⟩ c ⟨path, fst2, pfx ++ sfx⟩ =
      .ok (⟨srcs, (pfx ++ sfx).map (toUsageRow pid)⟩, c') := by
  have hparse := gem_parse_incremental pfx sfx hne hchain
  have hfind : ([(⟨pid, path, active, some fst1.file_size_bytes, some fst1.file_mtime,
      some ⟨(pfx.getLast hne).ts, (pfx.getLast hne).model⟩⟩ : GemSourceRow)]).find?
      (fun s => decide (s.jsonl_file_path = path)) =
      some ⟨pid, path, active, some fst1.file_size_bytes, some fst1.file_mtime,
        some ⟨(pfx.getLast hne).ts, (pfx.getLast hne).model⟩⟩ := by
    simp [List.find?]
  have hnm : gemFileStateMatches ⟨pid, path, active, some fst1.file_size_bytes,
      some fst1.file_mtime, some ⟨(pfx.getLast hne).ts, (pfx.getLast hne).model⟩⟩
      fst2 = false := by
    simp [gemFileStateMatches, hsize]
  haveI : IsTrans GemEvent (fun a b => gemKeyLt (eventKey a) (eventKey b) = true) :=
    ⟨fun a b c hab hbc => gemKeyLt_trans hab hbc⟩
  have hP := List.chain'_iff_pairwise.mp hchain
  have hdist := gemDistinct_of_chain _ hchain
  have hexist : gemInsertUsageRow (pfx.map (toUsageRow pid))
      (toUsageRow pid (pfx.getLast hne)) = pfx.map (toUsageRow pid) :=
    gemInsertUsageRow_existing _ _ ⟨toUsageRow pid (pfx.getLast hne),
      List.mem_map.mpr ⟨pfx.getLast hne, List.getLast_mem hne, rfl⟩, rfl, rfl, rfl⟩
  have hsfxdist : List.Pairwise (fun a b => eventKey a ≠ eventKey b) sfx :=
    (List.pairwise_append.mp hdist).2.1
  have habs : ∀ r ∈ sfx, ∀ e ∈ pfx.map (toUsageRow pid),
      ¬(e.project_id = pid ∧ e.event_timestamp = r.ts ∧ e.model_code = r.model) := by
    intro r hr e he hcontra
    rcases List.mem_map.mp he with ⟨p, hp, hpe⟩
    subst hpe
    have hlt : gemKeyLt (eventKey p) (eventKey r) = true :=
      (List.pairwise_append.mp hP).2.2 p hp r hr
    have h2 : p.ts = r.ts := hcontra.2.1
    have h3 : p.model = r.model := hcontra.2.2
    have hkeys : eventKey p = eventKey r := by simp [eventKey, h2, h3]
    rw [hkeys, gemKeyLt_irrefl] at hlt
    exact Bool.noConfusion hlt
  have hnew := gemInsertUsageEvents_all_new sfx (pfx.map (toUsageRow pid)) pid
    hsfxdist habs
  have hins : gemInsertUsageEvents (pfx.map (toUsageRow pid)) pid
      (pfx.getLast hne :: sfx) = (pfx ++ sfx).map (toUsageRow pid) := by
    show gemInsertUsageEvents (gemInsertUsageRow (pfx.map (toUsageRow pid))
      (toUsageRow pid (pfx.getLast hne))) pid sfx = _
    rw [hexist, hnew, ← List.map_append]
  refine ⟨{ c with
      sources_scanned := c.sources_scanned + 1
      sources_ingested := c.sources_ingested + 1
      usage_events_total := c.usage_events_total + (pfx ++ sfx).length
      usage_events_skipped_before_checkpoint :=
        c.usage_events_skipped_before_checkpoint +
          (pfx ++ sfx).countP (fun e =>
            !gemKept (some ⟨(pfx.getLast hne).ts, (pfx.getLast hne).model⟩) e)
      usage_rows_attempted_insert :=
        c.usage_rows_attempted_insert + (pfx.getLast hne :: sfx).length },
    gemUpdateSourceBookkeeping
      [⟨pid, path, active, some fst1.file_size_bytes, some fst1.file_mtime,
        some ⟨(pfx.getLast hne).ts, (pfx.getLast hne).model⟩⟩] pid fst2
      (gemResolveCheckpoint
        (some ⟨(pfx.getLast hne).ts, (pfx.getLast hne).model⟩)
        (some (eventKey ((pfx ++ sfx).getLast
          (List.append_ne_nil_of_left_ne_nil hne sfx))))), ?_⟩
  simp [gemProcessSource, hfind, hnm, hparse, hins]

end GeminiUsage

/-! ### Claim C8 -/

open CodexUsage GeminiUsage in
/-- C8.  Resumability: for a well-formed source split into an already-ingested
prefix and a suffix of new events, the second incremental read parses exactly
the checkpoint event plus the suffix (events strictly before the checkpoint
are filtered; the at-checkpoint event collapses to a no-op via
insert-or-ignore on the uniqueness key), the store after two incremental runs
equals the store after one full run over the concatenated source, and the
stored event count equals the source's event count — for the
cumulative-counter (codex) and composite-key (gemini) families. -/
theorem resumability_incremental_equals_full :
    (∀ (pfx sfx : List TokenEventRow) (sid : Nat) (st : Option Int)
        (cwd : Option String) (fs1 fs2 : IngestionFileState)
        (c1 c3 : IngestionCounters),
      List.Chain' (fun a b => a.event_timestamp ≤ b.event_timestamp) (pfx ++ sfx) →
      List.Chain' cumLt (pfx ++ sfx) →
      List.Chain' (fun a b => rowDeltaMatches a b) (pfx ++ sfx) →
      (∀ r ∈ pfx ++ sfx, r.session_id = sid) →
      ∀ hne : pfx ≠ [],
      fs1.session_file_path = fs2.session_file_path →
      fs1.file_size_bytes ≠ fs2.file_size_bytes →
      (parseSessionRows (getSessionCheckpoint
          (processSessionFile emptyStore c1 ⟨fs1, sid, st, cwd, pfx⟩).1 sid)
        (pfx ++ sfx)).token_rows = pfx.getLast hne :: sfx ∧
      (processSessionFile (processSessionFile emptyStore c1 ⟨fs1, sid, st, cwd, pfx⟩).1
        (processSessionFile emptyStore c1 ⟨fs1, sid, st, cwd, pfx⟩).2
        ⟨fs2, sid, st, cwd, pfx ++ sfx⟩).1 =
        (processSessionFile emptyStore c3 ⟨fs2, sid, st, cwd, pfx ++ sfx⟩).1 ∧
      (processSessionFile (processSessionFile emptyStore c1 ⟨fs1, sid, st, cwd, pfx⟩).1
        (processSessionFile emptyStore c1 ⟨fs1, sid, st, cwd, pfx⟩).2
        ⟨fs2, sid, st, cwd, pfx ++ sfx⟩).1.session_details.length =
        (pfx ++ sfx).length) ∧
    (∀ (pid : Nat) (path : String) (fst1 fst2 : GemFileState)
        (cg1 cg2 cg3 : GemCounters) (pfx sfx : List GemEvent),
      List.Chain' (fun a b => gemKeyLt (eventKey a) (eventKey b) = true) (pfx ++ sfx) →
      ∀ hne : pfx ≠ [],
      fst1.file_size_bytes ≠ fst2.file_size_bytes →
      (gemIngest ⟨[⟨pid, path, true, none, none, none⟩], []⟩ cg1
        [⟨path, fst1, pfx⟩]).2.2 = none ∧
      (gemIngest ⟨[⟨pid, path, true, none, none, none⟩], []⟩ cg1
        [⟨path, fst1, pfx⟩]).1.sources =
        [⟨pid, path, true, some fst1.file_size_bytes, some fst1.file_mtime,
          some ⟨(pfx.getLast hne).ts, (pfx.getLast hne).model⟩⟩] ∧
      (∃ parsed : GemParsed,
        parse_usage_jsonl (some ⟨(pfx.getLast hne).ts, (pfx.getLast hne).model⟩)
          (pfx ++ sfx) = .ok parsed ∧
        parsed.usage_rows = pfx.getLast hne :: sfx) ∧
      (gemIngest (gemIngest ⟨[⟨pid, path, true, none, none, none⟩], []⟩ cg1
          [⟨path, fst1, pfx⟩]).1 cg2 [⟨path, fst2, pfx ++ sfx⟩]).2.2 = none ∧
      (gemIngest (gemIngest ⟨[⟨pid, path, true, none, none, none⟩], []⟩ cg1
          [⟨path, fst1, pfx⟩]).1 cg2 [⟨path, fst2, pfx ++ sfx⟩]).1.usage_events =
        (gemIngest ⟨[⟨pid, path, true, none, none, none⟩], []⟩ cg3
          [⟨path, fst2, pfx ++ sfx⟩]).1.usage_events ∧
      (gemIngest (gemIngest ⟨[⟨pid, path, true, none, none, none⟩], []⟩ cg1
          [⟨path, fst1, pfx⟩]).1 cg2
          [⟨path, fst2, pfx ++ sfx⟩]).1.usage_events.length =
        (pfx ++ sfx).length) := by
  constructor
  · intro pfx sfx sid st cwd fs1 fs2 c1 c3 hts hcum hdelta hsid hne hpath hsize
    exact codex_resumability_statement pfx sfx sid st cwd fs1 fs2 c1 c3 hts hcum
      hdelta hsid hne hpath hsize
  · intro pid path fst1 fst2 cg1 cg2 cg3 pfxG sfxG hchain hne hsize
    obtain ⟨c1', h1⟩ := gemProcessSource_fresh pid path true fst1 cg1 pfxG hne
      (List.chain'_append.mp hchain).1
    have hA : gemIngest ⟨[⟨pid, path, true, none, none, none⟩], []⟩ cg1
        [⟨path, fst1, pfxG⟩] =
        (⟨[⟨pid, path, true, some fst1.file_size_bytes, some fst1.file_mtime,
            some ⟨(pfxG.getLast hne).ts, (pfxG.getLast hne).model⟩⟩],
          pfxG.map (toUsageRow pid)⟩, c1', none) := by
      simp [gemIngest, h1]
    obtain ⟨c2', srcs, h2⟩ := gemProcessSource_incremental pid path true fst1 fst2 cg2
      pfxG sfxG hne hchain hsize
    have hB : gemIngest (gemIngest ⟨[⟨pid, path, true, none, none, none⟩], []⟩ cg1
        [⟨path, fst1, pfxG⟩]).1 cg2 [⟨path, fst2, pfxG ++ sfxG⟩] =
        (⟨srcs, (pfxG ++ sfxG).map (toUsageRow pid)⟩, c2', none) := by
      rw [hA]
      show gemIngest ⟨[⟨pid, path, true, some fst1.file_size_bytes, some fst1.file_mtime,
          some ⟨(pfxG.getLast hne).ts, (pfxG.getLast hne).model⟩⟩],
        pfxG.map (toUsageRow pid)⟩ cg2 [⟨path, fst2, pfxG ++ sfxG⟩] = _
      simp [gemIngest, h2]
    have hneW : pfxG ++ sfxG ≠ [] := List.append_ne_nil_of_left_ne_nil hne sfxG
    obtain ⟨c3', h3⟩ := gemProcessSource_fresh pid path true fst2 cg3 (pfxG ++ sfxG)
      hneW hchain
    have hF : gemIngest ⟨[⟨pid, path, true, none, none, none⟩], []⟩ cg3
        [⟨path, fst2, pfxG ++ sfxG⟩] =
        (⟨[⟨pid, path, true, some fst2.file_size_bytes, some fst2.file_mtime,
            some ⟨((pfxG ++ sfxG).getLast hneW).ts,
                 ((pfxG ++ sfxG).getLast hneW).model⟩⟩],
          (pfxG ++ sfxG).map (toUsageRow pid)⟩, c3', none) := by
      simp [gemIngest, h3]
    refine ⟨by rw [hA], by rw [hA],
      ⟨_, gem_parse_incremental pfxG sfxG hne hchain, rfl⟩,
      by rw [hB], by rw [hB, hF], by rw [hB]; simp⟩

open CodexUsage GeminiUsage in
/-- Witness for C8: a codex session grows from [exRow10] to
[exRow10, exRow18] across snapshots exC8Fs1/exC8Fs2, and a gemini source of
project 7 grows from one api_response event to two; in both families the
second incremental run reproduces the full run's store with one stored row
per source event. -/
theorem resumability_incremental_equals_full_witness :
    List.Chain' cumLt ([exRow10] ++ [exRow18]) ∧
    exC8Fs1.file_size_bytes ≠ exC8Fs2.file_size_bytes ∧
    (processSessionFile
        (processSessionFile emptyStore {} ⟨exC8Fs1, 1, none, none, [exRow10]⟩).1
        (processSessionFile emptyStore {} ⟨exC8Fs1, 1, none, none, [exRow10]⟩).2
        ⟨exC8Fs2, 1, none, none, [exRow10] ++ [exRow18]⟩).1 =
      (processSessionFile emptyStore {}
        ⟨exC8Fs2, 1, none, none, [exRow10] ++ [exRow18]⟩).1 ∧
    (processSessionFile
        (processSessionFile emptyStore {} ⟨exC8Fs1, 1, none, none, [exRow10]⟩).1
        (processSessionFile emptyStore {} ⟨exC8Fs1, 1, none, none, [exRow10]⟩).2
        ⟨exC8Fs2, 1, none, none, [exRow10] ++ [exRow18]⟩).1.session_details.length =
      ([exRow10] ++ [exRow18]).length ∧
    (gemIngest (gemIngest ⟨[⟨7, "g.jsonl", true, none, none, none⟩], []⟩ {}
        [⟨"g.jsonl", ⟨10, 100⟩, [gemEv 1 "m"]⟩]).1 {}
        [⟨"g.jsonl", ⟨20, 200⟩, [gemEv 1 "m"] ++ [gemEv 2 "m"]⟩]).1.usage_events =
      (gemIngest ⟨[⟨7, "g.jsonl", true, none, none, none⟩], []⟩ {}
        [⟨"g.jsonl", ⟨20, 200⟩, [gemEv 1 "m"] ++ [gemEv 2 "m"]⟩]).1.usage_events ∧
    (gemIngest (gemIngest ⟨[⟨7, "g.jsonl", true, none, none, none⟩], []⟩ {}
        [⟨"g.jsonl", ⟨10, 100⟩, [gemEv 1 "m"]⟩]).1 {}
        [⟨"g.jsonl", ⟨20, 200⟩,
          [gemEv 1 "m"] ++ [gemEv 2 "m"]⟩]).1.usage_events.length =
      ([gemEv 1 "m"] ++ [gemEv 2 "m"]).length := by
  have h := resumability_incremental_equals_full
  have hc := h.1 [exRow10] [exRow18] 1 none none exC8Fs1 exC8Fs2 {} {}
    (by decide) (by decide) (by decide) (by decide) (by decide) rfl (by decide)
  have hg := h.2 7 "g.jsonl" ⟨10, 100⟩ ⟨20, 200⟩ {} {} {} [gemEv 1 "m"] [gemEv 2 "m"]
    (by decide) (by decide) (by decide)
  exact ⟨by decide, by decide, hc.2.1, hc.2.2, hg.2.2.2.2.1, hg.2.2.2.2.2⟩
